import Mathlib

/-!
Verification of the Plaid compiler/VM backend (isaacev/Plaid).

Shallow embedding of:
  * the instruction codec (`int32ToBytes`, `bytesToInt32`, ... and the
    per-instruction `Generate` encoders from `backend/instructions.go`),
  * the opcode table (`OpcodeHalt` ... `OpcodeDecNeg`),
  * the closure constructor `NewClosure` (`backend/functions.go`),
  * the interpreter `Interpreter.Execute` together with its operand
    readers (`readOpcode`, `readInt32`, `readUint32`, `getNext4Bytes`),
  * the compiler `Compile` / `assembly.compile` with the jump
    `Placeholder` machinery (`backend/compiler.go`).

Machine integers are modelled as `Nat` / `Int` with explicit reduction
mod 2^32 where Go's `int32` / `uint32` arithmetic wraps.  32-bit floats
are carried as their IEEE-754 bit patterns (a `Nat` below 2^32): the VM
version under study never performs float arithmetic, it only moves the
bit patterns around, so this loses nothing.
-/

namespace Plaid

/-! ## Instruction codec (conversion helpers)

Go extracts bytes with arithmetic shift-and-mask; on two's complement
that is exactly byte extraction of the value reduced mod 2^32, which is
how the bytes are written here.  Reassembly in Go combines disjoint
byte fields with `|` and `<<`; over disjoint fields bitwise-or is
addition, which is how `bytesToUint32` is written here. -/

/-- Two's-complement reading of a 32-bit pattern (Go `int32` cast). -/
def toSigned32 (u : Nat) : Int :=
  if u % 4294967296 < 2147483648 then ((u % 4294967296 : Nat) : Int)
  else ((u % 4294967296 : Nat) : Int) - 4294967296

/-- Two's-complement bit pattern of an `int32` value (Go `uint32` cast). -/
def toUnsigned32 (v : Int) : Nat :=
  (v % 4294967296).toNat

/-- `uint32ToBytes` arranges the four bytes of `val` in big-endian order. -/
def uint32ToBytes (val : Nat) : List Nat :=
  let b0 := val % 256
  let b1 := val / 256 % 256
  let b2 := val / 65536 % 256
  let b3 := val / 16777216 % 256
  [b3, b2, b1, b0]

/-- `int32ToBytes` big-endian bytes of the two's-complement pattern. -/
def int32ToBytes (val : Int) : List Nat :=
  uint32ToBytes (toUnsigned32 val)

/-- `float32ToBytes`: `math.Float32bits` then `uint32ToBytes`; the float
is already carried as its bit pattern here. -/
def float32ToBytes (bits : Nat) : List Nat :=
  uint32ToBytes bits

/-- `registerToBytes` encodes a register address as a `uint32`. -/
def registerToBytes (reg : Nat) : List Nat :=
  uint32ToBytes reg

/-- `addressToBytes` encodes a bytecode address as a `uint32`. -/
def addressToBytes (addr : Nat) : List Nat :=
  uint32ToBytes addr

/-- `bytesToUint32 b0 b1 b2 b3` where `b0` is the most significant byte
(the callers pass `blob[0] .. blob[3]` of a big-endian blob). -/
def bytesToUint32 (b0 b1 b2 b3 : Nat) : Nat :=
  b3 + b2 * 256 + b1 * 65536 + b0 * 16777216

/-- `bytesToInt32`: same reassembly, read as a signed 32-bit value
(in Go the `int32(b0) << 24` summand wraps into the sign). -/
def bytesToInt32 (b0 b1 b2 b3 : Nat) : Int :=
  toSigned32 (bytesToUint32 b0 b1 b2 b3)

/-- `bytesToFloat32`: reassemble the bit pattern (`math.Float32frombits`
is the identity on the carried bit pattern). -/
def bytesToFloat32 (b0 b1 b2 b3 : Nat) : Nat :=
  bytesToUint32 b0 b1 b2 b3

/-! ## Opcode table (the studied version of the opcode file) -/

def OpcodeNop : Nat := 0x01
def OpcodeHalt : Nat := 0x02
def OpcodeBoolConst : Nat := 0x03
def OpcodeIntConst : Nat := 0x04
def OpcodeDecConst : Nat := 0x05
def OpcodeStrConst : Nat := 0x06
def OpcodeFuncConst : Nat := 0x07
def OpcodeMove : Nat := 0x08
def OpcodeLoadUpVal : Nat := 0x09
def OpcodeSetUpVal : Nat := 0x0A
def OpcodeBrAlways : Nat := 0x0B
def OpcodeBrTrue : Nat := 0x0C
def OpcodeBrFalse : Nat := 0x0D
def OpcodeDispatch : Nat := 0x0E
def OpcodeReturn : Nat := 0x0F
def OpcodePrint : Nat := 0x10

def OpcodeIntLT : Nat := 0x70
def OpcodeIntLTEq : Nat := 0x71
def OpcodeIntGT : Nat := 0x72
def OpcodeIntGTEq : Nat := 0x73
def OpcodeIntEq : Nat := 0x74
def OpcodeIntAdd : Nat := 0x75
def OpcodeIntSub : Nat := 0x76
def OpcodeIntMul : Nat := 0x77
def OpcodeIntDiv : Nat := 0x78
def OpcodeIntNeg : Nat := 0x79

def OpcodeDecLT : Nat := 0x80
def OpcodeDecLTEq : Nat := 0x81
def OpcodeDecGT : Nat := 0x82
def OpcodeDecGTEq : Nat := 0x83
def OpcodeDecEq : Nat := 0x84
def OpcodeDecAdd : Nat := 0x85
def OpcodeDecSub : Nat := 0x86
def OpcodeDecMul : Nat := 0x87
def OpcodeDecDiv : Nat := 0x88
def OpcodeDecNeg : Nat := 0x89

/-! ## Instructions and their `Generate` encodings

One constructor per instruction struct of `backend/instructions.go`
(`StrConcat` is omitted: its opcode constant does not exist in the
studied opcode table and the compiler never emits it).  `ret` stands
for the `Return` instruction struct. -/

inductive Instr where
  | halt
  | boolConst (value : Bool) (dest : Nat)
  | intConst (value : Int) (dest : Nat)
  | decConst (bits : Nat) (dest : Nat)
  | strConst (constantIndex : Nat) (dest : Nat)
  | funcConst (constantIndex : Nat) (dest : Nat)
  | move (source : Nat) (dest : Nat)
  | loadUpVal (index : Int) (dest : Nat)
  | setUpVal (source : Nat) (index : Int)
  | brAlways (addr : Nat)
  | brTrue (test : Nat) (addr : Nat)
  | brFalse (source : Nat) (addr : Nat)
  | intLT (left right dest : Nat)
  | intLTEq (left right dest : Nat)
  | intGT (left right dest : Nat)
  | intGTEq (left right dest : Nat)
  | intEq (left right dest : Nat)
  | dispatch (source : Nat) (firstArgRegister : Nat)
  | ret (source : Nat)
  | intAdd (left right dest : Nat)
  | intSub (left right dest : Nat)
  | intMul (left right dest : Nat)
  | intDiv (left right dest : Nat)
  | intNeg (operand dest : Nat)
  | decLT (left right dest : Nat)
  | decLTEq (left right dest : Nat)
  | decGT (left right dest : Nat)
  | decGTEq (left right dest : Nat)
  | decEq (left right dest : Nat)
  | decAdd (left right dest : Nat)
  | decSub (left right dest : Nat)
  | decMul (left right dest : Nat)
  | decDiv (left right dest : Nat)
  | decNeg (operand dest : Nat)
  | print (source : Nat)
deriving DecidableEq, Repr

/-- The per-struct `Generate` methods: opcode byte followed by the
operand bytes, in the order the Go methods append them. -/
def encode : Instr → List Nat
  | .halt => [OpcodeHalt]
  | .boolConst v d =>
      OpcodeBoolConst :: (int32ToBytes (if v then 1 else 0) ++ registerToBytes d)
  | .intConst v d => OpcodeIntConst :: (int32ToBytes v ++ registerToBytes d)
  | .decConst bits d => OpcodeDecConst :: (float32ToBytes bits ++ registerToBytes d)
  | .strConst k d => OpcodeStrConst :: (uint32ToBytes k ++ registerToBytes d)
  | .funcConst k d => OpcodeFuncConst :: (uint32ToBytes k ++ registerToBytes d)
  | .move s d => OpcodeMove :: (registerToBytes s ++ registerToBytes d)
  | .loadUpVal i d => OpcodeLoadUpVal :: (int32ToBytes i ++ registerToBytes d)
  | .setUpVal s i => OpcodeSetUpVal :: (registerToBytes s ++ int32ToBytes i)
  | .brAlways a => OpcodeBrAlways :: addressToBytes a
  | .brTrue t a => OpcodeBrTrue :: (registerToBytes t ++ addressToBytes a)
  | .brFalse s a => OpcodeBrFalse :: (registerToBytes s ++ addressToBytes a)
  | .intLT l r d =>
      OpcodeIntLT :: (registerToBytes l ++ registerToBytes r ++ registerToBytes d)
  | .intLTEq l r d =>
      OpcodeIntLTEq :: (registerToBytes l ++ registerToBytes r ++ registerToBytes d)
  | .intGT l r d =>
      OpcodeIntGT :: (registerToBytes l ++ registerToBytes r ++ registerToBytes d)
  | .intGTEq l r d =>
      OpcodeIntGTEq :: (registerToBytes l ++ registerToBytes r ++ registerToBytes d)
  | .intEq l r d =>
      OpcodeIntEq :: (registerToBytes l ++ registerToBytes r ++ registerToBytes d)
  | .dispatch s a => OpcodeDispatch :: (registerToBytes s ++ registerToBytes a)
  | .ret s => OpcodeReturn :: registerToBytes s
  | .intAdd l r d =>
      OpcodeIntAdd :: (registerToBytes l ++ registerToBytes r ++ registerToBytes d)
  | .intSub l r d =>
      OpcodeIntSub :: (registerToBytes l ++ registerToBytes r ++ registerToBytes d)
  | .intMul l r d =>
      OpcodeIntMul :: (registerToBytes l ++ registerToBytes r ++ registerToBytes d)
  | .intDiv l r d =>
      OpcodeIntDiv :: (registerToBytes l ++ registerToBytes r ++ registerToBytes d)
  | .intNeg o d => OpcodeIntNeg :: (registerToBytes o ++ registerToBytes d)
  | .decLT l r d =>
      OpcodeDecLT :: (registerToBytes l ++ registerToBytes r ++ registerToBytes d)
  | .decLTEq l r d =>
      OpcodeDecLTEq :: (registerToBytes l ++ registerToBytes r ++ registerToBytes d)
  | .decGT l r d =>
      OpcodeDecGT :: (registerToBytes l ++ registerToBytes r ++ registerToBytes d)
  | .decGTEq l r d =>
      OpcodeDecGTEq :: (registerToBytes l ++ registerToBytes r ++ registerToBytes d)
  | .decEq l r d =>
      OpcodeDecEq :: (registerToBytes l ++ registerToBytes r ++ registerToBytes d)
  | .decAdd l r d =>
      OpcodeDecAdd :: (registerToBytes l ++ registerToBytes r ++ registerToBytes d)
  | .decSub l r d =>
      OpcodeDecSub :: (registerToBytes l ++ registerToBytes r ++ registerToBytes d)
  | .decMul l r d =>
      OpcodeDecMul :: (registerToBytes l ++ registerToBytes r ++ registerToBytes d)
  | .decDiv l r d =>
      OpcodeDecDiv :: (registerToBytes l ++ registerToBytes r ++ registerToBytes d)
  | .decNeg o d => OpcodeDecNeg :: (registerToBytes o ++ registerToBytes d)
  | .print s => OpcodePrint :: registerToBytes s

/-! ## Data model (`backend/functions.go`, the frame/register file)

Go's `*Register` pointers become cell ids into an explicit heap, so
that pointer aliasing (argument registers shared between caller and
callee frames, upvalue cells shared between closures) is captured
exactly.  A register slot (`Registers[i]`, a `*Register` that may be
`nil`) is an `Option Nat`: `none` is the nil pointer, `some c` points
at heap cell `c`. -/

/-- `frontend.UpvalueRecord` (name, local_to_parent, lookup_index). -/
structure UpvalueRecord where
  name : String
  localToParent : Bool
  lookupIndex : Nat
deriving DecidableEq, Repr

/-- `frontend.LocalRecord` (name, is_parameter, lookup_index). -/
structure LocalRecord where
  name : String
  isParameter : Bool
  lookupIndex : Nat
deriving DecidableEq, Repr

/-- `Bytecode`: a byte buffer plus the running `Size` its `Write`
method maintains. -/
structure Bytecode where
  size : Nat
  bytes : List Nat
deriving DecidableEq, Repr

/-- `Bytecode.Write`: append the blob and grow `Size` by its length. -/
def bcWrite (b : Bytecode) (p : List Nat) : Bytecode :=
  { size := b.size + p.length, bytes := b.bytes ++ p }

/-- `FuncPrototype`.  The `Constants` pool holds string values only in
the studied version (the compiler never emits `StrConst`). -/
structure FuncPrototype where
  upvalues : List UpvalueRecord
  locals : List LocalRecord
  constants : List String
  bytecode : Bytecode
deriving DecidableEq, Repr

/-- `Upvalue`: the `Cell` pointer (`*Register`, possibly nil).  The
`Value` field of the Go struct is never used in this version (upvalues
are never closed), so it is not modelled. -/
structure Upvalue where
  cell : Option Nat
deriving DecidableEq, Repr

/-- `Closure`: a prototype paired with its live upvalue vector. -/
structure Closure where
  prototype : FuncPrototype
  upvalues : List Upvalue
deriving DecidableEq, Repr

/-- A runtime value (`Register.Value`, an `interface` in Go): `null`
is the nil interface, `dec` carries the float32 bit pattern. -/
inductive Value where
  | int (v : Int)
  | dec (bits : Nat)
  | bool (b : Bool)
  | str (s : String)
  | closure (c : Closure)
  | null
deriving DecidableEq, Repr

/-- `StackFrame`.  `regs i` is slot `Registers[i]` for `i < 256`; the
Go slice always has length 256, so indices outside `0..255` fault at
the access sites, not here. -/
structure Frame where
  closure : Closure
  returnToAddress : Nat
  regs : Nat → Option Nat

/-- The upvalue a single `UpvalueRecord` resolves to inside
`NewClosure`'s loop, given the enclosing stack frame. -/
def lookupUpvalue (encl : Frame) (record : UpvalueRecord) : Option Upvalue :=
  if record.localToParent then
    -- register address `totalReturns + LookupIndex` of the enclosing
    -- frame's register array (totalReturns = 1)
    if 1 + record.lookupIndex < 256 then some { cell := encl.regs (1 + record.lookupIndex) }
    else none
  else
    -- reuse the enclosing closure's upvalue object itself
    encl.closure.upvalues.get? record.lookupIndex

/-- `NewClosure`.  The Go call site passes the interpreter call stack
bottom-first and reads its last element; here the stack is carried
top-first, so the enclosing frame is the head.  `none` stands for the
panics (empty call stack with upvalues required, out-of-range lookup
indices). -/
def newClosure (callstack : List Frame) (fn : FuncPrototype) : Option Closure :=
  if fn.upvalues.length = 0 then some { prototype := fn, upvalues := [] }
  else
    match callstack with
    | [] => none
    | encl :: _ =>
      (fn.upvalues.mapM (lookupUpvalue encl)).map
        fun ups => { prototype := fn, upvalues := ups }

/-! ## Interpreter (`Interpreter.Execute` of the studied VM file) -/

/-- The Go panics of the interpreter, by site. -/
inductive Fault where
  | unknownOpcode (op : Nat)
  | outOfBytecode
  | emptyCallStack
  | badRegisterIndex
  | nilRegister
  | notAnInt
  | notAClosure
  | badUpvalueIndex
  | nilUpvalueCell
  | danglingCell
  | badFuncIndex
  | closureCreationFailed
  | callStackUnderflow
deriving DecidableEq, Repr

/-- Interpreter state: instruction pointer, call stack (head = the
frame `fp` points at; Go stores the stack bottom-first and keeps `fp`
on its last element), prototype pool, heap of register cells, and the
lines printed so far. -/
structure InterpState where
  ip : Nat
  callStack : List Frame
  funcs : List FuncPrototype
  heap : Nat → Option Value
  nextCell : Nat
  output : List String

inductive StepRes where
  | next (s : InterpState)
  | halted (s : InterpState)
  | fault (f : Fault)

/-- `Bytecode.Bytes[ip]` (`readOpcode` body, sans increment). -/
def readByteAt (bytes : List Nat) (ip : Nat) : Option Nat :=
  (bytes.drop ip).head?

/-- `getNext4Bytes`: the slice `Bytes[ip : ip+4]`, faulting (none) when
fewer than four bytes remain. -/
def getNext4Bytes (bytes : List Nat) (ip : Nat) : Option (Nat × Nat × Nat × Nat) :=
  match bytes.drop ip with
  | b0 :: b1 :: b2 :: b3 :: _ => some (b0, b1, b2, b3)
  | _ => none

/-- `readUint32` (the interpreter's formula matches `bytesToUint32`). -/
def readUint32 (bytes : List Nat) (ip : Nat) : Option Nat :=
  (getNext4Bytes bytes ip).map fun b => bytesToUint32 b.1 b.2.1 b.2.2.1 b.2.2.2

/-- `readInt32` (the interpreter's formula matches `bytesToInt32`). -/
def readInt32 (bytes : List Nat) (ip : Nat) : Option Int :=
  (getNext4Bytes bytes ip).map fun b => bytesToInt32 b.1 b.2.1 b.2.2.1 b.2.2.2

/-- `readRegister` = `RegisterAddress(readUint32())`. -/
def readRegister (bytes : List Nat) (ip : Nat) : Option Nat :=
  readUint32 bytes ip

/-- Allocate a fresh `&Register{Value: v}` cell. -/
def allocCell (s : InterpState) (v : Value) : InterpState × Nat :=
  ({ s with
      heap := fun c => if c = s.nextCell then some v else s.heap c,
      nextCell := s.nextCell + 1 },
   s.nextCell)

/-- Overwrite the value held in an existing cell (Go: write through a
`*Register`). -/
def setCell (s : InterpState) (c : Nat) (v : Value) : InterpState :=
  { s with heap := fun x => if x = c then some v else s.heap x }

/-- Rebind one register slot of a frame (Go: `Registers[i] = ptr`). -/
def setReg (f : Frame) (i : Nat) (slot : Option Nat) : Frame :=
  { f with regs := fun r => if r = i then slot else f.regs r }

/-- `fp.Registers[i]` with the Go bounds panic. -/
def getSlot (f : Frame) (i : Nat) : Except Fault (Option Nat) :=
  if i < 256 then .ok (f.regs i) else .error .badRegisterIndex

/-- `fp.Registers[i].Value`: bounds panic, nil-pointer panic, then the
heap read (a dangling cell cannot arise but is a fault, not a stub). -/
def readRegValue (s : InterpState) (f : Frame) (i : Nat) : Except Fault Value :=
  match getSlot f i with
  | .error e => .error e
  | .ok none => .error .nilRegister
  | .ok (some c) =>
    match s.heap c with
    | some v => .ok v
    | none => .error .danglingCell

/-- What `fmt.Println` shows for a register value.  Integers and
booleans print canonically; the remaining forms are never printed by
any theorem below (the studied VM only ever prints values it created,
and the programs studied print integers). -/
def renderValue : Value → String
  | .int v => toString v
  | .bool b => if b then "true" else "false"
  | .dec bits => "float32bits " ++ toString bits
  | .str s => s
  | .closure _ => "closure"
  | .null => "<nil>"

/-- Wrapping `int32` addition: Go `int32(a) + int32(b)`. -/
def wrap32 (x : Int) : Int :=
  (x + 2147483648) % 4294967296 - 2147483648

/-- `case OpcodeIntConst`: read value and destination, allocate a fresh
register holding the value, bind the destination slot to it. -/
def execIntConst (s : InterpState) (fp : Frame) (rest : List Frame)
    (bytes : List Nat) (ip1 : Nat) : StepRes :=
  match readInt32 bytes ip1 with
  | none => .fault .outOfBytecode
  | some value =>
    match readRegister bytes (ip1 + 4) with
    | none => .fault .outOfBytecode
    | some dest =>
      if dest < 256 then
        let (s1, c) := allocCell s (.int value)
        .next { s1 with ip := ip1 + 8, callStack := setReg fp dest (some c) :: rest }
      else .fault .badRegisterIndex

/-- `case OpcodeFuncConst`: build a closure from `funcs[id]` against
the current call stack and store its handle. -/
def execFuncConst (s : InterpState) (fp : Frame) (rest : List Frame)
    (bytes : List Nat) (ip1 : Nat) : StepRes :=
  match readUint32 bytes ip1 with
  | none => .fault .outOfBytecode
  | some id =>
    match readRegister bytes (ip1 + 4) with
    | none => .fault .outOfBytecode
    | some dest =>
      match s.funcs.get? id with
      | none => .fault .badFuncIndex
      | some fn =>
        match newClosure s.callStack fn with
        | none => .fault .closureCreationFailed
        | some c =>
          if dest < 256 then
            let (s1, cell) := allocCell s (.closure c)
            .next { s1 with ip := ip1 + 8, callStack := setReg fp dest (some cell) :: rest }
          else .fault .badRegisterIndex

/-- `case OpcodeMove`: copy the source value into a fresh register
bound at the destination. -/
def execMove (s : InterpState) (fp : Frame) (rest : List Frame)
    (bytes : List Nat) (ip1 : Nat) : StepRes :=
  match readRegister bytes ip1 with
  | none => .fault .outOfBytecode
  | some source =>
    match readRegister bytes (ip1 + 4) with
    | none => .fault .outOfBytecode
    | some dest =>
      match readRegValue s fp source with
      | .error e => .fault e
      | .ok v =>
        if dest < 256 then
          let (s1, c) := allocCell s v
          .next { s1 with ip := ip1 + 8, callStack := setReg fp dest (some c) :: rest }
        else .fault .badRegisterIndex

/-- `case OpcodeLoadUpVal`: read through the upvalue's cell into a
fresh register bound at the destination. -/
def execLoadUpVal (s : InterpState) (fp : Frame) (rest : List Frame)
    (bytes : List Nat) (ip1 : Nat) : StepRes :=
  match readInt32 bytes ip1 with
  | none => .fault .outOfBytecode
  | some index =>
    match readRegister bytes (ip1 + 4) with
    | none => .fault .outOfBytecode
    | some dest =>
      if index < 0 then .fault .badUpvalueIndex
      else
        match fp.closure.upvalues.get? index.toNat with
        | none => .fault .badUpvalueIndex
        | some uv =>
          match uv.cell with
          | none => .fault .nilUpvalueCell
          | some cell =>
            match s.heap cell with
            | none => .fault .danglingCell
            | some v =>
              if dest < 256 then
                let (s1, c) := allocCell s v
                .next { s1 with ip := ip1 + 8, callStack := setReg fp dest (some c) :: rest }
              else .fault .badRegisterIndex

/-- `case OpcodeSetUpVal`: write the source register's value through
the upvalue's cell (an in-place heap write observed by every sharer). -/
def execSetUpVal (s : InterpState) (fp : Frame) (_rest : List Frame)
    (bytes : List Nat) (ip1 : Nat) : StepRes :=
  match readRegister bytes ip1 with
  | none => .fault .outOfBytecode
  | some source =>
    match readInt32 bytes (ip1 + 4) with
    | none => .fault .outOfBytecode
    | some index =>
      if index < 0 then .fault .badUpvalueIndex
      else
        match fp.closure.upvalues.get? index.toNat with
        | none => .fault .badUpvalueIndex
        | some uv =>
          match uv.cell with
          | none => .fault .nilUpvalueCell
          | some cell =>
            match readRegValue s fp source with
            | .error e => .fault e
            | .ok v => .next { setCell s cell v with ip := ip1 + 8 }

/-- The argument-copy loop of `case OpcodeDispatch`: the *pointers*
`fp.Registers[firstParam+argIndex]` are copied into the callee's
registers `1+argIndex`, so caller and callee share the cells. -/
def copyArgs (caller : Frame) (firstParam : Nat) :
    Nat → Nat → (Nat → Option Nat) → Except Fault (Nat → Option Nat)
  | _, 0, regs => .ok regs
  | argIndex, remaining + 1, regs =>
    if firstParam + argIndex < 256 then
      if 1 + argIndex < 256 then
        copyArgs caller firstParam (argIndex + 1) remaining
          (fun x => if x = 1 + argIndex then caller.regs (firstParam + argIndex) else regs x)
      else .error .badRegisterIndex
    else .error .badRegisterIndex

/-- `case OpcodeDispatch`, after the closure has been fetched and the
first-parameter register read: push a frame for the closure, saving the
resume address into the caller. -/
def execDispatchCore (s : InterpState) (fp : Frame) (rest : List Frame)
    (c : Closure) (firstParam : Nat) (retAddr : Nat) : StepRes :=
  match copyArgs fp firstParam 0 c.prototype.locals.length (fun _ => none) with
  | .error e => .fault e
  | .ok newRegs =>
    let frame : Frame := { closure := c, returnToAddress := 0, regs := newRegs }
    let caller : Frame := { fp with returnToAddress := retAddr }
    .next { s with ip := 0, callStack := frame :: caller :: rest }

/-- `case OpcodeDispatch`: Go fetches and asserts the closure operand
before reading the second operand, preserved here. -/
def execDispatch (s : InterpState) (fp : Frame) (rest : List Frame)
    (bytes : List Nat) (ip1 : Nat) : StepRes :=
  match readRegister bytes ip1 with
  | none => .fault .outOfBytecode
  | some srcReg =>
    match readRegValue s fp srcReg with
    | .error e => .fault e
    | .ok v =>
      match v with
      | .closure c =>
        match readRegister bytes (ip1 + 4) with
        | none => .fault .outOfBytecode
        | some firstParam => execDispatchCore s fp rest c firstParam (ip1 + 8)
      | _ => .fault .notAClosure

/-- `case OpcodeReturn`: the underflow read of `callStack[len-2]`
happens before the operand read, exactly as in the Go code. -/
def execReturn (s : InterpState) (fp : Frame) (rest : List Frame)
    (bytes : List Nat) (ip1 : Nat) : StepRes :=
  match rest with
  | [] => .fault .callStackUnderflow
  | lower :: rest' =>
    match readRegister bytes ip1 with
    | none => .fault .outOfBytecode
    | some sourceReg =>
      if sourceReg > 0 then
        if sourceReg < 256 then
          let topA := setReg fp 0 (fp.regs sourceReg)
          .next { s with ip := lower.returnToAddress,
                         callStack := setReg lower 0 (topA.regs 0) :: rest' }
        else .fault .badRegisterIndex
      else
        .next { s with ip := lower.returnToAddress,
                       callStack := setReg lower 0 (fp.regs 0) :: rest' }

/-- The shared `IntAdd`/`IntSub`/`IntMul` case: both operand registers
are fetched before the destination operand is read; the destination
cell is written *in place* when the slot is already bound. -/
def execIntArith (s : InterpState) (fp : Frame) (rest : List Frame)
    (bytes : List Nat) (ip1 : Nat) (opcode : Nat) : StepRes :=
  match readRegister bytes ip1 with
  | none => .fault .outOfBytecode
  | some leftReg =>
    match readRegister bytes (ip1 + 4) with
    | none => .fault .outOfBytecode
    | some rightReg =>
      match getSlot fp leftReg with
      | .error e => .fault e
      | .ok leftSlot =>
        match getSlot fp rightReg with
        | .error e => .fault e
        | .ok rightSlot =>
          match readRegister bytes (ip1 + 8) with
          | none => .fault .outOfBytecode
          | some dest =>
            match leftSlot with
            | none => .fault .nilRegister
            | some lc =>
              match s.heap lc with
              | none => .fault .danglingCell
              | some lv =>
                match lv with
                | .int leftValue =>
                  match rightSlot with
                  | none => .fault .nilRegister
                  | some rc =>
                    match s.heap rc with
                    | none => .fault .danglingCell
                    | some rv =>
                      match rv with
                      | .int rightValue =>
                        let result : Int :=
                          if opcode = OpcodeIntAdd then wrap32 (leftValue + rightValue)
                          else if opcode = OpcodeIntSub then wrap32 (leftValue - rightValue)
                          else wrap32 (leftValue * rightValue)
                        match getSlot fp dest with
                        | .error e => .fault e
                        | .ok none =>
                          -- slot was nil: bind a fresh empty Register,
                          -- then write the result into that cell
                          let (s1, c) := allocCell s (.int result)
                          .next { s1 with ip := ip1 + 12,
                                          callStack := setReg fp dest (some c) :: rest }
                        | .ok (some c) =>
                          .next { setCell s c (.int result) with ip := ip1 + 12 }
                      | _ => .fault .notAnInt
                | _ => .fault .notAnInt

/-- `case OpcodePrint`: `fmt.Println(arg.Value)` appends one line. -/
def execPrint (s : InterpState) (fp : Frame) (_rest : List Frame)
    (bytes : List Nat) (ip1 : Nat) : StepRes :=
  match readRegister bytes ip1 with
  | none => .fault .outOfBytecode
  | some src =>
    match readRegValue s fp src with
    | .error e => .fault e
    | .ok v => .next { s with ip := ip1 + 4, output := s.output ++ [renderValue v] }

/-- The `switch opcode` of `Interpreter.Execute`: exactly the cases of
the studied VM file; everything else falls to the unknown-opcode
panic. -/
def execOpcode (s : InterpState) (fp : Frame) (rest : List Frame)
    (bytes : List Nat) (ip1 : Nat) (opcode : Nat) : StepRes :=
  if opcode = OpcodeHalt then .halted s
  else if opcode = OpcodeIntConst then execIntConst s fp rest bytes ip1
  else if opcode = OpcodeFuncConst then execFuncConst s fp rest bytes ip1
  else if opcode = OpcodeMove then execMove s fp rest bytes ip1
  else if opcode = OpcodeLoadUpVal then execLoadUpVal s fp rest bytes ip1
  else if opcode = OpcodeSetUpVal then execSetUpVal s fp rest bytes ip1
  -- (the SetUpVal case leaves the call stack untouched)
  else if opcode = OpcodeDispatch then execDispatch s fp rest bytes ip1
  else if opcode = OpcodeReturn then execReturn s fp rest bytes ip1
  else if opcode = OpcodeIntAdd then execIntArith s fp rest bytes ip1 opcode
  else if opcode = OpcodeIntSub then execIntArith s fp rest bytes ip1 opcode
  else if opcode = OpcodeIntMul then execIntArith s fp rest bytes ip1 opcode
  else if opcode = OpcodePrint then execPrint s fp rest bytes ip1
  else .fault (.unknownOpcode opcode)

/-- One iteration of the `Execute` loop. -/
def step (s : InterpState) : StepRes :=
  match s.callStack with
  | [] => .fault .emptyCallStack
  | fp :: rest =>
    let bytes := fp.closure.prototype.bytecode.bytes
    match readByteAt bytes s.ip with
    | none => .fault .outOfBytecode
    | some opcode => execOpcode s fp rest bytes (s.ip + 1) opcode

/-- The opcode byte the next iteration will read. -/
def nextOpcode (s : InterpState) : Option Nat :=
  match s.callStack with
  | [] => none
  | fp :: _ => readByteAt fp.closure.prototype.bytecode.bytes s.ip

/-- Iterate `step`, `none` once the machine halts or faults. -/
def stepN : Nat → InterpState → Option InterpState
  | 0, s => some s
  | n + 1, s =>
    match step s with
    | .next s' => stepN n s'
    | _ => none

inductive RunRes where
  | running (s : InterpState)
  | done (s : InterpState)
  | failed (f : Fault)

/-- Run the `Execute` loop for at most `n` iterations. -/
def runFor : Nat → InterpState → RunRes
  | 0, s => .running s
  | n + 1, s =>
    match step s with
    | .next s' => runFor n s'
    | .halted s' => .done s'
    | .fault f => .failed f

/-- `NewInterpreter`: one frame for the main prototype (built against
the still-empty call stack, so a main prototype that demands upvalues
panics), 256 nil registers, ip 0. -/
def newInterpreter (mainFunc : FuncPrototype) (funcs : List FuncPrototype) :
    Option InterpState :=
  (newClosure [] mainFunc).map fun c =>
    { ip := 0
      callStack := [{ closure := c, returnToAddress := 0, regs := fun _ => none }]
      funcs := funcs
      heap := fun _ => none
      nextCell := 0
      output := [] }

/-! ## Compiler (`backend/compiler.go`)

The AST carries exactly the node data `assembly.compile` consumes.  A
`binary` node records `Left.GetType().String()` (the type tag the
checker stored on the left operand) as `leftTypeName`.  The parent
chain of `assembly` records exists only to route `storeFunc` to the
root, so the global prototype list is threaded explicitly instead.
Recursion over the tree is paced by an explicit fuel parameter; every
theorem below instantiates it concretely. -/

inductive Ast where
  | boolLit (value : Bool)
  | intLit (value : Int)
  | decLit (bits : Nat)
  | funcLit (locals : List LocalRecord) (upvalues : List UpvalueRecord) (body : List Ast)
  | identExpr (name : String)
  | binary (operator : String) (leftTypeName : String) (left right : Ast)
  | declStmt (assignee : String) (assignment : Ast)
  | assignStmt (assignee : String) (assignment : Ast)
  | dispatchExpr (root : Ast) (args : List Ast)
  | returnStmt (argument : Option Ast)
  | printStmt (args : List Ast)
  | ifStmt (ifClause : Ast × List Ast) (elifClauses : List (Ast × List Ast))
      (elseClause : Option (List Ast))

/-- The `assembly` record (minus the parent pointer and the root-only
`childFuncs`, both replaced by explicit threading). -/
structure Assembly where
  currFunc : FuncPrototype
  stackPtr : Nat
  returnRegs : Nat
  localRegs : Nat
  reservedRegs : Nat
deriving Repr

/-- `state.currFunc.Bytecode.Write(inst.Generate())`. -/
def emit (st : Assembly) (i : Instr) : Assembly :=
  { st with currFunc :=
      { st.currFunc with bytecode := bcWrite st.currFunc.bytecode (encode i) } }

/-- `isRegisterOnStack`: not reserved for returns or locals. -/
def isRegisterOnStack (st : Assembly) (reg : Nat) : Bool :=
  st.reservedRegs ≤ reg

def bumpIfOnStack (st : Assembly) (reg : Nat) : Assembly :=
  if isRegisterOnStack st reg then { st with stackPtr := st.stackPtr + 1 } else st

def dropIfOnStack (st : Assembly) (reg : Nat) : Assembly :=
  if isRegisterOnStack st reg then { st with stackPtr := st.stackPtr - 1 } else st

/-- `lookupLocalRegister`: first matching local record, register
`returnRegs + LookupIndex`; `none` is the unknown-variable panic. -/
def lookupLocalRegister (st : Assembly) (name : String) : Option Nat :=
  (st.currFunc.locals.find? (fun r => r.name = name)).map
    fun r => st.returnRegs + r.lookupIndex

/-- `getUpvalueRecord`: position of the first matching upvalue record. -/
def getUpvalueRecord (st : Assembly) (name : String) : Option Nat :=
  st.currFunc.upvalues.findIdx? (fun u => u.name = name)

/-- Opcode choice for an `Int`-typed binary expression; `none` is the
unknown-operator panic. -/
def chooseIntInstr (op : String) (l r d : Nat) : Option Instr :=
  if op = "<" then some (.intLT l r d)
  else if op = "<=" then some (.intLTEq l r d)
  else if op = ">" then some (.intGT l r d)
  else if op = ">=" then some (.intGTEq l r d)
  else if op = "==" then some (.intEq l r d)
  else if op = "+" then some (.intAdd l r d)
  else if op = "-" then some (.intSub l r d)
  else if op = "*" then some (.intMul l r d)
  else if op = "/" then some (.intDiv l r d)
  else none

/-- Opcode choice for a `Dec`-typed binary expression. -/
def chooseDecInstr (op : String) (l r d : Nat) : Option Instr :=
  if op = "<" then some (.decLT l r d)
  else if op = "<=" then some (.decLTEq l r d)
  else if op = ">" then some (.decGT l r d)
  else if op = ">=" then some (.decGTEq l r d)
  else if op = "==" then some (.decEq l r d)
  else if op = "+" then some (.decAdd l r d)
  else if op = "-" then some (.decSub l r d)
  else if op = "*" then some (.decMul l r d)
  else if op = "/" then some (.decDiv l r d)
  else none

/-- A forward-jump placeholder: the byte offsets whose final four
bytes await the resolved target (the `Bytecode` the Go struct points
at is passed explicitly). -/
structure Placeholder where
  placesHeld : List Nat
deriving DecidableEq, Repr

/-- `Placeholder.registerJump`: emit the branch, then record the
offset of its final four bytes (`Bytecode.Size - bytesInInt32`). -/
def registerJump (bc : Bytecode) (ph : Placeholder) (inst : Instr) :
    Bytecode × Placeholder :=
  let bc' := bcWrite bc (encode inst)
  (bc', { placesHeld := ph.placesHeld ++ [bc'.size - 4] })

/-- The four indexed stores of `computeJumps`' inner loop.  Go panics
on an out-of-range store where `List.set` is a no-op; the jump-patch
theorem therefore carries an in-range hypothesis. -/
def writeAddrAt (bs : List Nat) (p : Nat) (ab : List Nat) : List Nat :=
  match ab with
  | [a0, a1, a2, a3] => ((((bs.set p a0).set (p + 1) a1).set (p + 2) a2).set (p + 3) a3)
  | _ => bs

/-- `Placeholder.computeJumps`: overwrite the held four-byte windows
with the big-endian current `Bytecode.Size`. -/
def computeJumps (bc : Bytecode) (ph : Placeholder) : Bytecode :=
  let addrBytes := addressToBytes bc.size
  { size := bc.size,
    bytes := ph.placesHeld.foldl (fun bs p => writeAddrAt bs p addrBytes) bc.bytes }

def registerJumpA (st : Assembly) (ph : Placeholder) (inst : Instr) :
    Assembly × Placeholder :=
  let r := registerJump st.currFunc.bytecode ph inst
  ({ st with currFunc := { st.currFunc with bytecode := r.1 } }, r.2)

def computeJumpsA (st : Assembly) (ph : Placeholder) : Assembly :=
  { st with currFunc :=
      { st.currFunc with bytecode := computeJumps st.currFunc.bytecode ph } }

mutual

/-- `assembly.compile`, one case per AST node of the Go switch; the
produced register is the third component.  `none` collects the
compiler-internal panics. -/
def compile (fuel : Nat) (st : Assembly) (funcs : List FuncPrototype)
    (node : Ast) (destReg : Nat) : Option (Assembly × List FuncPrototype × Nat) :=
  match fuel with
  | 0 => none
  | fuel + 1 =>
    match node with
    | .boolLit v =>
      let st1 := emit st (.boolConst v destReg)
      some (bumpIfOnStack st1 destReg, funcs, destReg)
    | .intLit v =>
      let st1 := emit st (.intConst v destReg)
      some (bumpIfOnStack st1 destReg, funcs, destReg)
    | .decLit bits =>
      let st1 := emit st (.decConst bits destReg)
      some (bumpIfOnStack st1 destReg, funcs, destReg)
    | .funcLit locals ups body => do
      let (st1, f1, constantIndex) ← compileFunction fuel st funcs locals ups body
      let st2 := emit st1 (.funcConst constantIndex destReg)
      some (bumpIfOnStack st2 destReg, f1, destReg)
    | .identExpr name =>
      match getUpvalueRecord st name with
      | some idx =>
        let st1 := emit st (.loadUpVal (idx : Int) destReg)
        some (bumpIfOnStack st1 destReg, funcs, destReg)
      | none =>
        match lookupLocalRegister st name with
        | some r => some (st, funcs, r)
        | none => none
    | .binary op leftTy l r => do
      let (st1, f1, leftReg) ← compile fuel st funcs l st.stackPtr
      let (st2, f2, rightReg) ← compile fuel st1 f1 r st1.stackPtr
      let st3 ←
        if leftTy = "Int" then (chooseIntInstr op leftReg rightReg destReg).map (emit st2)
        else if leftTy = "Dec" then (chooseDecInstr op leftReg rightReg destReg).map (emit st2)
        else some st2
      let st4 := dropIfOnStack st3 leftReg
      let st5 := dropIfOnStack st4 rightReg
      some (bumpIfOnStack st5 destReg, f2, destReg)
    | .declStmt name assignment => do
      let dest2 ← lookupLocalRegister st name
      let (st1, f1, assignmentReg) ← compile fuel st funcs assignment dest2
      let st2 :=
        if assignmentReg ≠ dest2 ∧ isRegisterOnStack st1 assignmentReg = false then
          emit st1 (.move assignmentReg dest2)
        else st1
      some (st2, f1, destReg)
    | .assignStmt name assignment =>
      match getUpvalueRecord st name with
      | some index => do
        let (st1, f1, assignmentReg) ← compile fuel st funcs assignment st.stackPtr
        let st2 := emit st1 (.setUpVal assignmentReg (index : Int))
        some (dropIfOnStack st2 assignmentReg, f1, destReg)
      | none => do
        let (st1, f1, dest2) ← compile fuel st funcs (.identExpr name) st.stackPtr
        let (st2, f2, assignmentReg) ← compile fuel st1 f1 assignment dest2
        let st3 :=
          if assignmentReg ≠ dest2 ∧ isRegisterOnStack st2 assignmentReg = false then
            emit st2 (.move assignmentReg dest2)
          else st2
        some (st3, f2, dest2)
    | .dispatchExpr root args => do
      let (st1, f1, sourceReg) ← compile fuel st funcs root st.stackPtr
      let st2 := bumpIfOnStack st1 sourceReg
      let (st3, f3, firstArgRegister) ← compileDispatchArgs fuel st2 f1 args 0 0
      let st4 := { st3 with stackPtr := firstArgRegister }
      let st5 := emit st4 (.dispatch sourceReg firstArgRegister)
      let st6 := if destReg ≠ 0 then emit st5 (.move 0 destReg) else st5
      some (st6, f3, destReg)
    | .returnStmt argument =>
      match argument with
      | none => some (emit st (.ret 0), funcs, destReg)
      | some arg => do
        let (st1, f1, sourceReg) ← compile fuel st funcs arg st.stackPtr
        some (emit st1 (.ret sourceReg), f1, destReg)
    | .printStmt args =>
      match args with
      | [] => none
      | arg :: _ => do
        let (st1, f1, sourceReg) ← compile fuel st funcs arg st.stackPtr
        some (emit st1 (.print sourceReg), f1, destReg)
    | .ifStmt ifClause elifClauses elseClause => do
      let (st1, f1, ifTestReg) ← compile fuel st funcs ifClause.1 st.stackPtr
      let r1 := registerJumpA st1 { placesHeld := [] } (.brTrue ifTestReg 0)
      let st2 := r1.1
      let ifLabel := r1.2
      let st3 := dropIfOnStack st2 ifTestReg
      let (st4, f4, elifLabels) ← compileElifTests fuel st3 f1 elifClauses
      let r2 := registerJumpA st4 { placesHeld := [] } (.brAlways 0)
      let st5 := r2.1
      let doneLabel0 : Placeholder :=
        match elseClause with | none => r2.2 | some _ => { placesHeld := [] }
      let elseLabel : Placeholder :=
        match elseClause with | none => { placesHeld := [] } | some _ => r2.2
      let st6 := computeJumpsA st5 ifLabel
      let (st7, f7) ← compileStmts fuel st6 f4 ifClause.2
      let r3 :=
        if elseClause.isSome || !elifClauses.isEmpty then
          registerJumpA st7 doneLabel0 (.brAlways 0)
        else (st7, doneLabel0)
      let (st8, f8, doneLabel2) ←
        compileElifBodies fuel r3.1 f7 elifClauses elifLabels r3.2 elseClause.isSome
      let (st9, f9) ←
        match elseClause with
        | none => some (st8, f8)
        | some body => compileStmts fuel (computeJumpsA st8 elseLabel) f8 body
      some (computeJumpsA st9 doneLabel2, f9, destReg)

/-- The statement loops (`for _, stmt := range ...`): each statement
compiles with the *current* `stackPtr` as its destination. -/
def compileStmts (fuel : Nat) (st : Assembly) (funcs : List FuncPrototype)
    (stmts : List Ast) : Option (Assembly × List FuncPrototype) :=
  match fuel with
  | 0 => none
  | fuel + 1 =>
    match stmts with
    | [] => some (st, funcs)
    | stmt :: more => do
      let (st1, f1, _) ← compile fuel st funcs stmt st.stackPtr
      compileStmts fuel st1 f1 more

/-- `compileFunction`: build the child assembly, register the new
prototype in the global list *before* compiling the body (enabling
recursion), then finish with an implicit `Return 0`. -/
def compileFunction (fuel : Nat) (st : Assembly) (funcs : List FuncPrototype)
    (locals : List LocalRecord) (ups : List UpvalueRecord) (body : List Ast) :
    Option (Assembly × List FuncPrototype × Nat) :=
  match fuel with
  | 0 => none
  | fuel + 1 =>
    let subProto : FuncPrototype :=
      { upvalues := ups, locals := locals, constants := [],
        bytecode := { size := 0, bytes := [] } }
    let sub : Assembly :=
      { currFunc := subProto, stackPtr := 1 + locals.length,
        returnRegs := 1, localRegs := locals.length,
        reservedRegs := 1 + locals.length }
    let index := funcs.length
    do
    let (sub2, f2) ← compileStmts fuel sub (funcs ++ [subProto]) body
    let sub3 := emit sub2 (.ret 0)
    some (st, f2.set index sub3.currFunc, index)

/-- The argument loop of the `DispatchExpr` case, remembering the
register of the first argument. -/
def compileDispatchArgs (fuel : Nat) (st : Assembly) (funcs : List FuncPrototype)
    (args : List Ast) (i : Nat) (firstSoFar : Nat) :
    Option (Assembly × List FuncPrototype × Nat) :=
  match fuel with
  | 0 => none
  | fuel + 1 =>
    match args with
    | [] => some (st, funcs, firstSoFar)
    | arg :: more => do
      let (st1, f1, paramReg) ← compile fuel st funcs arg st.stackPtr
      compileDispatchArgs fuel st1 f1 more (i + 1) (if i = 0 then paramReg else firstSoFar)

/-- The elif-condition loop of the `IfStmt` case. -/
def compileElifTests (fuel : Nat) (st : Assembly) (funcs : List FuncPrototype)
    (clauses : List (Ast × List Ast)) :
    Option (Assembly × List FuncPrototype × List Placeholder) :=
  match fuel with
  | 0 => none
  | fuel + 1 =>
    match clauses with
    | [] => some (st, funcs, [])
    | clause :: more => do
      let (st1, f1, testReg) ← compile fuel st funcs clause.1 st.stackPtr
      let r := registerJumpA st1 { placesHeld := [] } (.brTrue testReg 0)
      let st3 := dropIfOnStack r.1 testReg
      let (st4, f4, labels) ← compileElifTests fuel st3 f1 more
      some (st4, f4, r.2 :: labels)

/-- The elif-body loop of the `IfStmt` case: resolve each clause's
label, compile its body, and append a done-jump unless this is the
final clause of an else-less statement. -/
def compileElifBodies (fuel : Nat) (st : Assembly) (funcs : List FuncPrototype)
    (clauses : List (Ast × List Ast)) (labels : List Placeholder)
    (doneLabel : Placeholder) (hasElse : Bool) :
    Option (Assembly × List FuncPrototype × Placeholder) :=
  match fuel with
  | 0 => none
  | fuel + 1 =>
    match clauses, labels with
    | [], _ => some (st, funcs, doneLabel)
    | clause :: more, label :: labels' => do
      let st1 := computeJumpsA st label
      let (st2, f2) ← compileStmts fuel st1 funcs clause.2
      let r :=
        if hasElse || !more.isEmpty then registerJumpA st2 doneLabel (.brAlways 0)
        else (st2, doneLabel)
      compileElifBodies fuel r.1 f2 more labels' r.2 hasElse
    | _ :: _, [] => none

end

/-- `Compile`: the top-level entry point.  Reserves register 0 for
returns and one register per program local, compiles the statements,
and appends the terminal `Halt`. -/
def compileProgram (fuel : Nat) (statements : List Ast)
    (progLocals : List LocalRecord) : Option (FuncPrototype × List FuncPrototype) := do
  let st : Assembly :=
    { currFunc := { upvalues := [], locals := progLocals, constants := [],
                    bytecode := { size := 0, bytes := [] } },
      stackPtr := 1 + progLocals.length,
      returnRegs := 1, localRegs := progLocals.length,
      reservedRegs := 1 + progLocals.length }
  let (st1, f1) ← compileStmts fuel st [] statements
  some ((emit st1 .halt).currFunc, f1)

/-- `Execute` composed with `Compile`: compile a program, create the
interpreter, and run for at most `runFuel` loop iterations. -/
def compileAndRun (fuel runFuel : Nat) (statements : List Ast)
    (progLocals : List LocalRecord) : Option RunRes :=
  (compileProgram fuel statements progLocals).bind fun r =>
    (newInterpreter r.1 r.2).map (runFor runFuel)

/-- The printed lines of a completed (halted) run. -/
def runOutput : Option RunRes → Option (List String)
  | some (.done s) => some s.output
  | _ => none

/-- The fault of a run that died. -/
def runFault : Option RunRes → Option Fault
  | some (.failed f) => some f
  | _ => none

/-- Apply a four-byte decoder to a blob (of the claims' shape). -/
def decode4 {α : Type} (f : Nat → Nat → Nat → Nat → α) (bs : List Nat) (dfl : α) : α :=
  match bs with
  | [b0, b1, b2, b3] => f b0 b1 b2 b3
  | _ => dfl

/-- The opcodes the studied `Execute` loop has cases for. -/
def handledOpcodes : List Nat :=
  [OpcodeHalt, OpcodeIntConst, OpcodeFuncConst, OpcodeMove, OpcodeLoadUpVal,
   OpcodeSetUpVal, OpcodeDispatch, OpcodeReturn, OpcodeIntAdd, OpcodeIntSub,
   OpcodeIntMul, OpcodePrint]

/-! ### Concrete fixtures used by the claim theorems and witnesses -/

/-- A one-instruction main prototype whose first opcode is `IntDiv`. -/
def intDivProto : FuncPrototype :=
  { upvalues := [], locals := [], constants := [],
    bytecode := { size := 13, bytes := encode (.intDiv 1 2 1) } }

/-- A frame over a given prototype with empty registers. -/
def freshFrame (proto : FuncPrototype) : Frame :=
  { closure := { prototype := proto, upvalues := [] },
    returnToAddress := 0,
    regs := fun _ => none }

/-- An interpreter state at the start of a given main prototype. -/
def stateOn (proto : FuncPrototype) (funcs : List FuncPrototype) : InterpState :=
  { ip := 0, callStack := [freshFrame proto], funcs := funcs,
    heap := fun _ => none, nextCell := 0, output := [] }

/-- The compiler state at a statement boundary of a main body with no
locals (`reservedRegs = 1`, `stackPtr = reservedRegs`). -/
def stmtEntryAssembly : Assembly :=
  { currFunc := { upvalues := [], locals := [], constants := [],
                  bytecode := { size := 0, bytes := [] } },
    stackPtr := 1, returnRegs := 1, localRegs := 0, reservedRegs := 1 }

/-- A callee that adds its parameter to itself, writing the result into
the parameter register, then returns. -/
def aliasCallee : FuncPrototype :=
  { upvalues := [],
    locals := [{ name := "x", isParameter := true, lookupIndex := 0 }],
    constants := [],
    bytecode := { size := 18, bytes := encode (.intAdd 1 1 1) ++ encode (.ret 0) } }

/-- Bytecode of a main that loads 5 into r1, dispatches `aliasCallee`
with r1 as the argument window, then prints r1. -/
def aliasMainBytes : List Nat :=
  encode (.intConst 5 1) ++ encode (.funcConst 0 2) ++
    encode (.dispatch 2 1) ++ encode (.print 1) ++ encode .halt

/-- The prototype over `aliasMainBytes`. -/
def aliasMain : FuncPrototype :=
  { upvalues := [], locals := [], constants := [],
    bytecode := { size := 33, bytes := aliasMainBytes } }

/-- The value held by the cell that register `r` of the active frame
points at. -/
def activeRegValue (s : InterpState) (r : Nat) : Option Value :=
  (s.callStack.head?.bind fun f => f.regs r).bind s.heap

/-- An enclosing frame for the `NewClosure` witness: register 2 holds
cell 7, and its own closure has one upvalue on cell 3. -/
def c6Encl : Frame :=
  { closure :=
      { prototype := { upvalues := [{ name := "n", localToParent := true, lookupIndex := 9 }],
                       locals := [], constants := [],
                       bytecode := { size := 0, bytes := [] } },
        upvalues := [{ cell := some 3 }] },
    returnToAddress := 0,
    regs := fun r => if r = 2 then some 7 else none }

/-- A main prototype that immediately dispatches the closure in r2
with r1 as the argument window. -/
def c4wProto : FuncPrototype :=
  { upvalues := [], locals := [], constants := [],
    bytecode := { size := 10, bytes := encode (.dispatch 2 1) ++ encode .halt } }

/-- Its frame: r1 holds cell 0 (the argument), r2 holds cell 1 (the
callee closure). -/
def c4wCaller : Frame :=
  { closure := { prototype := c4wProto, upvalues := [] },
    returnToAddress := 0,
    regs := fun r => if r = 1 then some 0 else if r = 2 then some 1 else none }

/-- The state about to execute that dispatch: cell 0 holds 5, cell 1
holds the `aliasCallee` closure. -/
def c4wState : InterpState :=
  { ip := 0, callStack := [c4wCaller], funcs := [aliasCallee],
    heap := fun c =>
      if c = 0 then some (.int 5)
      else if c = 1 then some (.closure { prototype := aliasCallee, upvalues := [] })
      else none,
    nextCell := 2, output := [] }

/-- The state the dispatch step produces: the callee frame (sharing
cell 0 as its parameter register) above the caller with its resume
address saved. -/
def c4wS1 : InterpState :=
  { c4wState with
    ip := 0,
    callStack :=
      [{ closure := { prototype := aliasCallee, upvalues := [] },
         returnToAddress := 0,
         regs := fun x => if x = 1 then c4wCaller.regs 1 else none },
       { c4wCaller with returnToAddress := 9 }] }

/-- A prototype whose only instruction stores register 3 into
upvalue 0. -/
def c9Proto1 : FuncPrototype :=
  { upvalues := [{ name := "n", localToParent := true, lookupIndex := 0 }],
    locals := [], constants := [],
    bytecode := { size := 9, bytes := encode (.setUpVal 3 0) } }

/-- A frame running `c9Proto1` whose upvalue 0 is the cell 5 and whose
register 3 holds cell 8. -/
def c9Frame1 : Frame :=
  { closure := { prototype := c9Proto1, upvalues := [{ cell := some 5 }] },
    returnToAddress := 0,
    regs := fun r => if r = 3 then some 8 else none }

/-- A state about to execute that `SetUpVal`, with 42 in cell 8. -/
def c9State1 : InterpState :=
  { ip := 0, callStack := [c9Frame1], funcs := [],
    heap := fun c => if c = 8 then some (.int 42) else none,
    nextCell := 9, output := [] }

/-- A prototype whose only instruction loads upvalue 0 into
register 4. -/
def c9Proto2 : FuncPrototype :=
  { upvalues := [{ name := "n", localToParent := false, lookupIndex := 0 }],
    locals := [], constants := [],
    bytecode := { size := 9, bytes := encode (.loadUpVal 0 4) } }

/-- A different closure's frame sharing cell 5 as its upvalue 0. -/
def c9Frame2 : Frame :=
  { closure := { prototype := c9Proto2, upvalues := [{ cell := some 5 }] },
    returnToAddress := 0,
    regs := fun _ => none }

/-- A state about to execute that `LoadUpVal`, over the heap the
`SetUpVal` step of `c9State1` leaves behind. -/
def c9State2 : InterpState :=
  { ip := 0, callStack := [c9Frame2], funcs := [],
    heap := (setCell c9State1 5 (.int 42)).heap,
    nextCell := 9, output := [] }

/-- A prototype capturing one parent-local upvalue (register 1 + 1)
and one pass-through upvalue (position 0 of the parent's vector). -/
def c6Fn : FuncPrototype :=
  { upvalues := [{ name := "a", localToParent := true, lookupIndex := 1 },
                 { name := "b", localToParent := false, lookupIndex := 0 }],
    locals := [], constants := [],
    bytecode := { size := 0, bytes := [] } }

/-! ## Whole-program bytecode layout (for the return-underflow claim)

`Compile` lays a prototype's bytecode out as the concatenation of the
`Generate` blobs of the emitted instructions, in order; `assemble`
reproduces that layout for an explicit instruction list. -/

/-- Concatenation of the encodings, as successive `Bytecode.Write`
calls produce it. -/
def assemble (prog : List Instr) : List Nat :=
  (prog.map encode).join

/-- `ip` sits on an instruction boundary of the assembled program. -/
def BoundaryIn (main : List Instr) (ip : Nat) : Prop :=
  ∃ pre suf, main = pre ++ suf ∧ ip = (assemble pre).length

/-- Encoded length of an instruction, determined by its leading opcode
byte: 1 for Halt, 5 for the one-operand forms, 13 for the
three-register arithmetic and comparison forms, 9 otherwise. -/
def instrLen (b : Nat) : Nat :=
  if b = OpcodeHalt then 1
  else if b = OpcodeBrAlways ∨ b = OpcodeReturn ∨ b = OpcodePrint then 5
  else if (OpcodeIntLT ≤ b ∧ b ≤ OpcodeIntDiv) ∨ (OpcodeDecLT ≤ b ∧ b ≤ OpcodeDecDiv) then 13
  else 9

/-- Run-time invariant tying a state to the instruction list its main
prototype was assembled from: the bottom frame of the call stack runs
that bytecode, the instruction pointer sits on one of its boundaries
whenever the bottom frame is active, and the bottom frame's saved
return address sits on one whenever it is not. -/
def C10Inv (main : List Instr) (s : InterpState) : Prop :=
  ∃ rest bot, s.callStack = rest ++ [bot] ∧
    bot.closure.prototype.bytecode.bytes = assemble main ∧
    (rest = [] → BoundaryIn main s.ip) ∧
    (rest ≠ [] → BoundaryIn main bot.returnToAddress)

/-- A main prototype assembled from the single instruction `halt`. -/
def c10wProto : FuncPrototype :=
  { upvalues := [], locals := [], constants := [],
    bytecode := { size := 1, bytes := assemble [Instr.halt] } }

/-- The state `NewInterpreter` builds for `c10wProto`. -/
def c10wS0 : InterpState :=
  { ip := 0,
    callStack := [{ closure := { prototype := c10wProto, upvalues := [] },
                    returnToAddress := 0, regs := fun _ => none }],
    funcs := [], heap := fun _ => none, nextCell := 0, output := [] }

/-- Ret-freeness of an instruction list: no `Return` anywhere. -/
def RetFreeProg (prog : List Instr) : Prop :=
  ∀ i ∈ prog, ∀ r, i ≠ Instr.ret r

/-- The branch instructions, the only targets of jump patching. -/
def isBranch : Instr → Bool
  | .brAlways _ => true
  | .brTrue _ _ => true
  | .brFalse _ _ => true
  | _ => false

/-- `p` addresses the final four bytes (the `addr` operand) of one
branch instruction of the assembled program. -/
def AddrWindow (prog : List Instr) (p : Nat) : Prop :=
  ∃ pre b suf, prog = pre ++ b :: suf ∧ isBranch b = true ∧
    p + 4 = (assemble pre).length + (encode b).length

/-- The assembly under construction is laid out as `assemble prog`,
with the `Bytecode.Size` counter consistent with the buffer. -/
def GoodAsm (st : Assembly) (prog : List Instr) : Prop :=
  st.currFunc.bytecode.bytes = assemble prog ∧
  st.currFunc.bytecode.size = (assemble prog).length

/-- Every offset the placeholder holds is an addr window of `prog`. -/
def GoodPh (prog : List Instr) (ph : Placeholder) : Prop :=
  ∀ p ∈ ph.placesHeld, AddrWindow prog p

/-- One compilation step refines the layout: ret-freeness and every
existing addr window survive into the new instruction list. -/
def ProgExt (prog prog2 : List Instr) : Prop :=
  (RetFreeProg prog → RetFreeProg prog2) ∧
  ∀ p, AddrWindow prog p → AddrWindow prog2 p

/- No return statement in the global scope: the studied checker
rejects every `ReturnStmt` outside a function-literal body ('return
statements are not allowed outside of a function body'), so a
`Check`-accepted program satisfies this on its top-level statements.
The predicate descends into every position `assembly.compile` emits
into the current prototype; function-literal bodies compile into a
child prototype and are unconstrained.  A `returnStmt` node has no
introduction rule. -/
mutual

/-- Statement-level ret-freeness of one node (see the comment above). -/
inductive TopRetFree : Ast → Prop where
  | boolLit (value : Bool) : TopRetFree (.boolLit value)
  | intLit (value : Int) : TopRetFree (.intLit value)
  | decLit (bits : Nat) : TopRetFree (.decLit bits)
  | funcLit (locals : List LocalRecord) (ups : List UpvalueRecord) (body : List Ast) :
      TopRetFree (.funcLit locals ups body)
  | identExpr (name : String) : TopRetFree (.identExpr name)
  | binary (op ty : String) {l r : Ast} :
      TopRetFree l → TopRetFree r → TopRetFree (.binary op ty l r)
  | declStmt (name : String) {a : Ast} :
      TopRetFree a → TopRetFree (.declStmt name a)
  | assignStmt (name : String) {a : Ast} :
      TopRetFree a → TopRetFree (.assignStmt name a)
  | dispatchExpr {root : Ast} {args : List Ast} :
      TopRetFree root → TopRetFreeL args → TopRetFree (.dispatchExpr root args)
  | printStmt {args : List Ast} :
      TopRetFreeL args → TopRetFree (.printStmt args)
  | ifStmt {test : Ast} {body : List Ast} {elifs : List (Ast × List Ast)}
      {els : Option (List Ast)} :
      TopRetFree test → TopRetFreeL body → TopRetFreeC elifs → TopRetFreeO els →
      TopRetFree (.ifStmt (test, body) elifs els)

inductive TopRetFreeL : List Ast → Prop where
  | nil : TopRetFreeL []
  | cons {a : Ast} {l : List Ast} :
      TopRetFree a → TopRetFreeL l → TopRetFreeL (a :: l)

inductive TopRetFreeC : List (Ast × List Ast) → Prop where
  | nil : TopRetFreeC []
  | cons {t : Ast} {body : List Ast} {more : List (Ast × List Ast)} :
      TopRetFree t → TopRetFreeL body → TopRetFreeC more →
      TopRetFreeC ((t, body) :: more)

inductive TopRetFreeO : Option (List Ast) → Prop where
  | none : TopRetFreeO none
  | some {b : List Ast} : TopRetFreeL b → TopRetFreeO (some b)

end

/-- The checker-valid one-statement program `print 1;`. -/
def c10wProg : List Ast := [Ast.printStmt [Ast.intLit 1]]

/-- The bytes `Compile` produces for `c10wProg`. -/
def c10wMainBytes : List Nat :=
  encode (.intConst 1 1) ++ encode (.print 1) ++ encode .halt

/-- The prototype `Compile` produces for `c10wProg` (the witness
checks this by evaluation). -/
def c10wMainP : FuncPrototype :=
  { upvalues := [], locals := [], constants := [],
    bytecode := { size := 15, bytes := c10wMainBytes } }

/-- The state `NewInterpreter` builds for `c10wMainP`. -/
def c10wS0p : InterpState :=
  { ip := 0,
    callStack := [{ closure := { prototype := c10wMainP, upvalues := [] },
                    returnToAddress := 0, regs := fun _ => none }],
    funcs := [], heap := fun _ => none, nextCell := 0, output := [] }

/-- The net effect of one compiler action on the current assembly:
the layout is refined (`ProgExt`) and the prototype's upvalue records
are untouched. -/
def AsmStep (st st2 : Assembly) (prog prog2 : List Instr) : Prop :=
  GoodAsm st2 prog2 ∧ ProgExt prog prog2 ∧
    st2.currFunc.upvalues = st.currFunc.upvalues

/-! ## Codec lemmas -/

theorem uint32ToBytes_eq (u : Nat) :
    uint32ToBytes u = [u / 16777216 % 256, u / 65536 % 256, u / 256 % 256, u % 256] := rfl

theorem int32ToBytes_eq (v : Int) :
    int32ToBytes v = uint32ToBytes (toUnsigned32 v) := rfl

theorem bytesToUint32_of_bytes (u : Nat) (h : u < 4294967296) :
    bytesToUint32 (u / 16777216 % 256) (u / 65536 % 256) (u / 256 % 256) (u % 256) = u := by
  unfold bytesToUint32
  omega

theorem toUnsigned32_lt (v : Int) : toUnsigned32 v < 4294967296 := by
  unfold toUnsigned32
  omega

theorem toSigned32_toUnsigned32 (v : Int) (h1 : -2147483648 ≤ v) (h2 : v < 2147483648) :
    toSigned32 (toUnsigned32 v) = v := by
  unfold toSigned32 toUnsigned32
  split <;> omega

theorem drop_len_add {α : Type} (pre l : List α) (k : Nat) :
    (pre ++ l).drop (pre.length + k) = l.drop k := by
  rw [← List.drop_drop, List.drop_left]

theorem head?_drop {α : Type} (l : List α) (i : Nat) : (l.drop i).head? = l.get? i := by
  induction l generalizing i with
  | nil => simp
  | cons a t ih =>
    cases i with
    | zero => simp
    | succ j => exact ih j

theorem readUint32_encoded (pre rest : List Nat) (u : Nat) (h : u < 4294967296) :
    readUint32 (pre ++ uint32ToBytes u ++ rest) pre.length = some u := by
  rw [uint32ToBytes_eq]
  have hd : (pre ++ [u / 16777216 % 256, u / 65536 % 256, u / 256 % 256, u % 256]
        ++ rest).drop pre.length
      = u / 16777216 % 256 :: (u / 65536 % 256 :: (u / 256 % 256 :: (u % 256 :: rest))) := by
    rw [List.append_assoc, List.drop_left]
    rfl
  simp only [readUint32, getNext4Bytes, hd]
  simp only [Option.map_some', Option.some.injEq]
  exact bytesToUint32_of_bytes u h

theorem readInt32_encoded (pre rest : List Nat) (v : Int)
    (h1 : -2147483648 ≤ v) (h2 : v < 2147483648) :
    readInt32 (pre ++ int32ToBytes v ++ rest) pre.length = some v := by
  rw [int32ToBytes_eq, uint32ToBytes_eq]
  have hd : (pre ++ [toUnsigned32 v / 16777216 % 256, toUnsigned32 v / 65536 % 256,
        toUnsigned32 v / 256 % 256, toUnsigned32 v % 256] ++ rest).drop pre.length
      = toUnsigned32 v / 16777216 % 256 :: (toUnsigned32 v / 65536 % 256 ::
        (toUnsigned32 v / 256 % 256 :: (toUnsigned32 v % 256 :: rest))) := by
    rw [List.append_assoc, List.drop_left]
    rfl
  simp only [readInt32, getNext4Bytes, hd]
  simp only [Option.map_some', Option.some.injEq, bytesToInt32]
  rw [bytesToUint32_of_bytes _ (toUnsigned32_lt v), toSigned32_toUnsigned32 v h1 h2]

/-- Claim C8: decoding is the left inverse of encoding for all three
32-bit operand kinds, and the interpreter's operand readers recover
the encoders' operands while consuming exactly four bytes. -/
theorem c8_codec_roundtrip :
    (∀ v : Int, -2147483648 ≤ v → v < 2147483648 →
      decode4 bytesToInt32 (int32ToBytes v) 0 = v) ∧
    (∀ u : Nat, u < 4294967296 →
      decode4 bytesToUint32 (uint32ToBytes u) 0 = u) ∧
    (∀ bits : Nat, bits < 4294967296 →
      decode4 bytesToFloat32 (float32ToBytes bits) 0 = bits) ∧
    (∀ (pre rest : List Nat) (u : Nat), u < 4294967296 →
      readUint32 (pre ++ uint32ToBytes u ++ rest) pre.length = some u ∧
      (pre ++ uint32ToBytes u ++ rest).drop (pre.length + 4) = rest) ∧
    (∀ (pre rest : List Nat) (v : Int), -2147483648 ≤ v → v < 2147483648 →
      readInt32 (pre ++ int32ToBytes v ++ rest) pre.length = some v ∧
      (pre ++ int32ToBytes v ++ rest).drop (pre.length + 4) = rest) := by
  refine ⟨?_, ?_, ?_, ?_, ?_⟩
  · intro v h1 h2
    rw [int32ToBytes_eq, uint32ToBytes_eq]
    show bytesToInt32 _ _ _ _ = v
    simp only [bytesToInt32]
    rw [bytesToUint32_of_bytes _ (toUnsigned32_lt v), toSigned32_toUnsigned32 v h1 h2]
  · intro u h
    rw [uint32ToBytes_eq]
    exact bytesToUint32_of_bytes u h
  · intro bits h
    rw [float32ToBytes, uint32ToBytes_eq]
    exact bytesToUint32_of_bytes bits h
  · intro pre rest u h
    refine ⟨readUint32_encoded pre rest u h, ?_⟩
    rw [List.append_assoc, drop_len_add]
    rfl
  · intro pre rest v h1 h2
    refine ⟨readInt32_encoded pre rest v h1 h2, ?_⟩
    rw [List.append_assoc, drop_len_add]
    rfl

/-- Witness for C8 at concrete operands. -/
theorem c8_codec_roundtrip_witness :
    decode4 bytesToInt32 (int32ToBytes (-5)) 0 = -5 ∧
    decode4 bytesToUint32 (uint32ToBytes 3000000000) 0 = 3000000000 ∧
    decode4 bytesToFloat32 (float32ToBytes 1078530011) 0 = 1078530011 ∧
    readUint32 ([9] ++ uint32ToBytes 300 ++ [7]) [9].length = some 300 ∧
    readInt32 ([9] ++ int32ToBytes (-77) ++ [7]) [9].length = some (-77) := by
  refine ⟨?_, ?_, ?_, ?_, ?_⟩
  · exact c8_codec_roundtrip.1 (-5) (by decide) (by decide)
  · exact c8_codec_roundtrip.2.1 3000000000 (by decide)
  · exact c8_codec_roundtrip.2.2.1 1078530011 (by decide)
  · exact (c8_codec_roundtrip.2.2.2.1 [9] [7] 300 (by decide)).1
  · exact (c8_codec_roundtrip.2.2.2.2 [9] [7] (-77) (by decide) (by decide)).1

/-! ## Jump-patching lemmas (Placeholder) -/

theorem writeAddrAt_length (bs : List Nat) (p : Nat) (ab : List Nat) :
    (writeAddrAt bs p ab).length = bs.length := by
  unfold writeAddrAt
  split <;> simp

theorem writeAddrAt_get?_outside (bs : List Nat) (p : Nat) (ab : List Nat) (j : Nat)
    (h : j < p ∨ p + 4 ≤ j) :
    (writeAddrAt bs p ab).get? j = bs.get? j := by
  unfold writeAddrAt
  split
  · rw [List.get?_set_ne _ _ (by omega), List.get?_set_ne _ _ (by omega),
      List.get?_set_ne _ _ (by omega), List.get?_set_ne _ _ (by omega)]
  · rfl

theorem writeAddrAt_get?_inside (bs : List Nat) (p a0 a1 a2 a3 k : Nat)
    (hk : k < 4) (hp : p + 4 ≤ bs.length) :
    (writeAddrAt bs p [a0, a1, a2, a3]).get? (p + k) = [a0, a1, a2, a3].get? k := by
  interval_cases k
  · rw [writeAddrAt]
    rw [List.get?_set_ne _ _ (by omega), List.get?_set_ne _ _ (by omega),
      List.get?_set_ne _ _ (by omega)]
    simpa using List.get?_set_eq_of_lt a0 (by omega)
  · rw [writeAddrAt]
    rw [List.get?_set_ne _ _ (by omega), List.get?_set_ne _ _ (by omega)]
    have : (bs.set p a0).length = bs.length := by simp
    simpa using List.get?_set_eq_of_lt a1 (l := bs.set p a0) (by omega)
  · rw [writeAddrAt]
    rw [List.get?_set_ne _ _ (by omega)]
    have h2 : ((bs.set p a0).set (p + 1) a1).length = bs.length := by simp
    simpa using List.get?_set_eq_of_lt a2 (l := (bs.set p a0).set (p + 1) a1) (by omega)
  · rw [writeAddrAt]
    have h3 : (((bs.set p a0).set (p + 1) a1).set (p + 2) a2).length = bs.length := by simp
    simpa using
      List.get?_set_eq_of_lt a3 (l := ((bs.set p a0).set (p + 1) a1).set (p + 2) a2) (by omega)

/-- The patch fold preserves length. -/
theorem patchFold_length (places : List Nat) (ab : List Nat) :
    ∀ bs : List Nat, (places.foldl (fun x p => writeAddrAt x p ab) bs).length = bs.length := by
  induction places with
  | nil => intro bs; rfl
  | cons q more ih =>
    intro bs
    rw [List.foldl_cons, ih, writeAddrAt_length]

/-- Positions clear of every patched window are untouched by the fold. -/
theorem patchFold_get?_outside (places : List Nat) (ab : List Nat) :
    ∀ (bs : List Nat) (j : Nat), (∀ p ∈ places, j < p ∨ p + 4 ≤ j) →
      (places.foldl (fun x p => writeAddrAt x p ab) bs).get? j = bs.get? j := by
  induction places with
  | nil => intro bs j _; rfl
  | cons q more ih =>
    intro bs j h
    rw [List.foldl_cons, ih _ j (fun p hp => h p (List.mem_cons_of_mem q hp)),
      writeAddrAt_get?_outside _ _ _ _ (h q (List.mem_cons_self q more))]

/-- Each patched window ends up holding the four target bytes, given
the windows are in range and pairwise disjoint. -/
theorem patchFold_get?_inside (places : List Nat) (a0 a1 a2 a3 : Nat) :
    ∀ (bs : List Nat), (∀ p ∈ places, p + 4 ≤ bs.length) →
      places.Pairwise (fun p q => p + 4 ≤ q ∨ q + 4 ≤ p) →
      ∀ p ∈ places, ∀ k, k < 4 →
        (places.foldl (fun x r => writeAddrAt x r [a0, a1, a2, a3]) bs).get? (p + k) =
          [a0, a1, a2, a3].get? k := by
  induction places with
  | nil => intro bs _ _ p hp; exact absurd hp (List.not_mem_nil p)
  | cons q more ih =>
    intro bs hin hdisj p hp k hk
    rw [List.foldl_cons]
    rcases List.mem_cons.mp hp with rfl | hpm
    · have houter : ∀ r ∈ more, p + k < r ∨ r + 4 ≤ p + k := by
        intro r hr
        rcases (List.pairwise_cons.mp hdisj).1 r hr with h | h
        · exact Or.inl (by omega)
        · exact Or.inr (by omega)
      rw [patchFold_get?_outside more _ _ _ houter]
      exact writeAddrAt_get?_inside bs p a0 a1 a2 a3 k hk (hin p hp)
    · have hlen : ∀ r ∈ more, r + 4 ≤ (writeAddrAt bs q [a0, a1, a2, a3]).length := by
        intro r hr
        rw [writeAddrAt_length]
        exact hin r (List.mem_cons_of_mem q hr)
      exact ih _ hlen (List.pairwise_cons.mp hdisj).2 p hpm k hk

/-- Claim C7: every branch encoding ends in its four big-endian target
bytes, `registerJump` records exactly that four-byte window, and
`computeJumps` overwrites exactly the recorded windows with the
big-endian `Bytecode.Size` at resolution time. -/
theorem c7_branch_patching :
    (∀ addr : Nat,
      (encode (.brAlways addr)).drop ((encode (.brAlways addr)).length - 4) =
        addressToBytes addr) ∧
    (∀ test addr : Nat,
      (encode (.brTrue test addr)).drop ((encode (.brTrue test addr)).length - 4) =
        addressToBytes addr) ∧
    (∀ source addr : Nat,
      (encode (.brFalse source addr)).drop ((encode (.brFalse source addr)).length - 4) =
        addressToBytes addr) ∧
    (∀ (bc : Bytecode) (ph : Placeholder) (inst : Instr),
      (registerJump bc ph inst).1.bytes = bc.bytes ++ encode inst ∧
      (registerJump bc ph inst).2.placesHeld =
        ph.placesHeld ++ [bc.size + (encode inst).length - 4]) ∧
    (∀ (bc : Bytecode) (ph : Placeholder),
      (∀ p ∈ ph.placesHeld, p + 4 ≤ bc.bytes.length) →
      ph.placesHeld.Pairwise (fun p q => p + 4 ≤ q ∨ q + 4 ≤ p) →
      (computeJumps bc ph).size = bc.size ∧
      (computeJumps bc ph).bytes.length = bc.bytes.length ∧
      (∀ p ∈ ph.placesHeld, ∀ k, k < 4 →
        (computeJumps bc ph).bytes.get? (p + k) = (addressToBytes bc.size).get? k) ∧
      (∀ j, (∀ p ∈ ph.placesHeld, j < p ∨ p + 4 ≤ j) →
        (computeJumps bc ph).bytes.get? j = bc.bytes.get? j)) := by
  refine ⟨?_, ?_, ?_, ?_, ?_⟩
  · intro addr
    show (OpcodeBrAlways :: addressToBytes addr).drop _ = _
    rw [addressToBytes, uint32ToBytes_eq]
    rfl
  · intro test addr
    show (OpcodeBrTrue :: (registerToBytes test ++ addressToBytes addr)).drop _ = _
    rw [registerToBytes, addressToBytes, uint32ToBytes_eq, uint32ToBytes_eq]
    rfl
  · intro source addr
    show (OpcodeBrFalse :: (registerToBytes source ++ addressToBytes addr)).drop _ = _
    rw [registerToBytes, addressToBytes, uint32ToBytes_eq, uint32ToBytes_eq]
    rfl
  · intro bc ph inst
    exact ⟨rfl, rfl⟩
  · intro bc ph hin hdisj
    refine ⟨rfl, ?_, ?_, ?_⟩
    · exact patchFold_length ph.placesHeld _ bc.bytes
    · intro p hp k hk
      show (ph.placesHeld.foldl (fun bs r => writeAddrAt bs r (addressToBytes bc.size))
          bc.bytes).get? (p + k) = _
      rw [addressToBytes, uint32ToBytes_eq]
      exact patchFold_get?_inside ph.placesHeld _ _ _ _ bc.bytes hin hdisj p hp k hk
    · intro j hj
      exact patchFold_get?_outside ph.placesHeld _ bc.bytes j hj

/-- Witness for C7: a placeholder with two disjoint sites patched into
a ten-byte buffer. -/
theorem c7_branch_patching_witness :
    (encode (.brAlways 9)).drop ((encode (.brAlways 9)).length - 4) = addressToBytes 9 ∧
    (computeJumps { size := 10, bytes := [1,1,1,1,1,1,1,1,1,1] }
        { placesHeld := [0, 6] }).size = 10 ∧
    ((computeJumps { size := 10, bytes := [1,1,1,1,1,1,1,1,1,1] }
        { placesHeld := [0, 6] }).bytes.get? (6 + 3) = (addressToBytes 10).get? 3) ∧
    ((computeJumps { size := 10, bytes := [1,1,1,1,1,1,1,1,1,1] }
        { placesHeld := [0, 6] }).bytes.get? 5 = some 1) := by
  have h := c7_branch_patching.2.2.2.2 { size := 10, bytes := [1,1,1,1,1,1,1,1,1,1] }
    { placesHeld := [0, 6] } (by decide) (by decide)
  refine ⟨c7_branch_patching.1 9, h.1, h.2.2.1 6 (by decide) 3 (by decide), ?_⟩
  have h5 := h.2.2.2 5 (by decide)
  simpa using h5

/-! ## Drop-peeling helpers for decoding encoded streams -/

theorem drop_peel {α : Type} (bytes : List α) (p : Nat) (a : α) (l : List α)
    (h : bytes.drop p = a :: l) : bytes.drop (p + 1) = l := by
  rw [← List.drop_drop 1 p bytes, h]
  rfl

theorem drop_peel_len {α : Type} (bytes : List α) (p : Nat) (pre l : List α)
    (h : bytes.drop p = pre ++ l) : bytes.drop (p + pre.length) = l := by
  rw [← List.drop_drop pre.length p bytes, h, List.drop_left]

theorem readUint32_at (bytes rest : List Nat) (p u : Nat)
    (h : bytes.drop p = uint32ToBytes u ++ rest) (hu : u < 4294967296) :
    readUint32 bytes p = some u := by
  rw [uint32ToBytes_eq] at h
  simp only [List.cons_append, List.nil_append] at h
  simp only [readUint32, getNext4Bytes, h]
  simp only [Option.map_some', Option.some.injEq]
  exact bytesToUint32_of_bytes u hu

theorem readInt32_at (bytes rest : List Nat) (p : Nat) (v : Int)
    (h : bytes.drop p = int32ToBytes v ++ rest)
    (h1 : -2147483648 ≤ v) (h2 : v < 2147483648) :
    readInt32 bytes p = some v := by
  rw [int32ToBytes_eq, uint32ToBytes_eq] at h
  simp only [List.cons_append, List.nil_append] at h
  simp only [readInt32, getNext4Bytes, h]
  simp only [Option.map_some', Option.some.injEq, bytesToInt32]
  rw [bytesToUint32_of_bytes _ (toUnsigned32_lt v), toSigned32_toUnsigned32 v h1 h2]

theorem drop_peel_reg (bytes rest : List Nat) (p u : Nat)
    (h : bytes.drop p = uint32ToBytes u ++ rest) : bytes.drop (p + 4) = rest := by
  have := drop_peel_len bytes p (uint32ToBytes u) rest h
  simpa [uint32ToBytes_eq] using this

theorem drop_peel_int (bytes rest : List Nat) (p : Nat) (v : Int)
    (h : bytes.drop p = int32ToBytes v ++ rest) : bytes.drop (p + 4) = rest := by
  have := drop_peel_len bytes p (int32ToBytes v) rest h
  simpa [int32ToBytes_eq, uint32ToBytes_eq] using this

/-! ## Claim theorems on concrete programs -/

/-- Claim C1 (code bug): the compiler emits `IntDiv` for an `Int`-typed
`/`, but the studied `Execute` loop has no `IntDiv` case, so the
compiled `print 5 / 2;` dies in the unknown-opcode panic for `0x78`
instead of printing the decimal 2.5 the spec promises. -/
theorem c1_intdiv_panics :
    (compileProgram 20 [Ast.printStmt [Ast.binary "/" "Int" (.intLit 5) (.intLit 2)]] []).map
        (fun r => r.1.bytecode.bytes)
      = some (encode (.intConst 5 1) ++ encode (.intConst 2 2) ++
          encode (.intDiv 1 2 1) ++ encode (.print 1) ++ encode .halt) ∧
    runFault (compileAndRun 20 20
        [Ast.printStmt [Ast.binary "/" "Int" (.intLit 5) (.intLit 2)]] [])
      = some (.unknownOpcode OpcodeIntDiv) := by
  exact ⟨rfl, rfl⟩

/-- Claim C5: compiling and executing `print 1 + 2;` halts having
printed exactly the line `3`. -/
theorem c5_print_one_plus_two :
    runOutput (compileAndRun 20 20
        [Ast.printStmt [Ast.binary "+" "Int" (.intLit 1) (.intLit 2)]] [])
      = some ["3"] := by
  exact rfl

/-- Claim C3 (code bug): the `PrintStmt` case compiles its argument
onto the register stack and never pops it, so a statement entered with
`stack_ptr = reserved_regs` returns with `stack_ptr = reserved_regs + 1`,
contradicting the compiler's own documented register discipline. -/
theorem c3_print_stmt_leaks_stack_ptr :
    stmtEntryAssembly.stackPtr = stmtEntryAssembly.reservedRegs ∧
    (compile 10 stmtEntryAssembly [] (Ast.printStmt [Ast.intLit 1])
        stmtEntryAssembly.stackPtr).map (fun r => r.1.stackPtr)
      = some (stmtEntryAssembly.reservedRegs + 1) := by
  exact ⟨rfl, rfl⟩

/-- Why the checker's rejection of global-scope returns is load-bearing
for Claim C10's guarantee: `Compile` itself accepts a bare top-level
`return;` node, producing a main of `Return 0` followed by the
appended `Halt` - which does end in `Halt` - and running it dies in
the call-stack-underflow panic on the very first instruction.  Only
programs the checker admits (no return outside a function body) reach
`Compile`, which is the validity premise of the claim. -/
theorem returnStmt_compile_underflow :
    (compileProgram 20 [Ast.returnStmt none] []).map
        (fun r => (r.1.bytecode.bytes, r.2.length))
      = some (encode (.ret 0) ++ encode .halt, 0) ∧
    ((compileProgram 20 [Ast.returnStmt none] []).bind fun r =>
        (newInterpreter r.1 r.2).map fun s0 => (s0.callStack.length, nextOpcode s0))
      = some (1, some OpcodeReturn) ∧
    runFault (compileAndRun 20 20 [Ast.returnStmt none] []) = some .callStackUnderflow := by
  exact ⟨rfl, rfl, rfl⟩

/-- Counterexample to Claim C4 as stated: before the `Dispatch`, the
caller's register 1 (not register 0) holds the cell with integer 5;
the callee's `IntAdd 1,1,1` writes through the register record that
`Dispatch` aliased into its parameter register; after the paired
`Return` the caller's register 1 observes 10, and printing it emits
`10`. -/
theorem c4_alias_counterexample :
    ((newInterpreter aliasMain [aliasCallee]).bind (stepN 2)).bind
        (fun s => activeRegValue s 1) = some (.int 5) ∧
    ((newInterpreter aliasMain [aliasCallee]).bind (stepN 5)).map
        (fun s => s.callStack.length) = some 1 ∧
    ((newInterpreter aliasMain [aliasCallee]).bind (stepN 5)).bind
        (fun s => activeRegValue s 1) = some (.int 10) ∧
    runOutput ((newInterpreter aliasMain [aliasCallee]).map (runFor 10)) = some ["10"] := by
  exact ⟨rfl, rfl, rfl, rfl⟩

/-! ## Step equation lemmas -/

theorem step_nil (s : InterpState) (h : s.callStack = []) :
    step s = .fault .emptyCallStack := by
  unfold step
  rw [h]

theorem step_cons (s : InterpState) (fp : Frame) (rest : List Frame)
    (h : s.callStack = fp :: rest) :
    step s =
      match readByteAt fp.closure.prototype.bytecode.bytes s.ip with
      | none => .fault .outOfBytecode
      | some opcode =>
        execOpcode s fp rest fp.closure.prototype.bytecode.bytes (s.ip + 1) opcode := by
  unfold step
  rw [h]

theorem step_read (s : InterpState) (fp : Frame) (rest : List Frame) (b : Nat)
    (hcs : s.callStack = fp :: rest)
    (hrd : readByteAt fp.closure.prototype.bytecode.bytes s.ip = some b) :
    step s = execOpcode s fp rest fp.closure.prototype.bytecode.bytes (s.ip + 1) b := by
  rw [step_cons s fp rest hcs, hrd]

theorem nextOpcode_cons (s : InterpState) (fp : Frame) (rest : List Frame)
    (h : s.callStack = fp :: rest) :
    nextOpcode s = readByteAt fp.closure.prototype.bytecode.bytes s.ip := by
  unfold nextOpcode
  rw [h]

/-! ## No handled case reaches the unknown-opcode panic -/

theorem getSlot_no_unknown (f : Frame) (i : Nat) (c : Nat) :
    getSlot f i ≠ .error (.unknownOpcode c) := by
  unfold getSlot
  split <;> simp

theorem readRegValue_no_unknown (s : InterpState) (f : Frame) (i : Nat) (c : Nat) :
    readRegValue s f i ≠ .error (.unknownOpcode c) := by
  unfold readRegValue
  split
  · rename_i e heq
    intro h
    injection h with h'
    rw [h'] at heq
    exact getSlot_no_unknown f i c heq
  · simp
  · split <;> simp

theorem copyArgs_no_unknown (caller : Frame) (firstParam : Nat) :
    ∀ (remaining argIndex : Nat) (regs : Nat → Option Nat) (c : Nat),
      copyArgs caller firstParam argIndex remaining regs ≠ .error (.unknownOpcode c) := by
  intro remaining
  induction remaining with
  | zero =>
    intro argIndex regs c
    unfold copyArgs
    simp
  | succ r ih =>
    intro argIndex regs c
    unfold copyArgs
    split
    · split
      · exact ih _ _ c
      · simp
    · simp

theorem execIntConst_no_unknown (s : InterpState) (fp : Frame) (rest : List Frame)
    (bytes : List Nat) (ip1 : Nat) (c : Nat) :
    execIntConst s fp rest bytes ip1 ≠ .fault (.unknownOpcode c) := by
  unfold execIntConst
  repeat' split
  all_goals
    (intro h9
     simp at h9
     all_goals
       (rename_i heq
        rw [h9] at heq
        first
          | exact readRegValue_no_unknown _ _ _ _ heq
          | exact getSlot_no_unknown _ _ _ heq
          | exact copyArgs_no_unknown _ _ _ _ _ _ heq))

theorem execFuncConst_no_unknown (s : InterpState) (fp : Frame) (rest : List Frame)
    (bytes : List Nat) (ip1 : Nat) (c : Nat) :
    execFuncConst s fp rest bytes ip1 ≠ .fault (.unknownOpcode c) := by
  unfold execFuncConst
  repeat' split
  all_goals
    (intro h9
     simp at h9
     all_goals
       (rename_i heq
        rw [h9] at heq
        first
          | exact readRegValue_no_unknown _ _ _ _ heq
          | exact getSlot_no_unknown _ _ _ heq
          | exact copyArgs_no_unknown _ _ _ _ _ _ heq))

theorem execMove_no_unknown (s : InterpState) (fp : Frame) (rest : List Frame)
    (bytes : List Nat) (ip1 : Nat) (c : Nat) :
    execMove s fp rest bytes ip1 ≠ .fault (.unknownOpcode c) := by
  unfold execMove
  repeat' split
  all_goals
    (intro h9
     simp at h9
     all_goals
       (rename_i heq
        rw [h9] at heq
        first
          | exact readRegValue_no_unknown _ _ _ _ heq
          | exact getSlot_no_unknown _ _ _ heq
          | exact copyArgs_no_unknown _ _ _ _ _ _ heq))

theorem execLoadUpVal_no_unknown (s : InterpState) (fp : Frame) (rest : List Frame)
    (bytes : List Nat) (ip1 : Nat) (c : Nat) :
    execLoadUpVal s fp rest bytes ip1 ≠ .fault (.unknownOpcode c) := by
  unfold execLoadUpVal
  repeat' split
  all_goals
    (intro h9
     simp at h9
     all_goals
       (rename_i heq
        rw [h9] at heq
        first
          | exact readRegValue_no_unknown _ _ _ _ heq
          | exact getSlot_no_unknown _ _ _ heq
          | exact copyArgs_no_unknown _ _ _ _ _ _ heq))

theorem execSetUpVal_no_unknown (s : InterpState) (fp : Frame) (rest : List Frame)
    (bytes : List Nat) (ip1 : Nat) (c : Nat) :
    execSetUpVal s fp rest bytes ip1 ≠ .fault (.unknownOpcode c) := by
  unfold execSetUpVal
  repeat' split
  all_goals
    (intro h9
     simp at h9
     all_goals
       (rename_i heq
        rw [h9] at heq
        first
          | exact readRegValue_no_unknown _ _ _ _ heq
          | exact getSlot_no_unknown _ _ _ heq
          | exact copyArgs_no_unknown _ _ _ _ _ _ heq))

theorem execDispatchCore_no_unknown (s : InterpState) (fp : Frame) (rest : List Frame)
    (cl : Closure) (firstParam retAddr : Nat) (c : Nat) :
    execDispatchCore s fp rest cl firstParam retAddr ≠ .fault (.unknownOpcode c) := by
  unfold execDispatchCore
  repeat' split
  all_goals
    (intro h9
     simp at h9
     all_goals
       (rename_i heq
        rw [h9] at heq
        first
          | exact readRegValue_no_unknown _ _ _ _ heq
          | exact getSlot_no_unknown _ _ _ heq
          | exact copyArgs_no_unknown _ _ _ _ _ _ heq))

theorem execDispatch_no_unknown (s : InterpState) (fp : Frame) (rest : List Frame)
    (bytes : List Nat) (ip1 : Nat) (c : Nat) :
    execDispatch s fp rest bytes ip1 ≠ .fault (.unknownOpcode c) := by
  unfold execDispatch
  repeat' split
  all_goals
    first
      | apply execDispatchCore_no_unknown
      | (intro h9
         simp at h9
         all_goals
           (rename_i heq
            rw [h9] at heq
            first
              | exact readRegValue_no_unknown _ _ _ _ heq
              | exact getSlot_no_unknown _ _ _ heq
              | exact copyArgs_no_unknown _ _ _ _ _ _ heq))

theorem execReturn_no_unknown (s : InterpState) (fp : Frame) (rest : List Frame)
    (bytes : List Nat) (ip1 : Nat) (c : Nat) :
    execReturn s fp rest bytes ip1 ≠ .fault (.unknownOpcode c) := by
  unfold execReturn
  repeat' split
  all_goals
    (intro h9
     simp at h9
     all_goals
       (rename_i heq
        rw [h9] at heq
        first
          | exact readRegValue_no_unknown _ _ _ _ heq
          | exact getSlot_no_unknown _ _ _ heq
          | exact copyArgs_no_unknown _ _ _ _ _ _ heq))

theorem execIntArith_no_unknown (s : InterpState) (fp : Frame) (rest : List Frame)
    (bytes : List Nat) (ip1 : Nat) (op : Nat) (c : Nat) :
    execIntArith s fp rest bytes ip1 op ≠ .fault (.unknownOpcode c) := by
  unfold execIntArith
  repeat' split
  all_goals
    (intro h9
     simp at h9
     all_goals
       (rename_i heq
        rw [h9] at heq
        first
          | exact readRegValue_no_unknown _ _ _ _ heq
          | exact getSlot_no_unknown _ _ _ heq
          | exact copyArgs_no_unknown _ _ _ _ _ _ heq))

theorem execPrint_no_unknown (s : InterpState) (fp : Frame) (rest : List Frame)
    (bytes : List Nat) (ip1 : Nat) (c : Nat) :
    execPrint s fp rest bytes ip1 ≠ .fault (.unknownOpcode c) := by
  unfold execPrint
  repeat' split
  all_goals
    (intro h9
     simp at h9
     all_goals
       (rename_i heq
        rw [h9] at heq
        first
          | exact readRegValue_no_unknown _ _ _ _ heq
          | exact getSlot_no_unknown _ _ _ heq
          | exact copyArgs_no_unknown _ _ _ _ _ _ heq))

/-- Inverting an unknown-opcode fault of the dispatcher: the byte was
the faulting one and is not among the handled opcodes. -/
theorem execOpcode_unknown_inv (s : InterpState) (fp : Frame) (rest : List Frame)
    (bytes : List Nat) (ip1 : Nat) (b c : Nat)
    (h : execOpcode s fp rest bytes ip1 b = .fault (.unknownOpcode c)) :
    b = c ∧ b ∉ handledOpcodes := by
  unfold execOpcode at h
  by_cases h1 : b = OpcodeHalt
  · rw [if_pos h1] at h; exact absurd h (by simp)
  rw [if_neg h1] at h
  by_cases h2 : b = OpcodeIntConst
  · rw [if_pos h2] at h; exact absurd h (execIntConst_no_unknown s fp rest bytes ip1 c)
  rw [if_neg h2] at h
  by_cases h3 : b = OpcodeFuncConst
  · rw [if_pos h3] at h; exact absurd h (execFuncConst_no_unknown s fp rest bytes ip1 c)
  rw [if_neg h3] at h
  by_cases h4 : b = OpcodeMove
  · rw [if_pos h4] at h; exact absurd h (execMove_no_unknown s fp rest bytes ip1 c)
  rw [if_neg h4] at h
  by_cases h5 : b = OpcodeLoadUpVal
  · rw [if_pos h5] at h; exact absurd h (execLoadUpVal_no_unknown s fp rest bytes ip1 c)
  rw [if_neg h5] at h
  by_cases h6 : b = OpcodeSetUpVal
  · rw [if_pos h6] at h; exact absurd h (execSetUpVal_no_unknown s fp rest bytes ip1 c)
  rw [if_neg h6] at h
  by_cases h7 : b = OpcodeDispatch
  · rw [if_pos h7] at h; exact absurd h (execDispatch_no_unknown s fp rest bytes ip1 c)
  rw [if_neg h7] at h
  by_cases h8 : b = OpcodeReturn
  · rw [if_pos h8] at h; exact absurd h (execReturn_no_unknown s fp rest bytes ip1 c)
  rw [if_neg h8] at h
  by_cases h9 : b = OpcodeIntAdd
  · rw [if_pos h9] at h; exact absurd h (execIntArith_no_unknown s fp rest bytes ip1 b c)
  rw [if_neg h9] at h
  by_cases h10 : b = OpcodeIntSub
  · rw [if_pos h10] at h; exact absurd h (execIntArith_no_unknown s fp rest bytes ip1 b c)
  rw [if_neg h10] at h
  by_cases h11 : b = OpcodeIntMul
  · rw [if_pos h11] at h; exact absurd h (execIntArith_no_unknown s fp rest bytes ip1 b c)
  rw [if_neg h11] at h
  by_cases h12 : b = OpcodePrint
  · rw [if_pos h12] at h; exact absurd h (execPrint_no_unknown s fp rest bytes ip1 c)
  rw [if_neg h12] at h
  have hbc : b = c := by
    have := h
    simp only [StepRes.fault.injEq, Fault.unknownOpcode.injEq] at this
    exact this
  refine ⟨hbc, ?_⟩
  simp only [handledOpcodes, List.mem_cons, List.not_mem_nil, or_false, not_or]
  exact ⟨h1, h2, h3, h4, h5, h6, h7, h8, h9, h10, h11, h12⟩

/-- Claim C2: the `Execute` loop handles exactly `handledOpcodes`; any
other next opcode makes the step die with the unknown-opcode panic
carrying that byte, and every listed compiler-emittable opcode
(`BoolConst`, `DecConst`, `StrConst`, the branches, the comparisons,
`IntDiv`, `IntNeg`, all `Dec` arithmetic) is indeed not handled. -/
theorem c2_unhandled_opcodes_panic :
    (∀ (s : InterpState) (fp : Frame) (rest : List Frame) (b : Nat),
      s.callStack = fp :: rest →
      readByteAt fp.closure.prototype.bytecode.bytes s.ip = some b →
      b ∉ handledOpcodes →
      step s = .fault (.unknownOpcode b)) ∧
    (∀ (s : InterpState) (c : Nat),
      step s = .fault (.unknownOpcode c) →
      nextOpcode s = some c ∧ c ∉ handledOpcodes) ∧
    (∀ b ∈ [OpcodeBoolConst, OpcodeDecConst, OpcodeStrConst, OpcodeBrAlways,
        OpcodeBrTrue, OpcodeBrFalse, OpcodeIntLT, OpcodeIntLTEq, OpcodeIntGT,
        OpcodeIntGTEq, OpcodeIntEq, OpcodeIntDiv, OpcodeIntNeg, OpcodeDecLT,
        OpcodeDecLTEq, OpcodeDecGT, OpcodeDecGTEq, OpcodeDecEq, OpcodeDecAdd,
        OpcodeDecSub, OpcodeDecMul, OpcodeDecDiv, OpcodeDecNeg],
      b ∉ handledOpcodes) := by
  refine ⟨?_, ?_, by decide⟩
  · intro s fp rest b hcs hrd hb
    simp only [handledOpcodes, List.mem_cons, List.not_mem_nil, or_false, not_or] at hb
    obtain ⟨h1, h2, h3, h4, h5, h6, h7, h8, h9, h10, h11, h12⟩ := hb
    rw [step_read s fp rest b hcs hrd]
    unfold execOpcode
    rw [if_neg h1, if_neg h2, if_neg h3, if_neg h4, if_neg h5, if_neg h6, if_neg h7,
      if_neg h8, if_neg h9, if_neg h10, if_neg h11, if_neg h12]
  · intro s c h
    rcases hcs : s.callStack with _ | ⟨fp, rest⟩
    · rw [step_nil s hcs] at h
      exact absurd h (by simp)
    · rcases hrd : readByteAt fp.closure.prototype.bytecode.bytes s.ip with _ | b
      · rw [step_cons s fp rest hcs, hrd] at h
        exact absurd h (by simp)
      · rw [step_read s fp rest b hcs hrd] at h
        obtain ⟨rfl, hmem⟩ := execOpcode_unknown_inv s fp rest _ _ b c h
        exact ⟨by rw [nextOpcode_cons s fp rest hcs, hrd], hmem⟩

/-- Witness for C2: a one-instruction `IntDiv` program faults at once
with the unknown-opcode panic for `0x78`. -/
theorem c2_unhandled_opcodes_panic_witness :
    step (stateOn intDivProto []) = .fault (.unknownOpcode OpcodeIntDiv) :=
  c2_unhandled_opcodes_panic.1 (stateOn intDivProto []) (freshFrame intDivProto) []
    OpcodeIntDiv rfl rfl (by decide)

/-! ## `Option`-monad `mapM` characterization (for `NewClosure`) -/

theorem mapM_option_length {α β : Type} (f : α → Option β) :
    ∀ (l : List α) (ys : List β), l.mapM f = some ys → ys.length = l.length := by
  intro l
  induction l with
  | nil =>
    intro ys h
    rw [List.mapM_nil] at h
    cases h
    rfl
  | cons a t ih =>
    intro ys h
    rw [List.mapM_cons] at h
    rcases hfa : f a with _ | b
    · rw [hfa] at h
      simp at h
    · rw [hfa] at h
      rcases hmt : t.mapM f with _ | bs
      · rw [hmt] at h
        simp at h
      · rw [hmt] at h
        simp only [Option.bind_eq_bind, Option.some_bind, Option.some.injEq, pure] at h
        cases h
        simp [ih bs hmt]

theorem mapM_option_get? {α β : Type} (f : α → Option β) :
    ∀ (l : List α) (ys : List β), l.mapM f = some ys →
      ∀ (j : Nat) (a : α), l.get? j = some a → ys.get? j = f a := by
  intro l
  induction l with
  | nil =>
    intro ys _ j a hj
    simp at hj
  | cons x t ih =>
    intro ys h j a hj
    rw [List.mapM_cons] at h
    rcases hfa : f x with _ | b
    · rw [hfa] at h
      simp at h
    · rw [hfa] at h
      rcases hmt : t.mapM f with _ | bs
      · rw [hmt] at h
        simp at h
      · rw [hmt] at h
        simp only [Option.bind_eq_bind, Option.some_bind, Option.some.injEq, pure] at h
        cases h
        cases j with
        | zero =>
          simp only [List.get?_cons_zero, Option.some.injEq] at hj
          rw [← hj, hfa]
          rfl
        | succ i =>
          simp only [List.get?_cons_succ] at hj ⊢
          exact ih bs hmt i a hj

/-- The non-empty-upvalue branch of `NewClosure`. -/
theorem newClosure_cons (encl : Frame) (stack : List Frame) (fn : FuncPrototype)
    (hne : ¬fn.upvalues.length = 0) :
    newClosure (encl :: stack) fn =
      (fn.upvalues.mapM (lookupUpvalue encl)).map
        (fun ups => { prototype := fn, upvalues := ups }) := by
  unfold newClosure
  rw [if_neg hne]

/-- Claim C6: a closure built by `NewClosure` resolves each upvalue
record in order — a `local_to_parent` record to the cell bound at
register `1 + lookup_index` of the enclosing (topmost) frame, and any
other record to the very upvalue object at `lookup_index` of the
enclosing closure's vector, so the cell is shared. -/
theorem c6_newClosure_resolution :
    ∀ (encl : Frame) (stack : List Frame) (fn : FuncPrototype) (c : Closure),
      newClosure (encl :: stack) fn = some c →
      c.prototype = fn ∧
      c.upvalues.length = fn.upvalues.length ∧
      ∀ (j : Nat) (record : UpvalueRecord), fn.upvalues.get? j = some record →
        (record.localToParent = true →
          c.upvalues.get? j = some { cell := encl.regs (1 + record.lookupIndex) }) ∧
        (record.localToParent = false →
          c.upvalues.get? j = encl.closure.upvalues.get? record.lookupIndex) := by
  intro encl stack fn c h
  by_cases hlen : fn.upvalues.length = 0
  · unfold newClosure at h
    rw [if_pos hlen] at h
    cases h
    refine ⟨rfl, by simpa using hlen.symm, ?_⟩
    intro j record hj
    rw [List.length_eq_zero.mp hlen] at hj
    simp at hj
  · rw [newClosure_cons encl stack fn hlen] at h
    rcases hm : fn.upvalues.mapM (lookupUpvalue encl) with _ | ups
    · rw [hm] at h
      simp at h
    · rw [hm] at h
      simp only [Option.map_some', Option.some.injEq] at h
      cases h
      refine ⟨rfl, mapM_option_length _ _ _ hm, ?_⟩
      intro j record hj
      have hy := mapM_option_get? _ _ _ hm j record hj
      have hjlt : j < fn.upvalues.length := by
        rcases List.get?_eq_some.mp hj with ⟨hlt, _⟩
        exact hlt
      have hsome : ups.get? j ≠ none := by
        have hlen2 := mapM_option_length _ _ _ hm
        simp only [Ne, List.get?_eq_none]
        omega
      constructor
      · intro hltp
        rw [hy]
        unfold lookupUpvalue
        rw [if_pos hltp]
        by_cases hb : 1 + record.lookupIndex < 256
        · rw [if_pos hb]
        · exfalso
          apply hsome
          rw [hy]
          unfold lookupUpvalue
          rw [if_pos hltp, if_neg hb]
      · intro hlfp
        rw [hy]
        unfold lookupUpvalue
        rw [if_neg (by simp [hlfp])]

/-- Witness for C6 on a concrete enclosing frame and prototype. -/
theorem c6_newClosure_resolution_witness :
    ({ prototype := c6Fn, upvalues := [{ cell := some 7 }, { cell := some 3 }] } :
        Closure).upvalues.get? 0
      = some { cell := c6Encl.regs (1 + 1) } ∧
    ({ prototype := c6Fn, upvalues := [{ cell := some 7 }, { cell := some 3 }] } :
        Closure).upvalues.get? 1
      = c6Encl.closure.upvalues.get? 0 := by
  have h := c6_newClosure_resolution c6Encl [] c6Fn
    { prototype := c6Fn, upvalues := [{ cell := some 7 }, { cell := some 3 }] } (by rfl)
  exact ⟨(h.2.2 0 { name := "a", localToParent := true, lookupIndex := 1 } rfl).1 rfl,
         (h.2.2 1 { name := "b", localToParent := false, lookupIndex := 0 } rfl).2 rfl⟩

/-! ## Dispatcher equations, one per handled opcode -/

theorem execOpcode_halt (s : InterpState) (fp : Frame) (rest : List Frame)
    (bytes : List Nat) (ip1 : Nat) :
    execOpcode s fp rest bytes ip1 OpcodeHalt = .halted s := by
  simp [execOpcode, OpcodeHalt]

theorem execOpcode_intConst (s : InterpState) (fp : Frame) (rest : List Frame)
    (bytes : List Nat) (ip1 : Nat) :
    execOpcode s fp rest bytes ip1 OpcodeIntConst = execIntConst s fp rest bytes ip1 := by
  simp [execOpcode, OpcodeHalt, OpcodeIntConst]

theorem execOpcode_funcConst (s : InterpState) (fp : Frame) (rest : List Frame)
    (bytes : List Nat) (ip1 : Nat) :
    execOpcode s fp rest bytes ip1 OpcodeFuncConst = execFuncConst s fp rest bytes ip1 := by
  simp [execOpcode, OpcodeHalt, OpcodeIntConst, OpcodeFuncConst]

theorem execOpcode_move (s : InterpState) (fp : Frame) (rest : List Frame)
    (bytes : List Nat) (ip1 : Nat) :
    execOpcode s fp rest bytes ip1 OpcodeMove = execMove s fp rest bytes ip1 := by
  simp [execOpcode, OpcodeHalt, OpcodeIntConst, OpcodeFuncConst, OpcodeMove]

theorem execOpcode_loadUpVal (s : InterpState) (fp : Frame) (rest : List Frame)
    (bytes : List Nat) (ip1 : Nat) :
    execOpcode s fp rest bytes ip1 OpcodeLoadUpVal = execLoadUpVal s fp rest bytes ip1 := by
  simp [execOpcode, OpcodeHalt, OpcodeIntConst, OpcodeFuncConst, OpcodeMove, OpcodeLoadUpVal]

theorem execOpcode_setUpVal (s : InterpState) (fp : Frame) (rest : List Frame)
    (bytes : List Nat) (ip1 : Nat) :
    execOpcode s fp rest bytes ip1 OpcodeSetUpVal = execSetUpVal s fp rest bytes ip1 := by
  simp [execOpcode, OpcodeHalt, OpcodeIntConst, OpcodeFuncConst, OpcodeMove, OpcodeLoadUpVal,
    OpcodeSetUpVal]

theorem execOpcode_dispatch (s : InterpState) (fp : Frame) (rest : List Frame)
    (bytes : List Nat) (ip1 : Nat) :
    execOpcode s fp rest bytes ip1 OpcodeDispatch = execDispatch s fp rest bytes ip1 := by
  simp [execOpcode, OpcodeHalt, OpcodeIntConst, OpcodeFuncConst, OpcodeMove, OpcodeLoadUpVal,
    OpcodeSetUpVal, OpcodeDispatch]

theorem execOpcode_return (s : InterpState) (fp : Frame) (rest : List Frame)
    (bytes : List Nat) (ip1 : Nat) :
    execOpcode s fp rest bytes ip1 OpcodeReturn = execReturn s fp rest bytes ip1 := by
  simp [execOpcode, OpcodeHalt, OpcodeIntConst, OpcodeFuncConst, OpcodeMove, OpcodeLoadUpVal,
    OpcodeSetUpVal, OpcodeDispatch, OpcodeReturn]

theorem execOpcode_intAdd (s : InterpState) (fp : Frame) (rest : List Frame)
    (bytes : List Nat) (ip1 : Nat) :
    execOpcode s fp rest bytes ip1 OpcodeIntAdd
      = execIntArith s fp rest bytes ip1 OpcodeIntAdd := by
  simp [execOpcode, OpcodeHalt, OpcodeIntConst, OpcodeFuncConst, OpcodeMove, OpcodeLoadUpVal,
    OpcodeSetUpVal, OpcodeDispatch, OpcodeReturn, OpcodeIntAdd]

theorem execOpcode_intSub (s : InterpState) (fp : Frame) (rest : List Frame)
    (bytes : List Nat) (ip1 : Nat) :
    execOpcode s fp rest bytes ip1 OpcodeIntSub
      = execIntArith s fp rest bytes ip1 OpcodeIntSub := by
  simp [execOpcode, OpcodeHalt, OpcodeIntConst, OpcodeFuncConst, OpcodeMove, OpcodeLoadUpVal,
    OpcodeSetUpVal, OpcodeDispatch, OpcodeReturn, OpcodeIntAdd, OpcodeIntSub]

theorem execOpcode_intMul (s : InterpState) (fp : Frame) (rest : List Frame)
    (bytes : List Nat) (ip1 : Nat) :
    execOpcode s fp rest bytes ip1 OpcodeIntMul
      = execIntArith s fp rest bytes ip1 OpcodeIntMul := by
  simp [execOpcode, OpcodeHalt, OpcodeIntConst, OpcodeFuncConst, OpcodeMove, OpcodeLoadUpVal,
    OpcodeSetUpVal, OpcodeDispatch, OpcodeReturn, OpcodeIntAdd, OpcodeIntSub, OpcodeIntMul]

theorem execOpcode_print (s : InterpState) (fp : Frame) (rest : List Frame)
    (bytes : List Nat) (ip1 : Nat) :
    execOpcode s fp rest bytes ip1 OpcodePrint = execPrint s fp rest bytes ip1 := by
  simp [execOpcode, OpcodeHalt, OpcodeIntConst, OpcodeFuncConst, OpcodeMove, OpcodeLoadUpVal,
    OpcodeSetUpVal, OpcodeDispatch, OpcodeReturn, OpcodeIntAdd, OpcodeIntSub, OpcodeIntMul,
    OpcodePrint]

/-! ## Steps on encoded `SetUpVal` / `LoadUpVal` instructions -/

theorem readByteAt_of_drop (bytes : List Nat) (ip : Nat) (b : Nat) (tail : List Nat)
    (h : bytes.drop ip = b :: tail) : readByteAt bytes ip = some b := by
  unfold readByteAt
  rw [h]
  rfl

theorem step_setUpVal_encoded
    (s : InterpState) (fp : Frame) (rest : List Frame) (src : Nat) (i : Int)
    (cell cs : Nat) (v : Value) (tail : List Nat)
    (hcs : s.callStack = fp :: rest)
    (hbc : fp.closure.prototype.bytecode.bytes.drop s.ip = encode (.setUpVal src i) ++ tail)
    (hsrc : src < 256) (hi0 : 0 ≤ i) (hi1 : i < 2147483648)
    (huv : fp.closure.upvalues.get? i.toNat = some { cell := some cell })
    (hreg : fp.regs src = some cs)
    (hheap : s.heap cs = some v) :
    step s = .next { setCell s cell v with ip := s.ip + 1 + 8 } := by
  have hbytes : fp.closure.prototype.bytecode.bytes.drop s.ip
      = OpcodeSetUpVal :: (registerToBytes src ++ (int32ToBytes i ++ tail)) := by
    simpa [encode, List.append_assoc] using hbc
  have hrd := readByteAt_of_drop _ _ _ _ hbytes
  rw [step_read s fp rest _ hcs hrd, execOpcode_setUpVal]
  have hdrop1 : fp.closure.prototype.bytecode.bytes.drop (s.ip + 1)
      = registerToBytes src ++ (int32ToBytes i ++ tail) := drop_peel _ _ _ _ hbytes
  have hr1 : readRegister fp.closure.prototype.bytecode.bytes (s.ip + 1) = some src :=
    readUint32_at _ _ _ _ hdrop1 (by omega)
  have hdrop2 : fp.closure.prototype.bytecode.bytes.drop (s.ip + 1 + 4)
      = int32ToBytes i ++ tail := drop_peel_reg _ _ _ _ hdrop1
  have hr2 : readInt32 fp.closure.prototype.bytecode.bytes (s.ip + 1 + 4) = some i :=
    readInt32_at _ _ _ _ hdrop2 (by omega) hi1
  have hrv : readRegValue s fp src = .ok v := by
    simp [readRegValue, getSlot, hsrc, hreg, hheap]
  simp only [execSetUpVal, hr1, hr2]
  rw [if_neg (show ¬i < 0 by omega)]
  simp only [huv, hrv]

theorem step_loadUpVal_encoded
    (s : InterpState) (fp : Frame) (rest : List Frame) (j : Int) (d : Nat)
    (cell : Nat) (v : Value) (tail : List Nat)
    (hcs : s.callStack = fp :: rest)
    (hbc : fp.closure.prototype.bytecode.bytes.drop s.ip = encode (.loadUpVal j d) ++ tail)
    (hj0 : 0 ≤ j) (hj1 : j < 2147483648) (hd : d < 256)
    (huv : fp.closure.upvalues.get? j.toNat = some { cell := some cell })
    (hheap : s.heap cell = some v) :
    step s = .next { (allocCell s v).1 with
      ip := s.ip + 1 + 8,
      callStack := setReg fp d (some (allocCell s v).2) :: rest } := by
  have hbytes : fp.closure.prototype.bytecode.bytes.drop s.ip
      = OpcodeLoadUpVal :: (int32ToBytes j ++ (registerToBytes d ++ tail)) := by
    simpa [encode, List.append_assoc] using hbc
  have hrd := readByteAt_of_drop _ _ _ _ hbytes
  rw [step_read s fp rest _ hcs hrd, execOpcode_loadUpVal]
  have hdrop1 : fp.closure.prototype.bytecode.bytes.drop (s.ip + 1)
      = int32ToBytes j ++ (registerToBytes d ++ tail) := drop_peel _ _ _ _ hbytes
  have hr1 : readInt32 fp.closure.prototype.bytecode.bytes (s.ip + 1) = some j :=
    readInt32_at _ _ _ _ hdrop1 (by omega) hj1
  have hdrop2 : fp.closure.prototype.bytecode.bytes.drop (s.ip + 1 + 4)
      = registerToBytes d ++ tail := drop_peel_int _ _ _ _ hdrop1
  have hr2 : readRegister fp.closure.prototype.bytecode.bytes (s.ip + 1 + 4) = some d :=
    readUint32_at _ _ _ _ hdrop2 (by omega)
  simp only [execLoadUpVal, hr1, hr2]
  rw [if_neg (show ¬j < 0 by omega)]
  simp only [huv, hheap]
  rw [if_pos hd]

/-- Claim C9: a `SetUpVal s, i` step writes the source register's value
through the shared cell, and a subsequent `LoadUpVal j, d` step in any
closure whose upvalue `j` references the same cell (with the heap
untouched in between) binds register `d` to a fresh register holding
exactly that value. -/
theorem c9_upvalue_cell_sharing :
    ∀ (s1 : InterpState) (fp1 : Frame) (r1 : List Frame) (src : Nat) (i : Int)
      (cell cs : Nat) (v : Value) (tail1 : List Nat),
      s1.callStack = fp1 :: r1 →
      fp1.closure.prototype.bytecode.bytes.drop s1.ip = encode (.setUpVal src i) ++ tail1 →
      src < 256 → 0 ≤ i → i < 2147483648 →
      fp1.closure.upvalues.get? i.toNat = some { cell := some cell } →
      fp1.regs src = some cs →
      s1.heap cs = some v →
      step s1 = .next { setCell s1 cell v with ip := s1.ip + 1 + 8 } ∧
      { setCell s1 cell v with ip := s1.ip + 1 + 8 }.heap cell = some v ∧
      (∀ (s2 : InterpState) (fp2 : Frame) (r2 : List Frame) (j : Int) (d : Nat)
        (tail2 : List Nat),
        s2.heap = { setCell s1 cell v with ip := s1.ip + 1 + 8 }.heap →
        s2.callStack = fp2 :: r2 →
        fp2.closure.prototype.bytecode.bytes.drop s2.ip = encode (.loadUpVal j d) ++ tail2 →
        0 ≤ j → j < 2147483648 → d < 256 →
        fp2.closure.upvalues.get? j.toNat = some { cell := some cell } →
        step s2 = .next { (allocCell s2 v).1 with
          ip := s2.ip + 1 + 8,
          callStack := setReg fp2 d (some (allocCell s2 v).2) :: r2 } ∧
        ((setReg fp2 d (some (allocCell s2 v).2)).regs d).bind
            { (allocCell s2 v).1 with ip := s2.ip + 1 + 8 }.heap = some v) := by
  intro s1 fp1 r1 src i cell cs v tail1 hcs hbc hsrc hi0 hi1 huv hreg hheap
  have hcell : ({ setCell s1 cell v with ip := s1.ip + 1 + 8 } : InterpState).heap cell
      = some v := by
    simp [setCell]
  refine ⟨step_setUpVal_encoded s1 fp1 r1 src i cell cs v tail1 hcs hbc hsrc hi0 hi1
    huv hreg hheap, hcell, ?_⟩
  intro s2 fp2 r2 j d tail2 hheq hcs2 hbc2 hj0 hj1 hd huv2
  have hheap2 : s2.heap cell = some v := by
    rw [hheq]
    exact hcell
  refine ⟨step_loadUpVal_encoded s2 fp2 r2 j d cell v tail2 hcs2 hbc2 hj0 hj1 hd
    huv2 hheap2, ?_⟩
  simp [setReg, allocCell]

/-- Witness for C9 on two concrete closures sharing cell 5. -/
theorem c9_upvalue_cell_sharing_witness :
    step c9State1 = .next { setCell c9State1 5 (.int 42) with ip := 0 + 1 + 8 } ∧
    step c9State2 = .next { (allocCell c9State2 (.int 42)).1 with
      ip := 0 + 1 + 8,
      callStack := setReg c9Frame2 4 (some (allocCell c9State2 (.int 42)).2) :: [] } ∧
    ((setReg c9Frame2 4 (some (allocCell c9State2 (.int 42)).2)).regs 4).bind
        { (allocCell c9State2 (.int 42)).1 with ip := 0 + 1 + 8 }.heap
      = some (.int 42) := by
  have h := c9_upvalue_cell_sharing c9State1 c9Frame1 [] 3 0 5 8 (.int 42) []
    rfl rfl (by decide) (by decide) (by decide) rfl rfl rfl
  have h2 := h.2.2 c9State2 c9Frame2 [] 0 4 [] rfl rfl rfl
    (by decide) (by decide) (by decide) rfl
  exact ⟨h.1, h2.1, h2.2⟩

/-! ## Shapes of successful steps

For each handled opcode: what a `.next` result does to the call stack
and the instruction pointer.  These feed the frame-isolation theorem
(C4) and the no-underflow theorem (C10). -/

theorem execIntConst_next (s : InterpState) (fp : Frame) (rest : List Frame)
    (bytes : List Nat) (ip1 : Nat) (s' : InterpState) (_hcs : s.callStack = fp :: rest)
    (h : execIntConst s fp rest bytes ip1 = .next s') :
    ∃ fp', s'.callStack = fp' :: rest ∧ fp'.closure = fp.closure ∧ s'.ip = ip1 + 8 := by
  unfold execIntConst at h
  repeat' split at h
  all_goals first
    | (injection h with h'
       subst h'
       exact ⟨_, rfl, rfl, rfl⟩)
    | injection h

theorem execFuncConst_next (s : InterpState) (fp : Frame) (rest : List Frame)
    (bytes : List Nat) (ip1 : Nat) (s' : InterpState) (_hcs : s.callStack = fp :: rest)
    (h : execFuncConst s fp rest bytes ip1 = .next s') :
    ∃ fp', s'.callStack = fp' :: rest ∧ fp'.closure = fp.closure ∧ s'.ip = ip1 + 8 := by
  unfold execFuncConst at h
  repeat' split at h
  all_goals first
    | (injection h with h'
       subst h'
       exact ⟨_, rfl, rfl, rfl⟩)
    | injection h

theorem execMove_next (s : InterpState) (fp : Frame) (rest : List Frame)
    (bytes : List Nat) (ip1 : Nat) (s' : InterpState) (_hcs : s.callStack = fp :: rest)
    (h : execMove s fp rest bytes ip1 = .next s') :
    ∃ fp', s'.callStack = fp' :: rest ∧ fp'.closure = fp.closure ∧ s'.ip = ip1 + 8 := by
  unfold execMove at h
  repeat' split at h
  all_goals first
    | (injection h with h'
       subst h'
       exact ⟨_, rfl, rfl, rfl⟩)
    | injection h

theorem execLoadUpVal_next (s : InterpState) (fp : Frame) (rest : List Frame)
    (bytes : List Nat) (ip1 : Nat) (s' : InterpState) (_hcs : s.callStack = fp :: rest)
    (h : execLoadUpVal s fp rest bytes ip1 = .next s') :
    ∃ fp', s'.callStack = fp' :: rest ∧ fp'.closure = fp.closure ∧ s'.ip = ip1 + 8 := by
  unfold execLoadUpVal at h
  repeat' split at h
  all_goals first
    | (injection h with h'
       subst h'
       exact ⟨_, rfl, rfl, rfl⟩)
    | injection h

theorem execSetUpVal_next (s : InterpState) (fp : Frame) (rest : List Frame)
    (bytes : List Nat) (ip1 : Nat) (s' : InterpState) (hcs : s.callStack = fp :: rest)
    (h : execSetUpVal s fp rest bytes ip1 = .next s') :
    ∃ fp', s'.callStack = fp' :: rest ∧ fp'.closure = fp.closure ∧ s'.ip = ip1 + 8 := by
  unfold execSetUpVal at h
  repeat' split at h
  all_goals first
    | (injection h with h'
       subst h'
       exact ⟨fp, hcs, rfl, rfl⟩)
    | injection h

theorem execIntArith_next (s : InterpState) (fp : Frame) (rest : List Frame)
    (bytes : List Nat) (ip1 : Nat) (op : Nat) (s' : InterpState)
    (hcs : s.callStack = fp :: rest)
    (h : execIntArith s fp rest bytes ip1 op = .next s') :
    ∃ fp', s'.callStack = fp' :: rest ∧ fp'.closure = fp.closure ∧ s'.ip = ip1 + 12 := by
  unfold execIntArith at h
  repeat' split at h
  all_goals first
    | (injection h with h'
       subst h'
       first
         | exact ⟨_, rfl, rfl, rfl⟩
         | exact ⟨fp, hcs, rfl, rfl⟩)
    | injection h

theorem execPrint_next (s : InterpState) (fp : Frame) (rest : List Frame)
    (bytes : List Nat) (ip1 : Nat) (s' : InterpState) (hcs : s.callStack = fp :: rest)
    (h : execPrint s fp rest bytes ip1 = .next s') :
    ∃ fp', s'.callStack = fp' :: rest ∧ fp'.closure = fp.closure ∧ s'.ip = ip1 + 4 := by
  unfold execPrint at h
  repeat' split at h
  all_goals first
    | (injection h with h'
       subst h'
       exact ⟨fp, hcs, rfl, rfl⟩)
    | injection h

theorem execDispatch_next (s : InterpState) (fp : Frame) (rest : List Frame)
    (bytes : List Nat) (ip1 : Nat) (s' : InterpState)
    (h : execDispatch s fp rest bytes ip1 = .next s') :
    ∃ g fp', s'.callStack = g :: fp' :: rest ∧ fp'.closure = fp.closure ∧
      fp'.regs = fp.regs ∧ fp'.returnToAddress = ip1 + 8 ∧ s'.ip = 0 := by
  unfold execDispatch execDispatchCore at h
  repeat' split at h
  all_goals first
    | (injection h with h'
       subst h'
       exact ⟨_, _, rfl, rfl, rfl, rfl, rfl⟩)
    | injection h

theorem execReturn_next (s : InterpState) (fp : Frame) (rest : List Frame)
    (bytes : List Nat) (ip1 : Nat) (s' : InterpState)
    (h : execReturn s fp rest bytes ip1 = .next s') :
    ∃ lower rest' slot, rest = lower :: rest' ∧
      s'.callStack = setReg lower 0 slot :: rest' ∧ s'.ip = lower.returnToAddress := by
  unfold execReturn at h
  repeat' split at h
  all_goals first
    | (injection h with h'
       subst h'
       exact ⟨_, _, _, rfl, rfl, rfl⟩)
    | injection h

/-- Every successful step either rewrites only the top frame, pushes a
frame above an otherwise-preserved stack, or pops the top frame while
rebinding only register 0 of the frame below and restoring its saved
return address. -/
theorem step_next_stack_shapes (s s' : InterpState) (fp : Frame) (rest : List Frame)
    (hcs : s.callStack = fp :: rest) (h : step s = .next s') :
    (∃ fp', s'.callStack = fp' :: rest ∧ fp'.closure = fp.closure) ∨
    (∃ g fp', s'.callStack = g :: fp' :: rest ∧ fp'.closure = fp.closure ∧
      fp'.regs = fp.regs) ∨
    (∃ lower rest' slot, rest = lower :: rest' ∧
      s'.callStack = setReg lower 0 slot :: rest' ∧ s'.ip = lower.returnToAddress) := by
  rcases hrd : readByteAt fp.closure.prototype.bytecode.bytes s.ip with _ | b
  · rw [step_cons s fp rest hcs, hrd] at h
    exact absurd h (by simp)
  · rw [step_read s fp rest b hcs hrd] at h
    unfold execOpcode at h
    by_cases h1 : b = OpcodeHalt
    · rw [if_pos h1] at h; exact absurd h (by simp)
    rw [if_neg h1] at h
    by_cases h2 : b = OpcodeIntConst
    · rw [if_pos h2] at h
      obtain ⟨fp', hcs', hcl, _⟩ := execIntConst_next s fp rest _ _ s' hcs h
      exact Or.inl ⟨fp', hcs', hcl⟩
    rw [if_neg h2] at h
    by_cases h3 : b = OpcodeFuncConst
    · rw [if_pos h3] at h
      obtain ⟨fp', hcs', hcl, _⟩ := execFuncConst_next s fp rest _ _ s' hcs h
      exact Or.inl ⟨fp', hcs', hcl⟩
    rw [if_neg h3] at h
    by_cases h4 : b = OpcodeMove
    · rw [if_pos h4] at h
      obtain ⟨fp', hcs', hcl, _⟩ := execMove_next s fp rest _ _ s' hcs h
      exact Or.inl ⟨fp', hcs', hcl⟩
    rw [if_neg h4] at h
    by_cases h5 : b = OpcodeLoadUpVal
    · rw [if_pos h5] at h
      obtain ⟨fp', hcs', hcl, _⟩ := execLoadUpVal_next s fp rest _ _ s' hcs h
      exact Or.inl ⟨fp', hcs', hcl⟩
    rw [if_neg h5] at h
    by_cases h6 : b = OpcodeSetUpVal
    · rw [if_pos h6] at h
      obtain ⟨fp', hcs', hcl, _⟩ := execSetUpVal_next s fp rest _ _ s' hcs h
      exact Or.inl ⟨fp', hcs', hcl⟩
    rw [if_neg h6] at h
    by_cases h7 : b = OpcodeDispatch
    · rw [if_pos h7] at h
      obtain ⟨g, fp', hcs', hcl, hregs, _, _⟩ := execDispatch_next s fp rest _ _ s' h
      exact Or.inr (Or.inl ⟨g, fp', hcs', hcl, hregs⟩)
    rw [if_neg h7] at h
    by_cases h8 : b = OpcodeReturn
    · rw [if_pos h8] at h
      obtain ⟨lower, rest', slot, hr, hcs', hip⟩ := execReturn_next s fp rest _ _ s' h
      exact Or.inr (Or.inr ⟨lower, rest', slot, hr, hcs', hip⟩)
    rw [if_neg h8] at h
    by_cases h9 : b = OpcodeIntAdd
    · rw [if_pos h9] at h
      obtain ⟨fp', hcs', hcl, _⟩ := execIntArith_next s fp rest _ _ _ s' hcs h
      exact Or.inl ⟨fp', hcs', hcl⟩
    rw [if_neg h9] at h
    by_cases h10 : b = OpcodeIntSub
    · rw [if_pos h10] at h
      obtain ⟨fp', hcs', hcl, _⟩ := execIntArith_next s fp rest _ _ _ s' hcs h
      exact Or.inl ⟨fp', hcs', hcl⟩
    rw [if_neg h10] at h
    by_cases h11 : b = OpcodeIntMul
    · rw [if_pos h11] at h
      obtain ⟨fp', hcs', hcl, _⟩ := execIntArith_next s fp rest _ _ _ s' hcs h
      exact Or.inl ⟨fp', hcs', hcl⟩
    rw [if_neg h11] at h
    by_cases h12 : b = OpcodePrint
    · rw [if_pos h12] at h
      obtain ⟨fp', hcs', hcl, _⟩ := execPrint_next s fp rest _ _ s' hcs h
      exact Or.inl ⟨fp', hcs', hcl⟩
    rw [if_neg h12] at h
    exact absurd h (by simp)

/-! ## Frame isolation across a dispatch/return pair -/

theorem stepN_zero (s : InterpState) : stepN 0 s = some s := rfl

theorem stepN_next (n : Nat) (s s1 : InterpState) (h : step s = .next s1) :
    stepN (n + 1) s = stepN n s1 := by
  simp [stepN, h]

theorem stepN_halted (n : Nat) (s s1 : InterpState) (h : step s = .halted s1) :
    stepN (n + 1) s = none := by
  simp [stepN, h]

theorem stepN_fault (n : Nat) (s : InterpState) (f : Fault) (h : step s = .fault f) :
    stepN (n + 1) s = none := by
  simp [stepN, h]

/-- While the call stack stays strictly deeper than the caller's
depth, the caller frame and everything below it are untouched; the
first return to the caller's depth rebinds only the caller's register
0 and resumes at its saved return address. -/
theorem callee_run_preserves_caller (callerD : Frame) (restC : List Frame) :
    ∀ (n : Nat) (sa : InterpState) (stack : List Frame),
      stack ≠ [] →
      sa.callStack = stack ++ callerD :: restC →
      ∀ s', stepN n sa = some s' →
      (∀ k sk, k < n → stepN k sa = some sk → restC.length + 1 < sk.callStack.length) →
      s'.callStack.length = restC.length + 1 →
      ∃ slot, s'.callStack = setReg callerD 0 slot :: restC ∧
        s'.ip = callerD.returnToAddress := by
  intro n
  induction n with
  | zero =>
    intro sa stack hne hcs s' hrun hdepth hlen
    cases hrun
    exfalso
    apply hne
    rw [hcs] at hlen
    simp only [List.length_append, List.length_cons] at hlen
    exact List.length_eq_zero.mp (by omega)
  | succ m ih =>
    intro sa stack hne hcs s' hrun hdepth hlen
    rcases stack with _ | ⟨fpA, stackTl⟩
    · exact absurd rfl hne
    have hcsA : sa.callStack = fpA :: (stackTl ++ callerD :: restC) := by
      simpa using hcs
    rcases hstep : step sa with sb | sb | f
    · -- a successful step: use the stack shapes
      have hrun' : stepN m sb = some s' := by
        rw [← stepN_next m sa sb hstep]; exact hrun
      have hdepth' : ∀ k sk, k < m → stepN k sb = some sk →
          restC.length + 1 < sk.callStack.length := by
        intro k sk hk hsk
        exact hdepth (k + 1) sk (by omega) (by rw [stepN_next k sa sb hstep]; exact hsk)
      rcases step_next_stack_shapes sa sb fpA _ hcsA hstep with
        ⟨fp', hcs', _⟩ | ⟨g, fp', hcs', _, _⟩ | ⟨lower, rest', slot, hr, hcs', hip⟩
      · exact ih sb (fp' :: stackTl) (by simp) (by simpa using hcs') s' hrun' hdepth' hlen
      · exact ih sb (g :: fp' :: stackTl) (by simp) (by simpa using hcs') s' hrun' hdepth' hlen
      · rcases stackTl with _ | ⟨l2, tl2⟩
        · -- the pop lands on the caller
          simp only [List.nil_append] at hr
          injection hr with hr1 hr2
          subst hr1
          subst hr2
          rcases m with _ | m'
          · cases hrun'
            exact ⟨slot, hcs', hip⟩
          · exfalso
            have h1 : stepN 1 sa = some sb := by
              rw [stepN_next 0 sa sb hstep]
              rfl
            have hd := hdepth 1 sb (by omega) h1
            rw [hcs'] at hd
            simp only [List.length_cons] at hd
            omega
        · -- the pop lands inside the callee region
          simp only [List.cons_append] at hr
          injection hr with hr1 hr2
          subst hr1
          refine ih sb (setReg l2 0 slot :: tl2) (by simp) ?_ s' hrun' hdepth' hlen
          rw [hcs', ← hr2]
          rfl
    · rw [stepN_halted m sa sb hstep] at hrun
      exact absurd hrun (by simp)
    · rw [stepN_fault m sa f hstep] at hrun
      exact absurd hrun (by simp)

/-- Claim C4 (amended): `Dispatch` pushes a frame while leaving every
caller register binding in place, and until control first returns to
the caller's depth nothing below the callee is touched; the paired
`Return` rebinds only caller register 0.  So every caller register
other than register 0 still holds the same register record (cell)
after the `Return` as before the `Dispatch` — but, because `Dispatch`
aliases the argument records into the callee's parameter registers,
in-place writes by the callee (integer arithmetic destinations) to
parameters ARE observable through those shared records, as the
counterexample shows. -/
theorem c4_caller_register_bindings_preserved :
    ∀ (s : InterpState) (caller : Frame) (restC : List Frame) (s1 : InterpState),
      s.callStack = caller :: restC →
      nextOpcode s = some OpcodeDispatch →
      step s = .next s1 →
      ∀ (n : Nat) (s' : InterpState), stepN n s1 = some s' →
        (∀ k sk, k < n → stepN k s1 = some sk → restC.length + 1 < sk.callStack.length) →
        s'.callStack.length = restC.length + 1 →
        ∃ caller', s'.callStack = caller' :: restC ∧
          caller'.closure = caller.closure ∧
          (∀ r, r ≠ 0 → caller'.regs r = caller.regs r) := by
  intro s caller restC s1 hcs hop hstep n s' hrun hdepth hlen
  have hrd : readByteAt caller.closure.prototype.bytecode.bytes s.ip
      = some OpcodeDispatch := by
    rw [← nextOpcode_cons s caller restC hcs]
    exact hop
  rw [step_read s caller restC _ hcs hrd, execOpcode_dispatch] at hstep
  obtain ⟨g, callerD, hcs1, hclD, hregsD, _, _⟩ :=
    execDispatch_next s caller restC _ _ s1 hstep
  obtain ⟨slot, hcs', hip⟩ := callee_run_preserves_caller callerD restC n s1 [g]
    (by simp) (by simpa using hcs1) s' hrun hdepth hlen
  refine ⟨setReg callerD 0 slot, hcs', ?_, ?_⟩
  · show callerD.closure = caller.closure
    exact hclD
  · intro r hr
    show (if r = 0 then slot else callerD.regs r) = caller.regs r
    rw [if_neg hr, hregsD]

/-- Witness for the amended C4 on the concrete dispatch of
`aliasCallee`: after its two steps (IntAdd, Return), the caller's
register 2 still binds the cell it bound before the dispatch. -/
theorem c4_caller_register_bindings_preserved_witness :
    (stepN 2 c4wS1).map (fun s' => s'.callStack.head?.map (fun f => f.regs 2))
      = some (some (c4wCaller.regs 2)) := by
  rcases hs' : stepN 2 c4wS1 with _ | s'
  · have hsome : (stepN 2 c4wS1).isSome = true := rfl
    rw [hs'] at hsome
    exact absurd hsome (by simp)
  · have hfin : (stepN 2 c4wS1).map (fun t => t.callStack.length) = some 1 := rfl
    rw [hs'] at hfin
    simp only [Option.map_some', Option.some.injEq] at hfin
    have hdepth : ∀ k sk, k < 2 → stepN k c4wS1 = some sk →
        (List.length ([] : List Frame)) + 1 < sk.callStack.length := by
      intro k sk hk hsk
      interval_cases k
      · injection hsk with h'
        subst h'
        decide
      · have h1 : (stepN 1 c4wS1).map (fun t => t.callStack.length) = some 2 := rfl
        rw [hsk] at h1
        simp only [Option.map_some', Option.some.injEq] at h1
        simp only [List.length_nil]
        omega
    obtain ⟨caller', hcs', _hcl, hregs⟩ :=
      c4_caller_register_bindings_preserved c4wState c4wCaller [] c4wS1
        rfl rfl rfl 2 s' hs' hdepth (by simpa using hfin)
    simp only [Option.map_some', Option.some.injEq]
    rw [hcs']
    simp only [List.head?_cons, Option.map_some', Option.some.injEq]
    exact hregs 2 (by decide)

/-! ## Return never executes against a one-frame stack -/

theorem assemble_append (xs ys : List Instr) :
    assemble (xs ++ ys) = assemble xs ++ assemble ys := by
  simp [assemble]

theorem assemble_cons (i : Instr) (xs : List Instr) :
    assemble (i :: xs) = encode i ++ assemble xs := by
  simp [assemble]

theorem encode_head_cons (i : Instr) : ∃ b t, encode i = b :: t := by
  cases i <;> exact ⟨_, _, rfl⟩

theorem readByteAt_boundary (pre suf : List Instr) :
    readByteAt (assemble (pre ++ suf)) (assemble pre).length = (assemble suf).head? := by
  unfold readByteAt
  rw [assemble_append, List.drop_left]

theorem boundary_next (main pre : List Instr) (i : Instr) (suf : List Instr)
    (hm : main = pre ++ i :: suf) :
    BoundaryIn main ((assemble pre).length + (encode i).length) := by
  refine ⟨pre ++ [i], suf, ?_, ?_⟩
  · rw [hm]
    simp
  · rw [assemble_append, List.length_append]
    simp [assemble]

theorem encode_length_of_head (i : Instr) (b : Nat)
    (h : (encode i).head? = some b) : (encode i).length = instrLen b := by
  cases i <;>
    (simp only [encode, List.head?_cons, Option.some.injEq] at h
     subst h
     rfl)

theorem encode_head_ret (i : Instr) (h : (encode i).head? = some OpcodeReturn) :
    ∃ r, i = Instr.ret r := by
  cases i <;>
    first
      | exact ⟨_, rfl⟩
      | (exfalso
         simp only [encode, List.head?_cons, Option.some.injEq] at h
         exact absurd h (by decide))

/-- Invariant preservation when the bottom frame itself is active: the
byte fetched at a boundary is the leading opcode of some instruction
of `main`, and every handled opcode either advances the instruction
pointer by exactly that instruction's encoded length, pushes a callee
frame while saving the very next boundary as the return address, or
(for Return against a one-frame stack) faults rather than stepping. -/
theorem c10inv_step_base (main : List Instr) (s s' : InterpState) (bot : Frame)
    (hcs : s.callStack = [bot])
    (hbc : bot.closure.prototype.bytecode.bytes = assemble main)
    (hb : BoundaryIn main s.ip)
    (h : step s = .next s') :
    C10Inv main s' := by
  obtain ⟨pre, suf, hm, hip⟩ := hb
  cases suf with
  | nil =>
    have hrd : readByteAt bot.closure.prototype.bytecode.bytes s.ip = none := by
      rw [hbc, hm, List.append_nil, hip]
      unfold readByteAt
      rw [List.drop_length]
      rfl
    rw [step_cons s bot [] hcs, hrd] at h
    exact absurd h (by simp)
  | cons i suf' =>
    obtain ⟨b, t, hbt⟩ := encode_head_cons i
    have hrd : readByteAt bot.closure.prototype.bytecode.bytes s.ip = some b := by
      rw [hbc, hm, hip, readByteAt_boundary, assemble_cons, hbt]
      rfl
    have hlen : (encode i).length = instrLen b :=
      encode_length_of_head i b (by rw [hbt]; rfl)
    have hbn := boundary_next main pre i suf' hm
    rw [hlen] at hbn
    rw [step_read s bot [] b hcs hrd] at h
    unfold execOpcode at h
    by_cases h1 : b = OpcodeHalt
    · rw [if_pos h1] at h
      exact absurd h (by simp)
    rw [if_neg h1] at h
    by_cases h2 : b = OpcodeIntConst
    · rw [if_pos h2] at h
      obtain ⟨fp', hcs', hcl, hipn⟩ := execIntConst_next s bot [] _ _ s' hcs h
      subst h2
      refine ⟨[], fp', hcs', by rw [hcl]; exact hbc, fun _ => ?_, fun hne => absurd rfl hne⟩
      rw [show instrLen OpcodeIntConst = 9 from rfl] at hbn
      rw [show s'.ip = (assemble pre).length + 9 by omega]
      exact hbn
    rw [if_neg h2] at h
    by_cases h3 : b = OpcodeFuncConst
    · rw [if_pos h3] at h
      obtain ⟨fp', hcs', hcl, hipn⟩ := execFuncConst_next s bot [] _ _ s' hcs h
      subst h3
      refine ⟨[], fp', hcs', by rw [hcl]; exact hbc, fun _ => ?_, fun hne => absurd rfl hne⟩
      rw [show instrLen OpcodeFuncConst = 9 from rfl] at hbn
      rw [show s'.ip = (assemble pre).length + 9 by omega]
      exact hbn
    rw [if_neg h3] at h
    by_cases h4 : b = OpcodeMove
    · rw [if_pos h4] at h
      obtain ⟨fp', hcs', hcl, hipn⟩ := execMove_next s bot [] _ _ s' hcs h
      subst h4
      refine ⟨[], fp', hcs', by rw [hcl]; exact hbc, fun _ => ?_, fun hne => absurd rfl hne⟩
      rw [show instrLen OpcodeMove = 9 from rfl] at hbn
      rw [show s'.ip = (assemble pre).length + 9 by omega]
      exact hbn
    rw [if_neg h4] at h
    by_cases h5 : b = OpcodeLoadUpVal
    · rw [if_pos h5] at h
      obtain ⟨fp', hcs', hcl, hipn⟩ := execLoadUpVal_next s bot [] _ _ s' hcs h
      subst h5
      refine ⟨[], fp', hcs', by rw [hcl]; exact hbc, fun _ => ?_, fun hne => absurd rfl hne⟩
      rw [show instrLen OpcodeLoadUpVal = 9 from rfl] at hbn
      rw [show s'.ip = (assemble pre).length + 9 by omega]
      exact hbn
    rw [if_neg h5] at h
    by_cases h6 : b = OpcodeSetUpVal
    · rw [if_pos h6] at h
      obtain ⟨fp', hcs', hcl, hipn⟩ := execSetUpVal_next s bot [] _ _ s' hcs h
      subst h6
      refine ⟨[], fp', hcs', by rw [hcl]; exact hbc, fun _ => ?_, fun hne => absurd rfl hne⟩
      rw [show instrLen OpcodeSetUpVal = 9 from rfl] at hbn
      rw [show s'.ip = (assemble pre).length + 9 by omega]
      exact hbn
    rw [if_neg h6] at h
    by_cases h7 : b = OpcodeDispatch
    · rw [if_pos h7] at h
      obtain ⟨g, fp', hcs', hcl, _hregs, hret, _hipz⟩ := execDispatch_next s bot [] _ _ s' h
      subst h7
      refine ⟨[g], fp', hcs', by rw [hcl]; exact hbc,
        fun hemp => absurd hemp (by simp), fun _ => ?_⟩
      rw [show instrLen OpcodeDispatch = 9 from rfl] at hbn
      rw [show fp'.returnToAddress = (assemble pre).length + 9 by omega]
      exact hbn
    rw [if_neg h7] at h
    by_cases h8 : b = OpcodeReturn
    · rw [if_pos h8] at h
      obtain ⟨lower, rest', slot, hr, _, _⟩ := execReturn_next s bot [] _ _ s' h
      exact absurd hr (by simp)
    rw [if_neg h8] at h
    by_cases h9 : b = OpcodeIntAdd
    · rw [if_pos h9] at h
      obtain ⟨fp', hcs', hcl, hipn⟩ := execIntArith_next s bot [] _ _ _ s' hcs h
      subst h9
      refine ⟨[], fp', hcs', by rw [hcl]; exact hbc, fun _ => ?_, fun hne => absurd rfl hne⟩
      rw [show instrLen OpcodeIntAdd = 13 from rfl] at hbn
      rw [show s'.ip = (assemble pre).length + 13 by omega]
      exact hbn
    rw [if_neg h9] at h
    by_cases h10 : b = OpcodeIntSub
    · rw [if_pos h10] at h
      obtain ⟨fp', hcs', hcl, hipn⟩ := execIntArith_next s bot [] _ _ _ s' hcs h
      subst h10
      refine ⟨[], fp', hcs', by rw [hcl]; exact hbc, fun _ => ?_, fun hne => absurd rfl hne⟩
      rw [show instrLen OpcodeIntSub = 13 from rfl] at hbn
      rw [show s'.ip = (assemble pre).length + 13 by omega]
      exact hbn
    rw [if_neg h10] at h
    by_cases h11 : b = OpcodeIntMul
    · rw [if_pos h11] at h
      obtain ⟨fp', hcs', hcl, hipn⟩ := execIntArith_next s bot [] _ _ _ s' hcs h
      subst h11
      refine ⟨[], fp', hcs', by rw [hcl]; exact hbc, fun _ => ?_, fun hne => absurd rfl hne⟩
      rw [show instrLen OpcodeIntMul = 13 from rfl] at hbn
      rw [show s'.ip = (assemble pre).length + 13 by omega]
      exact hbn
    rw [if_neg h11] at h
    by_cases h12 : b = OpcodePrint
    · rw [if_pos h12] at h
      obtain ⟨fp', hcs', hcl, hipn⟩ := execPrint_next s bot [] _ _ s' hcs h
      subst h12
      refine ⟨[], fp', hcs', by rw [hcl]; exact hbc, fun _ => ?_, fun hne => absurd rfl hne⟩
      rw [show instrLen OpcodePrint = 5 from rfl] at hbn
      rw [show s'.ip = (assemble pre).length + 5 by omega]
      exact hbn
    rw [if_neg h12] at h
    exact absurd h (by simp)

/-- Invariant preservation while frames sit above the bottom one: no
step shape touches the bottom frame except the pop back to depth one,
which rebinds only its register 0 and resumes at its saved (boundary)
return address. -/
theorem c10inv_step_deep (main : List Instr) (s s' : InterpState)
    (f0 bot : Frame) (mid : List Frame)
    (hcs : s.callStack = f0 :: (mid ++ [bot]))
    (hbc : bot.closure.prototype.bytecode.bytes = assemble main)
    (hret : BoundaryIn main bot.returnToAddress)
    (h : step s = .next s') :
    C10Inv main s' := by
  rcases step_next_stack_shapes s s' f0 (mid ++ [bot]) hcs h with
    ⟨fp', hcs', _⟩ | ⟨g, fp', hcs', _, _⟩ | ⟨lower, rest', slot, hr, hcs', hip⟩
  · exact ⟨fp' :: mid, bot, hcs', hbc, fun hemp => absurd hemp (by simp), fun _ => hret⟩
  · exact ⟨g :: fp' :: mid, bot, hcs', hbc, fun hemp => absurd hemp (by simp), fun _ => hret⟩
  · cases mid with
    | nil =>
      injection hr with hr1 hr2
      refine ⟨[], setReg lower 0 slot, by rw [hcs', ← hr2, List.nil_append], ?_, fun _ => ?_,
        fun hne => absurd rfl hne⟩
      · rw [hr1] at hbc
        exact hbc
      · rw [hip, ← hr1]
        exact hret
    | cons m mid' =>
      injection hr with hr1 hr2
      exact ⟨setReg lower 0 slot :: mid', bot, by rw [hcs', ← hr2, List.cons_append]; rfl, hbc,
        fun hemp => absurd hemp (by simp), fun _ => hret⟩

theorem c10inv_step (main : List Instr) (s s' : InterpState)
    (hinv : C10Inv main s) (h : step s = .next s') : C10Inv main s' := by
  obtain ⟨rest, bot, hcs, hbc, h1, h2⟩ := hinv
  cases rest with
  | nil => exact c10inv_step_base main s s' bot hcs hbc (h1 rfl) h
  | cons f0 mid => exact c10inv_step_deep main s s' f0 bot mid hcs hbc (h2 (by simp)) h

theorem c10inv_stepN (main : List Instr) (n : Nat) :
    ∀ s s' : InterpState, C10Inv main s → stepN n s = some s' → C10Inv main s' := by
  induction n with
  | zero =>
    intro s s' hinv h
    injection h with h'
    rw [← h']
    exact hinv
  | succ k ih =>
    intro s s' hinv h
    rcases hst : step s with s1 | s1 | f
    · rw [stepN_next k s s1 hst] at h
      exact ih s1 s' (c10inv_step main s s1 hinv hst) h
    · rw [stepN_halted k s s1 hst] at h
      exact absurd h (by simp)
    · rw [stepN_fault k s f hst] at h
      exact absurd h (by simp)

theorem c10inv_init (main : List Instr) (proto : FuncPrototype)
    (funcs : List FuncPrototype) (s0 : InterpState)
    (hbytes : proto.bytecode.bytes = assemble main)
    (hup : proto.upvalues = [])
    (hinit : newInterpreter proto funcs = some s0) :
    C10Inv main s0 := by
  have hcl : newClosure [] proto = some { prototype := proto, upvalues := [] } := by
    unfold newClosure
    rw [hup]
    rfl
  unfold newInterpreter at hinit
  rw [hcl, Option.map_some'] at hinit
  injection hinit with h'
  subst h'
  exact ⟨[], _, rfl, hbytes, fun _ => ⟨[], main, rfl, rfl⟩, fun hne => absurd rfl hne⟩

/-- Core run-time lemma for Claim C10: when the main prototype's
bytecode is the assembly of an instruction sequence containing no
Return instruction at all (and the prototype captures no upvalues, as
`Compile` guarantees for main), then in every state reachable from
`NewInterpreter`'s initial state in which the call stack has only the
single main frame, the next opcode is never Return - so a Return can
never execute against a one-frame stack and the underflow panic is
unreachable, regardless of what the dispatched function bodies do. -/
theorem c10_no_return_at_depth_one (main : List Instr) (proto : FuncPrototype)
    (funcs : List FuncPrototype) (s0 : InterpState) (n : Nat) (s' : InterpState)
    (hbytes : proto.bytecode.bytes = assemble main)
    (hup : proto.upvalues = [])
    (hnr : ∀ i ∈ main, ∀ r, i ≠ Instr.ret r)
    (hinit : newInterpreter proto funcs = some s0)
    (hrun : stepN n s0 = some s')
    (hdepth : s'.callStack.length = 1) :
    nextOpcode s' ≠ some OpcodeReturn := by
  intro hop
  obtain ⟨rest, bot, hcs, hbc, h1, _h2⟩ :=
    c10inv_stepN main n s0 s' (c10inv_init main proto funcs s0 hbytes hup hinit) hrun
  have hrest : rest = [] := by
    rw [hcs, List.length_append] at hdepth
    have : rest.length = 0 := by
      simp only [List.length_singleton] at hdepth
      omega
    exact List.length_eq_zero.mp this
  subst hrest
  obtain ⟨pre, suf, hm, hip⟩ := h1 rfl
  rw [nextOpcode_cons s' bot [] hcs, hbc, hm, hip, readByteAt_boundary] at hop
  cases suf with
  | nil => exact absurd hop (by simp [assemble])
  | cons i suf' =>
    rw [assemble_cons] at hop
    obtain ⟨b, t, hbt⟩ := encode_head_cons i
    rw [hbt] at hop
    simp only [List.cons_append, List.head?_cons, Option.some.injEq] at hop
    obtain ⟨r, hi⟩ := encode_head_ret i (by rw [hbt, hop]; rfl)
    exact hnr i (by rw [hm]; simp) r hi

theorem c10_no_return_at_depth_one_witness :
    c10wS0.callStack.length = 1 ∧ nextOpcode c10wS0 ≠ some OpcodeReturn :=
  ⟨rfl,
   c10_no_return_at_depth_one [Instr.halt] c10wProto [] c10wS0 0 c10wS0 rfl rfl
     (by
       intro i hi r hc
       rw [List.mem_singleton] at hi
       subst hi
       exact Instr.noConfusion hc)
     rfl rfl rfl⟩

/-! ## Layout algebra for the compiled-main theorem -/

theorem retFreeProg_append (xs ys : List Instr) (hx : RetFreeProg xs)
    (hy : RetFreeProg ys) : RetFreeProg (xs ++ ys) := by
  intro i hi r
  rcases List.mem_append.mp hi with h | h
  · exact hx i h r
  · exact hy i h r

theorem retFreeProg_singleton (i : Instr) (h : ∀ r, i ≠ Instr.ret r) :
    RetFreeProg [i] := by
  intro j hj r
  rw [List.mem_singleton] at hj
  subst hj
  exact h r

theorem progExt_refl (prog : List Instr) : ProgExt prog prog :=
  ⟨id, fun _ h => h⟩

theorem progExt_trans {p1 p2 p3 : List Instr} (h1 : ProgExt p1 p2)
    (h2 : ProgExt p2 p3) : ProgExt p1 p3 :=
  ⟨fun h => h2.1 (h1.1 h), fun p hw => h2.2 p (h1.2 p hw)⟩

theorem addrWindow_append (prog ext : List Instr) (p : Nat) (h : AddrWindow prog p) :
    AddrWindow (prog ++ ext) p := by
  obtain ⟨pre, b, suf, heq, hbr, hp⟩ := h
  exact ⟨pre, b, suf ++ ext, by rw [heq]; simp, hbr, hp⟩

theorem progExt_append (prog ext : List Instr) (hext : RetFreeProg ext) :
    ProgExt prog (prog ++ ext) :=
  ⟨fun h => retFreeProg_append _ _ h hext, fun p hw => addrWindow_append prog ext p hw⟩

theorem goodPh_ext (prog prog2 : List Instr) (ph : Placeholder)
    (he : ProgExt prog prog2) (h : GoodPh prog ph) : GoodPh prog2 ph :=
  fun p hp => he.2 p (h p hp)

theorem branch_ne_ret (b : Instr) (hb : isBranch b = true) : ∀ r, b ≠ Instr.ret r := by
  cases b <;> simp [isBranch] at hb ⊢

theorem branch_encode_four_le (b : Instr) (hb : isBranch b = true) :
    4 ≤ (encode b).length := by
  cases b <;> simp [isBranch] at hb ⊢ <;>
    simp [encode, addressToBytes, registerToBytes, uint32ToBytes]

/-- The new addr-window created by appending a branch instruction. -/
theorem addrWindow_snoc (prog : List Instr) (b : Instr) (hb : isBranch b = true) :
    AddrWindow (prog ++ [b]) ((assemble prog).length + (encode b).length - 4) := by
  refine ⟨prog, b, [], rfl, hb, ?_⟩
  have := branch_encode_four_le b hb
  omega

/-- The four indexed stores of `computeJumps`, on a buffer split around
the four bytes they overwrite. -/
theorem writeAddrAt_exact (l : List Nat) : ∀ (p : Nat), p = l.length →
    ∀ (r : List Nat) (m0 m1 m2 m3 a0 a1 a2 a3 : Nat),
    writeAddrAt (l ++ m0 :: m1 :: m2 :: m3 :: r) p [a0, a1, a2, a3]
      = l ++ a0 :: a1 :: a2 :: a3 :: r := by
  induction l with
  | nil =>
    intro p hp r m0 m1 m2 m3 a0 a1 a2 a3
    subst hp
    rfl
  | cons x xs ih =>
    intro p hp r m0 m1 m2 m3 a0 a1 a2 a3
    subst hp
    have e2 : xs.length + 1 + 2 = xs.length + 2 + 1 := by omega
    have e3 : xs.length + 1 + 3 = xs.length + 3 + 1 := by omega
    simp only [writeAddrAt, List.length_cons, List.cons_append, e2, e3, List.set_cons_succ]
    have := ih xs.length rfl r m0 m1 m2 m3 a0 a1 a2 a3
    simp only [writeAddrAt] at this
    rw [this]

theorem uint32ToBytes_mod (A : Nat) :
    uint32ToBytes (A % 4294967296) = uint32ToBytes A := by
  rw [uint32ToBytes_eq, uint32ToBytes_eq]
  simp only [List.cons.injEq, and_true]
  refine ⟨?_, ?_, ?_, ?_⟩ <;> omega

theorem assemble_length_append_cons (xs : List Instr) (b : Instr) (ys : List Instr) :
    (assemble (xs ++ b :: ys)).length
      = (assemble xs).length + (encode b).length + (assemble ys).length := by
  rw [assemble_append, assemble_cons]
  simp [List.length_append]
  omega

/-- Patching the four addr bytes of a branch instruction inside an
assembled program yields the assembly of the program with that branch
retargeted. -/
theorem patch_branch_core (pre : List Instr) (suf : List Instr) (hd : List Nat)
    (aOld A p : Nat) (b b2 : Instr)
    (hb : encode b = hd ++ addressToBytes aOld)
    (hb2 : encode b2 = hd ++ addressToBytes (A % 4294967296))
    (hp : p + 4 = (assemble pre).length + (encode b).length) :
    writeAddrAt (assemble (pre ++ b :: suf)) p (addressToBytes A)
      = assemble (pre ++ b2 :: suf) := by
  have hlen : (addressToBytes aOld).length = 4 := rfl
  have hp2 : p = (assemble pre).length + hd.length := by
    rw [hb, List.length_append, hlen] at hp
    omega
  have hadA : addressToBytes A
      = [A / 16777216 % 256, A / 65536 % 256, A / 256 % 256, A % 256] :=
    uint32ToBytes_eq A
  have hadAm : addressToBytes (A % 4294967296)
      = [A / 16777216 % 256, A / 65536 % 256, A / 256 % 256, A % 256] := by
    rw [show addressToBytes (A % 4294967296) = uint32ToBytes (A % 4294967296) from rfl,
      uint32ToBytes_mod]
    exact uint32ToBytes_eq A
  have hadO : addressToBytes aOld
      = [aOld / 16777216 % 256, aOld / 65536 % 256, aOld / 256 % 256, aOld % 256] :=
    uint32ToBytes_eq aOld
  calc writeAddrAt (assemble (pre ++ b :: suf)) p (addressToBytes A)
      = writeAddrAt ((assemble pre ++ hd) ++
          (aOld / 16777216 % 256 :: aOld / 65536 % 256 :: aOld / 256 % 256 ::
            aOld % 256 :: assemble suf)) p
          [A / 16777216 % 256, A / 65536 % 256, A / 256 % 256, A % 256] := by
        rw [assemble_append, assemble_cons, hb, hadA, hadO]
        simp [List.append_assoc]
    _ = (assemble pre ++ hd) ++
          (A / 16777216 % 256 :: A / 65536 % 256 :: A / 256 % 256 ::
            A % 256 :: assemble suf) := by
        apply writeAddrAt_exact
        rw [List.length_append]
        exact hp2
    _ = assemble (pre ++ b2 :: suf) := by
        rw [assemble_append, assemble_cons, hb2, hadAm]
        simp [List.append_assoc]

theorem writeAddrAt_assemble (pre : List Instr) (b : Instr) (suf : List Instr)
    (hbr : isBranch b = true) (A p : Nat)
    (hp : p + 4 = (assemble pre).length + (encode b).length) :
    ∃ b2, writeAddrAt (assemble (pre ++ b :: suf)) p (addressToBytes A)
        = assemble (pre ++ b2 :: suf) ∧ isBranch b2 = true ∧
        (encode b2).length = (encode b).length := by
  cases b <;> simp only [isBranch, Bool.false_eq_true] at hbr
  case brAlways a =>
    exact ⟨.brAlways (A % 4294967296),
      patch_branch_core pre suf [OpcodeBrAlways] a A p _ _ rfl rfl hp, rfl, rfl⟩
  case brTrue t a =>
    exact ⟨.brTrue t (A % 4294967296),
      patch_branch_core pre suf (OpcodeBrTrue :: registerToBytes t) a A p _ _ rfl rfl hp,
      rfl, rfl⟩
  case brFalse s a =>
    exact ⟨.brFalse s (A % 4294967296),
      patch_branch_core pre suf (OpcodeBrFalse :: registerToBytes s) a A p _ _ rfl rfl hp,
      rfl, rfl⟩

theorem retFree_replace (pre0 : List Instr) (b0 b2 : Instr) (suf0 : List Instr)
    (hnr2 : ∀ r, b2 ≠ Instr.ret r)
    (h : RetFreeProg (pre0 ++ b0 :: suf0)) : RetFreeProg (pre0 ++ b2 :: suf0) := by
  intro i hi r
  rcases List.mem_append.mp hi with hp | hc
  · exact h i (List.mem_append_left _ hp) r
  · rcases List.mem_cons.mp hc with he | ht
    · subst he
      exact hnr2 r
    · exact h i (List.mem_append_right _ (List.mem_cons_of_mem _ ht)) r

theorem addrWindow_replace (pre0 : List Instr) (b0 b2 : Instr) (suf0 : List Instr)
    (hlen : (encode b2).length = (encode b0).length) (hbr2 : isBranch b2 = true)
    (q : Nat) (hw : AddrWindow (pre0 ++ b0 :: suf0) q) :
    AddrWindow (pre0 ++ b2 :: suf0) q := by
  obtain ⟨pre, b, suf, heq, hbr, hp⟩ := hw
  rcases List.append_eq_append_iff.mp heq with ⟨mid, h1, h2⟩ | ⟨mid, h1, h2⟩
  · cases mid with
    | nil =>
      rw [List.nil_append] at h2
      injection h2 with hb0 hsuf
      rw [List.append_nil] at h1
      refine ⟨pre0, b2, suf0, rfl, hbr2, ?_⟩
      have hx : (encode b2).length = (encode b).length := by rw [hlen, hb0]
      rw [hp, h1]
      omega
    | cons x mid2 =>
      rw [List.cons_append] at h2
      injection h2 with hb0 hsuf0
      refine ⟨pre0 ++ b2 :: mid2, b, suf, ?_, hbr, ?_⟩
      · rw [hsuf0]
        simp
      · have e1 := assemble_length_append_cons pre0 b2 mid2
        have e2 := assemble_length_append_cons pre0 x mid2
        have hx : (encode b2).length = (encode x).length := by rw [hlen, hb0]
        rw [hp, h1]
        omega
  · cases mid with
    | nil =>
      rw [List.nil_append] at h2
      injection h2 with hb hsuf
      rw [List.append_nil] at h1
      refine ⟨pre0, b2, suf0, rfl, hbr2, ?_⟩
      have hx : (encode b2).length = (encode b).length := by rw [hlen, hb]
      rw [hp, ← h1]
      omega
    | cons x mid2 =>
      rw [List.cons_append] at h2
      injection h2 with hb hsuf
      refine ⟨pre, b, mid2 ++ b2 :: suf0, ?_, hbr, hp⟩
      rw [h1, hb]
      simp

theorem patch_one (prog : List Instr) (p A : Nat) (hw : AddrWindow prog p) :
    ∃ prog2, writeAddrAt (assemble prog) p (addressToBytes A) = assemble prog2 ∧
      (assemble prog2).length = (assemble prog).length ∧ ProgExt prog prog2 := by
  obtain ⟨pre, b, suf, heq, hbr, hp⟩ := hw
  subst heq
  obtain ⟨b2, hw2, hbr2, hlen2⟩ := writeAddrAt_assemble pre b suf hbr A p hp
  refine ⟨pre ++ b2 :: suf, hw2, ?_, ?_, ?_⟩
  · rw [assemble_length_append_cons, assemble_length_append_cons, hlen2]
  · exact fun h => retFree_replace pre b b2 suf (branch_ne_ret b2 hbr2) h
  · exact fun q hq => addrWindow_replace pre b b2 suf hlen2 hbr2 q hq

theorem patchFold_assemble (places : List Nat) (A : Nat) :
    ∀ prog, (∀ p ∈ places, AddrWindow prog p) →
    ∃ prog2,
      places.foldl (fun bs p => writeAddrAt bs p (addressToBytes A)) (assemble prog)
        = assemble prog2 ∧
      (assemble prog2).length = (assemble prog).length ∧ ProgExt prog prog2 := by
  induction places with
  | nil =>
    intro prog _
    exact ⟨prog, rfl, rfl, progExt_refl prog⟩
  | cons p ps ih =>
    intro prog hps
    obtain ⟨prog1, h1, hl1, he1⟩ := patch_one prog p A (hps p (by simp))
    rw [List.foldl_cons, h1]
    obtain ⟨prog2, h2, hl2, he2⟩ := ih prog1 (fun q hq => he1.2 q (hps q (by simp [hq])))
    exact ⟨prog2, h2, by omega, progExt_trans he1 he2⟩

/-! ## Per-action effects on the assembly under construction -/

theorem goodAsm_of_currFunc_eq (st st2 : Assembly) (prog : List Instr)
    (h : st2.currFunc = st.currFunc) (hg : GoodAsm st prog) : GoodAsm st2 prog := by
  unfold GoodAsm
  rw [h]
  exact hg

theorem bumpIfOnStack_currFunc (st : Assembly) (r : Nat) :
    (bumpIfOnStack st r).currFunc = st.currFunc := by
  unfold bumpIfOnStack
  split <;> rfl

theorem dropIfOnStack_currFunc (st : Assembly) (r : Nat) :
    (dropIfOnStack st r).currFunc = st.currFunc := by
  unfold dropIfOnStack
  split <;> rfl

theorem asmStep_refl (st : Assembly) (prog : List Instr) (hg : GoodAsm st prog) :
    AsmStep st st prog prog := ⟨hg, progExt_refl prog, rfl⟩

theorem asmStep_trans {st1 st2 st3 : Assembly} {p1 p2 p3 : List Instr}
    (h1 : AsmStep st1 st2 p1 p2) (h2 : AsmStep st2 st3 p2 p3) :
    AsmStep st1 st3 p1 p3 :=
  ⟨h2.1, progExt_trans h1.2.1 h2.2.1, by rw [h2.2.2, h1.2.2]⟩

theorem asmStep_currFunc_eq (st st2 : Assembly) (prog : List Instr)
    (h : st2.currFunc = st.currFunc) (hg : GoodAsm st prog) :
    AsmStep st st2 prog prog :=
  ⟨goodAsm_of_currFunc_eq st st2 prog h hg, progExt_refl prog, by rw [h]⟩

theorem emit_good (st : Assembly) (i : Instr) (prog : List Instr)
    (hg : GoodAsm st prog) : GoodAsm (emit st i) (prog ++ [i]) := by
  obtain ⟨hb, hs⟩ := hg
  constructor
  · show st.currFunc.bytecode.bytes ++ encode i = assemble (prog ++ [i])
    rw [hb, assemble_append]
    simp [assemble]
  · show st.currFunc.bytecode.size + (encode i).length = (assemble (prog ++ [i])).length
    rw [hs, assemble_append, List.length_append]
    simp [assemble]

theorem asmStep_emit (st : Assembly) (i : Instr) (prog : List Instr)
    (hg : GoodAsm st prog) (hnr : ∀ r, i ≠ Instr.ret r) :
    AsmStep st (emit st i) prog (prog ++ [i]) :=
  ⟨emit_good st i prog hg,
   progExt_append prog [i] (retFreeProg_singleton i hnr), rfl⟩

theorem registerJumpA_out (st : Assembly) (ph : Placeholder) (inst : Instr)
    (prog : List Instr) (hg : GoodAsm st prog) (hbr : isBranch inst = true) :
    AsmStep st (registerJumpA st ph inst).1 prog (prog ++ [inst]) ∧
    (registerJumpA st ph inst).2.placesHeld
      = ph.placesHeld ++ [(assemble prog).length + (encode inst).length - 4] ∧
    AddrWindow (prog ++ [inst])
      ((assemble prog).length + (encode inst).length - 4) := by
  refine ⟨⟨emit_good st inst prog hg, progExt_append prog [inst]
      (retFreeProg_singleton inst (branch_ne_ret inst hbr)), rfl⟩, ?_,
    addrWindow_snoc prog inst hbr⟩
  show ph.placesHeld ++ [st.currFunc.bytecode.size + (encode inst).length - 4] = _
  rw [hg.2]

theorem computeJumpsA_out (st : Assembly) (ph : Placeholder) (prog : List Instr)
    (hg : GoodAsm st prog) (hph : GoodPh prog ph) :
    ∃ prog2, AsmStep st (computeJumpsA st ph) prog prog2 := by
  obtain ⟨hb, hs⟩ := hg
  obtain ⟨prog2, h2, hl2, he2⟩ :=
    patchFold_assemble ph.placesHeld st.currFunc.bytecode.size prog hph
  refine ⟨prog2, ⟨?_, ?_⟩, he2, rfl⟩
  · show ph.placesHeld.foldl
        (fun bs p => writeAddrAt bs p (addressToBytes st.currFunc.bytecode.size))
        st.currFunc.bytecode.bytes = assemble prog2
    rw [hb]
    exact h2
  · show st.currFunc.bytecode.size = (assemble prog2).length
    rw [hs]
    exact hl2.symm

theorem chooseIntInstr_ne_ret (op : String) (l r d : Nat) (i : Instr)
    (h : chooseIntInstr op l r d = some i) : ∀ s, i ≠ Instr.ret s := by
  unfold chooseIntInstr at h
  repeat' split at h
  all_goals first
    | (injection h with h2
       subst h2
       intro s hc
       exact Instr.noConfusion hc)
    | injection h

theorem chooseDecInstr_ne_ret (op : String) (l r d : Nat) (i : Instr)
    (h : chooseDecInstr op l r d = some i) : ∀ s, i ≠ Instr.ret s := by
  unfold chooseDecInstr at h
  repeat' split at h
  all_goals first
    | (injection h with h2
       subst h2
       intro s hc
       exact Instr.noConfusion hc)
    | injection h

/-- `compileFunction` builds the child prototype in a fresh assembly
and returns the parent assembly untouched. -/
theorem compileFunction_st (fuel : Nat) (st : Assembly) (funcs : List FuncPrototype)
    (locals : List LocalRecord) (ups : List UpvalueRecord) (body : List Ast)
    (st2 : Assembly) (funcs2 : List FuncPrototype) (idx : Nat)
    (h : compileFunction fuel st funcs locals ups body = some (st2, funcs2, idx)) :
    st2 = st := by
  cases fuel with
  | zero => exact absurd h (by simp [compileFunction])
  | succ fuel =>
    simp only [compileFunction] at h
    obtain ⟨⟨sub2, f2⟩, h1, h⟩ := Option.bind_eq_some.mp h
    dsimp only at h
    injection h with h
    injection h with h1 h2
    exact h1.symm

/-- Mutual induction over the compiler: provided no return statement
occurs at the statement level of the compiled node, every action on
the current assembly appends ret-free instructions or patches branch
addr windows in place (`AsmStep`), and the placeholders produced or
threaded hold addr windows of the resulting layout. -/
theorem compile_layout (fuel : Nat) :
    (∀ st funcs node destReg stOut funcsOut regOut prog,
      compile fuel st funcs node destReg = some (stOut, funcsOut, regOut) →
      TopRetFree node → GoodAsm st prog →
      ∃ prog2, AsmStep st stOut prog prog2) ∧
    (∀ st funcs stmts stOut funcsOut prog,
      compileStmts fuel st funcs stmts = some (stOut, funcsOut) →
      TopRetFreeL stmts → GoodAsm st prog →
      ∃ prog2, AsmStep st stOut prog prog2) ∧
    (∀ st funcs args i f0 stOut funcsOut regOut prog,
      compileDispatchArgs fuel st funcs args i f0 = some (stOut, funcsOut, regOut) →
      TopRetFreeL args → GoodAsm st prog →
      ∃ prog2, AsmStep st stOut prog prog2) ∧
    (∀ st funcs clauses stOut funcsOut labels prog,
      compileElifTests fuel st funcs clauses = some (stOut, funcsOut, labels) →
      TopRetFreeC clauses → GoodAsm st prog →
      ∃ prog2, (AsmStep st stOut prog prog2 ∧ ∀ ph ∈ labels, GoodPh prog2 ph)) ∧
    (∀ st funcs clauses labels doneL hasElse stOut funcsOut doneOut prog,
      compileElifBodies fuel st funcs clauses labels doneL hasElse
          = some (stOut, funcsOut, doneOut) →
      TopRetFreeC clauses → GoodAsm st prog → GoodPh prog doneL →
      (∀ ph ∈ labels, GoodPh prog ph) →
      ∃ prog2, (AsmStep st stOut prog prog2 ∧ GoodPh prog2 doneOut)) := by
  induction fuel with
  | zero =>
    refine ⟨?_, ?_, ?_, ?_, ?_⟩
    · intro st funcs node destReg stOut funcsOut regOut prog h _ _
      exact absurd h (by simp [compile])
    · intro st funcs stmts stOut funcsOut prog h _ _
      exact absurd h (by simp [compileStmts])
    · intro st funcs args i f0 stOut funcsOut regOut prog h _ _
      exact absurd h (by simp [compileDispatchArgs])
    · intro st funcs clauses stOut funcsOut labels prog h _ _
      exact absurd h (by simp [compileElifTests])
    · intro st funcs clauses labels doneL hasElse stOut funcsOut doneOut prog h _ _ _ _
      exact absurd h (by simp [compileElifBodies])
  | succ fuel ih =>
    obtain ⟨ihC, ihS, ihD, ihT, ihB⟩ := ih
    refine ⟨?_, ?_, ?_, ?_, ?_⟩
    · -- compile
      intro st funcs node destReg stOut funcsOut regOut prog h hrf hg
      cases node with
      | boolLit v =>
        simp only [compile] at h
        injection h with h
        injection h with h1 h2
        subst h1
        exact ⟨prog ++ [.boolConst v destReg], asmStep_trans
          (asmStep_emit st (.boolConst v destReg) prog hg (fun r2 hc => Instr.noConfusion hc))
          (asmStep_currFunc_eq _ _ _ (bumpIfOnStack_currFunc _ _)
            (emit_good st (.boolConst v destReg) prog hg))⟩
      | intLit v =>
        simp only [compile] at h
        injection h with h
        injection h with h1 h2
        subst h1
        exact ⟨prog ++ [.intConst v destReg], asmStep_trans
          (asmStep_emit st (.intConst v destReg) prog hg (fun r2 hc => Instr.noConfusion hc))
          (asmStep_currFunc_eq _ _ _ (bumpIfOnStack_currFunc _ _)
            (emit_good st (.intConst v destReg) prog hg))⟩
      | decLit bits =>
        simp only [compile] at h
        injection h with h
        injection h with h1 h2
        subst h1
        exact ⟨prog ++ [.decConst bits destReg], asmStep_trans
          (asmStep_emit st (.decConst bits destReg) prog hg (fun r2 hc => Instr.noConfusion hc))
          (asmStep_currFunc_eq _ _ _ (bumpIfOnStack_currFunc _ _)
            (emit_good st (.decConst bits destReg) prog hg))⟩
      | funcLit locals ups body =>
        simp only [compile] at h
        obtain ⟨⟨st1, f1, kidx⟩, h1, h⟩ := Option.bind_eq_some.mp h
        (try dsimp only at h)
        injection h with h
        injection h with h2 h3
        have hst1 : st1 = st := compileFunction_st fuel st funcs locals ups body st1 f1 kidx h1
        rw [hst1] at h2
        subst h2
        exact ⟨prog ++ [.funcConst kidx destReg], asmStep_trans
          (asmStep_emit st (.funcConst kidx destReg) prog hg (fun r2 hc => Instr.noConfusion hc))
          (asmStep_currFunc_eq _ _ _ (bumpIfOnStack_currFunc _ _)
            (emit_good st (.funcConst kidx destReg) prog hg))⟩
      | identExpr name =>
        simp only [compile] at h
        rcases hup : getUpvalueRecord st name with _ | idx
        · rw [hup] at h
          rcases hloc : lookupLocalRegister st name with _ | r0
          · rw [hloc] at h
            exact Option.noConfusion h
          · rw [hloc] at h
            injection h with h
            injection h with h1 h2
            subst h1
            exact ⟨prog, asmStep_refl st prog hg⟩
        · rw [hup] at h
          injection h with h
          injection h with h1 h2
          subst h1
          exact ⟨prog ++ [.loadUpVal (idx : Int) destReg], asmStep_trans
            (asmStep_emit st (.loadUpVal (idx : Int) destReg) prog hg
              (fun r2 hc => Instr.noConfusion hc))
            (asmStep_currFunc_eq _ _ _ (bumpIfOnStack_currFunc _ _)
              (emit_good st (.loadUpVal (idx : Int) destReg) prog hg))⟩
      | binary op leftTy l r =>
        cases hrf with
        | binary _ _ hrfl hrfr =>
        simp only [compile] at h
        obtain ⟨⟨st1, f1, leftReg⟩, h1, h⟩ := Option.bind_eq_some.mp h
        (try dsimp only at h)
        obtain ⟨⟨st2x, f2, rightReg⟩, h2, h⟩ := Option.bind_eq_some.mp h
        (try dsimp only at h)
        obtain ⟨prog1, hs1⟩ := ihC st funcs l st.stackPtr st1 f1 leftReg prog h1 hrfl hg
        obtain ⟨prog2, hs2⟩ := ihC st1 f1 r st1.stackPtr st2x f2 rightReg prog1 h2 hrfr hs1.1
        have key : ∃ prog3 st3, AsmStep st2x st3 prog2 prog3 ∧
            bumpIfOnStack (dropIfOnStack (dropIfOnStack st3 leftReg) rightReg) destReg
              = stOut := by
          by_cases hty : leftTy = "Int"
          · rw [if_pos hty] at h
            obtain ⟨st3, h3, h⟩ := Option.bind_eq_some.mp h
            (try dsimp only at h)
            obtain ⟨ii, hii, hmap⟩ := Option.map_eq_some'.mp h3
            subst hmap
            injection h with h
            injection h with h4 h5
            exact ⟨prog2 ++ [ii], emit st2x ii,
              asmStep_emit st2x ii prog2 hs2.1 (chooseIntInstr_ne_ret _ _ _ _ _ hii), h4⟩
          rw [if_neg hty] at h
          by_cases hty2 : leftTy = "Dec"
          · rw [if_pos hty2] at h
            obtain ⟨st3, h3, h⟩ := Option.bind_eq_some.mp h
            (try dsimp only at h)
            obtain ⟨ii, hii, hmap⟩ := Option.map_eq_some'.mp h3
            subst hmap
            injection h with h
            injection h with h4 h5
            exact ⟨prog2 ++ [ii], emit st2x ii,
              asmStep_emit st2x ii prog2 hs2.1 (chooseDecInstr_ne_ret _ _ _ _ _ hii), h4⟩
          · rw [if_neg hty2] at h
            obtain ⟨st3, h3, h⟩ := Option.bind_eq_some.mp h
            injection h3 with h3
            subst h3
            (try dsimp only at h)
            injection h with h
            injection h with h4 h5
            exact ⟨prog2, st2x, asmStep_refl st2x prog2 hs2.1, h4⟩
        obtain ⟨prog3, st3, hs3, h4⟩ := key
        subst h4
        refine ⟨prog3, asmStep_trans (asmStep_trans (asmStep_trans hs1 hs2) hs3) ?_⟩
        apply asmStep_currFunc_eq
        · rw [bumpIfOnStack_currFunc, dropIfOnStack_currFunc, dropIfOnStack_currFunc]
        · exact hs3.1
      | declStmt name assignment =>
        cases hrf with
        | declStmt _ hrfa =>
        simp only [compile] at h
        obtain ⟨dest2, hdl, h⟩ := Option.bind_eq_some.mp h
        (try dsimp only at h)
        obtain ⟨⟨st1, f1, aReg⟩, h1, h⟩ := Option.bind_eq_some.mp h
        (try dsimp only at h)
        injection h with h
        injection h with h4 h5
        obtain ⟨prog1, hs1⟩ := ihC st funcs assignment dest2 st1 f1 aReg prog h1 hrfa hg
        subst h4
        by_cases hc : aReg ≠ dest2 ∧ isRegisterOnStack st1 aReg = false
        · rw [if_pos hc]
          exact ⟨prog1 ++ [.move aReg dest2], asmStep_trans hs1
            (asmStep_emit st1 (.move aReg dest2) prog1 hs1.1
              (fun r2 hc2 => Instr.noConfusion hc2))⟩
        · rw [if_neg hc]
          exact ⟨prog1, hs1⟩
      | assignStmt name assignment =>
        cases hrf with
        | assignStmt _ hrfa =>
        simp only [compile] at h
        rcases hup : getUpvalueRecord st name with _ | index
        · rw [hup] at h
          obtain ⟨⟨st1, f1, dest2⟩, h1, h⟩ := Option.bind_eq_some.mp h
          (try dsimp only at h)
          obtain ⟨⟨st2x, f2, aReg⟩, h2, h⟩ := Option.bind_eq_some.mp h
          (try dsimp only at h)
          injection h with h
          injection h with h4 h5
          obtain ⟨prog1, hs1⟩ :=
            ihC st funcs (.identExpr name) st.stackPtr st1 f1 dest2 prog h1
              (TopRetFree.identExpr name) hg
          obtain ⟨prog2, hs2⟩ := ihC st1 f1 assignment dest2 st2x f2 aReg prog1 h2 hrfa hs1.1
          subst h4
          by_cases hc : aReg ≠ dest2 ∧ isRegisterOnStack st2x aReg = false
          · rw [if_pos hc]
            exact ⟨prog2 ++ [.move aReg dest2], asmStep_trans (asmStep_trans hs1 hs2)
              (asmStep_emit st2x (.move aReg dest2) prog2 hs2.1
                (fun r2 hc2 => Instr.noConfusion hc2))⟩
          · rw [if_neg hc]
            exact ⟨prog2, asmStep_trans hs1 hs2⟩
        · rw [hup] at h
          obtain ⟨⟨st1, f1, aReg⟩, h1, h⟩ := Option.bind_eq_some.mp h
          (try dsimp only at h)
          injection h with h
          injection h with h4 h5
          obtain ⟨prog1, hs1⟩ := ihC st funcs assignment st.stackPtr st1 f1 aReg prog h1 hrfa hg
          subst h4
          refine ⟨prog1 ++ [.setUpVal aReg (index : Int)], ?_⟩
          refine asmStep_trans (asmStep_trans hs1
            (asmStep_emit st1 (.setUpVal aReg (index : Int)) prog1 hs1.1
              (fun r2 hc2 => Instr.noConfusion hc2))) ?_
          apply asmStep_currFunc_eq
          · rw [dropIfOnStack_currFunc]
          · exact emit_good st1 (.setUpVal aReg (index : Int)) prog1 hs1.1
      | dispatchExpr root args =>
        cases hrf with
        | dispatchExpr hrfr hrfa =>
        simp only [compile] at h
        obtain ⟨⟨st1, f1, sourceReg⟩, h1, h⟩ := Option.bind_eq_some.mp h
        (try dsimp only at h)
        obtain ⟨⟨st3x, f3, firstArg⟩, h2, h⟩ := Option.bind_eq_some.mp h
        (try dsimp only at h)
        injection h with h
        injection h with h4 h5
        obtain ⟨prog1, hs1⟩ := ihC st funcs root st.stackPtr st1 f1 sourceReg prog h1 hrfr hg
        have hsb : AsmStep st1 (bumpIfOnStack st1 sourceReg) prog1 prog1 :=
          asmStep_currFunc_eq _ _ _ (bumpIfOnStack_currFunc _ _) hs1.1
        obtain ⟨prog3, hs3⟩ :=
          ihD (bumpIfOnStack st1 sourceReg) f1 args 0 0 st3x f3 firstArg prog1 h2 hrfa hsb.1
        have hs4 : AsmStep st3x { st3x with stackPtr := firstArg } prog3 prog3 :=
          asmStep_currFunc_eq _ _ _ rfl hs3.1
        have hs5 : AsmStep { st3x with stackPtr := firstArg }
            (emit { st3x with stackPtr := firstArg } (.dispatch sourceReg firstArg))
            prog3 (prog3 ++ [.dispatch sourceReg firstArg]) :=
          asmStep_emit _ (.dispatch sourceReg firstArg) prog3 hs4.1
            (fun r2 hc2 => Instr.noConfusion hc2)
        subst h4
        by_cases hd : destReg ≠ 0
        · rw [if_pos hd]
          refine ⟨(prog3 ++ [.dispatch sourceReg firstArg]) ++ [.move 0 destReg], ?_⟩
          exact asmStep_trans (asmStep_trans (asmStep_trans (asmStep_trans
            (asmStep_trans hs1 hsb) hs3) hs4) hs5)
            (asmStep_emit _ (.move 0 destReg) _ hs5.1 (fun r2 hc2 => Instr.noConfusion hc2))
        · rw [if_neg hd]
          exact ⟨prog3 ++ [.dispatch sourceReg firstArg],
            asmStep_trans (asmStep_trans (asmStep_trans (asmStep_trans hs1 hsb) hs3) hs4) hs5⟩
      | returnStmt argument =>
        cases hrf
      | printStmt args =>
        cases hrf with
        | printStmt hrfa =>
        simp only [compile] at h
        cases args with
        | nil => exact Option.noConfusion h
        | cons arg more =>
          cases hrfa with
          | cons hrfh hrft =>
          obtain ⟨⟨st1, f1, sourceReg⟩, h1, h⟩ := Option.bind_eq_some.mp h
          (try dsimp only at h)
          injection h with h
          injection h with h4 h5
          obtain ⟨prog1, hs1⟩ := ihC st funcs arg st.stackPtr st1 f1 sourceReg prog h1 hrfh hg
          subst h4
          exact ⟨prog1 ++ [.print sourceReg], asmStep_trans hs1
            (asmStep_emit st1 (.print sourceReg) prog1 hs1.1
              (fun r2 hc2 => Instr.noConfusion hc2))⟩
      | ifStmt ifClause elifClauses elseClause =>
        cases hrf with
        | ifStmt hrft hrfb hrfc hrfo =>
        simp only [compile] at h
        obtain ⟨⟨st1, f1, ifTestReg⟩, h1, h⟩ := Option.bind_eq_some.mp h
        (try dsimp only at h)
        obtain ⟨prog1, hs1⟩ := ihC st funcs _ st.stackPtr st1 f1 ifTestReg prog h1 hrft hg
        obtain ⟨hsr1, hplaces1, hwin1⟩ :=
          registerJumpA_out st1 { placesHeld := [] } (.brTrue ifTestReg 0) prog1 hs1.1 rfl
        have hifL : GoodPh (prog1 ++ [.brTrue ifTestReg 0])
            (registerJumpA st1 { placesHeld := [] } (.brTrue ifTestReg 0)).2 := by
          intro p hp
          rw [hplaces1, List.nil_append, List.mem_singleton] at hp
          subst hp
          exact hwin1
        have hsd : AsmStep (registerJumpA st1 { placesHeld := [] } (.brTrue ifTestReg 0)).1
            (dropIfOnStack (registerJumpA st1 { placesHeld := [] }
              (.brTrue ifTestReg 0)).1 ifTestReg)
            (prog1 ++ [.brTrue ifTestReg 0]) (prog1 ++ [.brTrue ifTestReg 0]) :=
          asmStep_currFunc_eq _ _ _ (dropIfOnStack_currFunc _ _) hsr1.1
        obtain ⟨⟨st4, f4, elifLabels⟩, h2, h⟩ := Option.bind_eq_some.mp h
        (try dsimp only at h)
        obtain ⟨progT, hsT, hlabsT⟩ :=
          ihT _ f1 elifClauses st4 f4 elifLabels (prog1 ++ [.brTrue ifTestReg 0]) h2 hrfc hsd.1
        obtain ⟨hsr2, hplaces2, hwin2⟩ :=
          registerJumpA_out st4 { placesHeld := [] } (.brAlways 0) progT hsT.1 rfl
        have hifLA : GoodPh (progT ++ [.brAlways 0])
            (registerJumpA st1 { placesHeld := [] } (.brTrue ifTestReg 0)).2 :=
          goodPh_ext _ _ _ (progExt_trans hsT.2.1 hsr2.2.1) hifL
        obtain ⟨progJ, hsJ⟩ :=
          computeJumpsA_out (registerJumpA st4 { placesHeld := [] } (.brAlways 0)).1
            (registerJumpA st1 { placesHeld := [] } (.brTrue ifTestReg 0)).2
            (progT ++ [.brAlways 0]) hsr2.1 hifLA
        have hchain0 : AsmStep st
            (computeJumpsA (registerJumpA st4 { placesHeld := [] } (.brAlways 0)).1
              (registerJumpA st1 { placesHeld := [] } (.brTrue ifTestReg 0)).2)
            prog progJ :=
          asmStep_trans (asmStep_trans (asmStep_trans (asmStep_trans
            (asmStep_trans hs1 hsr1) hsd) hsT) hsr2) hsJ
        have hlabsJ : ∀ ph ∈ elifLabels, GoodPh progJ ph := by
          intro ph hph
          exact goodPh_ext _ _ ph (progExt_trans hsr2.2.1 hsJ.2.1) (hlabsT ph hph)
        cases elseClause with
        | none =>
          (try dsimp only at h)
          obtain ⟨⟨st7, f7⟩, h3, h⟩ := Option.bind_eq_some.mp h
          (try dsimp only at h)
          obtain ⟨progB, hsB⟩ := ihS _ f4 _ st7 f7 progJ h3 hrfb hsJ.1
          have hdl0B : GoodPh progB
              (registerJumpA st4 { placesHeld := [] } (.brAlways 0)).2 := by
            intro p hp
            rw [hplaces2, List.nil_append, List.mem_singleton] at hp
            subst hp
            exact hsB.2.1.2 _ (hsJ.2.1.2 _ hwin2)
          have hlabsB : ∀ ph ∈ elifLabels, GoodPh progB ph := by
            intro ph hph
            exact goodPh_ext _ _ ph hsB.2.1 (hlabsJ ph hph)
          by_cases hcond :
              ((none : Option (List Ast)).isSome || !elifClauses.isEmpty) = true
          · rw [if_pos hcond] at h
            obtain ⟨hsr3, hplaces3, hwin3⟩ :=
              registerJumpA_out st7
                (registerJumpA st4 { placesHeld := [] } (.brAlways 0)).2
                (.brAlways 0) progB hsB.1 rfl
            have hdone3 : GoodPh (progB ++ [.brAlways 0])
                (registerJumpA st7
                  (registerJumpA st4 { placesHeld := [] } (.brAlways 0)).2
                  (.brAlways 0)).2 := by
              intro p hp
              rw [hplaces3] at hp
              rcases List.mem_append.mp hp with hl2 | hr2
              · exact hsr3.2.1.2 p (hdl0B p hl2)
              · rw [List.mem_singleton] at hr2
                subst hr2
                exact hwin3
            have hlabsR : ∀ ph ∈ elifLabels, GoodPh (progB ++ [.brAlways 0]) ph := by
              intro ph hph
              exact goodPh_ext _ _ ph hsr3.2.1 (hlabsB ph hph)
            obtain ⟨⟨st8, f8, doneLabel2⟩, h4, h⟩ := Option.bind_eq_some.mp h
            (try dsimp only at h)
            obtain ⟨progE, hsE, hdoneE⟩ :=
              ihB _ f7 elifClauses elifLabels _ _ st8 f8 doneLabel2
                (progB ++ [.brAlways 0]) h4 hrfc hsr3.1 hdone3 hlabsR
            obtain ⟨⟨st9, f9⟩, h5, h⟩ := Option.bind_eq_some.mp h
            (try dsimp only at h)
            injection h5 with h5
            injection h5 with h5a h5b
            subst h5a
            injection h with h
            injection h with ha hb2
            obtain ⟨progZ, hsZ⟩ := computeJumpsA_out _ doneLabel2 progE hsE.1 hdoneE
            subst ha
            exact ⟨progZ, asmStep_trans (asmStep_trans (asmStep_trans (asmStep_trans
              hchain0 hsB) hsr3) hsE) hsZ⟩
          · rw [if_neg hcond] at h
            obtain ⟨⟨st8, f8, doneLabel2⟩, h4, h⟩ := Option.bind_eq_some.mp h
            (try dsimp only at h)
            obtain ⟨progE, hsE, hdoneE⟩ :=
              ihB st7 f7 elifClauses elifLabels _ _ st8 f8 doneLabel2
                progB h4 hrfc hsB.1 hdl0B hlabsB
            obtain ⟨⟨st9, f9⟩, h5, h⟩ := Option.bind_eq_some.mp h
            (try dsimp only at h)
            injection h5 with h5
            injection h5 with h5a h5b
            subst h5a
            injection h with h
            injection h with ha hb2
            obtain ⟨progZ, hsZ⟩ := computeJumpsA_out _ doneLabel2 progE hsE.1 hdoneE
            subst ha
            exact ⟨progZ, asmStep_trans (asmStep_trans (asmStep_trans
              hchain0 hsB) hsE) hsZ⟩
        | some ebody =>
          cases hrfo with
          | some hrfe =>
          (try dsimp only at h)
          obtain ⟨⟨st7, f7⟩, h3, h⟩ := Option.bind_eq_some.mp h
          (try dsimp only at h)
          obtain ⟨progB, hsB⟩ := ihS _ f4 _ st7 f7 progJ h3 hrfb hsJ.1
          have helseB0 : GoodPh (progT ++ [.brAlways 0])
              (registerJumpA st4 { placesHeld := [] } (.brAlways 0)).2 := by
            intro p hp
            rw [hplaces2, List.nil_append, List.mem_singleton] at hp
            subst hp
            exact hwin2
          have hlabsB : ∀ ph ∈ elifLabels, GoodPh progB ph := by
            intro ph hph
            exact goodPh_ext _ _ ph hsB.2.1 (hlabsJ ph hph)
          have hdl0B : GoodPh progB ({ placesHeld := [] } : Placeholder) :=
            fun p hp => absurd hp (List.not_mem_nil p)
          by_cases hcond :
              ((some ebody : Option (List Ast)).isSome || !elifClauses.isEmpty) = true
          · rw [if_pos hcond] at h
            obtain ⟨hsr3, hplaces3, hwin3⟩ :=
              registerJumpA_out st7 ({ placesHeld := [] } : Placeholder)
                (.brAlways 0) progB hsB.1 rfl
            have hdone3 : GoodPh (progB ++ [.brAlways 0])
                (registerJumpA st7 ({ placesHeld := [] } : Placeholder) (.brAlways 0)).2 := by
              intro p hp
              rw [hplaces3, List.nil_append, List.mem_singleton] at hp
              subst hp
              exact hwin3
            have hlabsR : ∀ ph ∈ elifLabels, GoodPh (progB ++ [.brAlways 0]) ph := by
              intro ph hph
              exact goodPh_ext _ _ ph hsr3.2.1 (hlabsB ph hph)
            obtain ⟨⟨st8, f8, doneLabel2⟩, h4, h⟩ := Option.bind_eq_some.mp h
            (try dsimp only at h)
            obtain ⟨progE, hsE, hdoneE⟩ :=
              ihB _ f7 elifClauses elifLabels _ _ st8 f8 doneLabel2
                (progB ++ [.brAlways 0]) h4 hrfc hsr3.1 hdone3 hlabsR
            have helseE : GoodPh progE
                (registerJumpA st4 { placesHeld := [] } (.brAlways 0)).2 := by
              intro p hp
              exact hsE.2.1.2 p (hsr3.2.1.2 p (hsB.2.1.2 p (hsJ.2.1.2 p (helseB0 p hp))))
            obtain ⟨progK, hsK⟩ :=
              computeJumpsA_out st8
                (registerJumpA st4 { placesHeld := [] } (.brAlways 0)).2 progE hsE.1 helseE
            obtain ⟨⟨st9, f9⟩, h5, h⟩ := Option.bind_eq_some.mp h
            (try dsimp only at h)
            obtain ⟨progL, hsL⟩ := ihS _ f8 ebody st9 f9 progK h5 hrfe hsK.1
            injection h with h
            injection h with ha hb2
            have hdoneL : GoodPh progL doneLabel2 :=
              goodPh_ext _ _ _ (progExt_trans hsK.2.1 hsL.2.1) hdoneE
            obtain ⟨progZ, hsZ⟩ := computeJumpsA_out st9 doneLabel2 progL hsL.1 hdoneL
            subst ha
            exact ⟨progZ, asmStep_trans (asmStep_trans (asmStep_trans (asmStep_trans
              (asmStep_trans (asmStep_trans hchain0 hsB) hsr3) hsE) hsK) hsL) hsZ⟩
          · rw [if_neg hcond] at h
            obtain ⟨⟨st8, f8, doneLabel2⟩, h4, h⟩ := Option.bind_eq_some.mp h
            (try dsimp only at h)
            obtain ⟨progE, hsE, hdoneE⟩ :=
              ihB st7 f7 elifClauses elifLabels _ _ st8 f8 doneLabel2
                progB h4 hrfc hsB.1 hdl0B hlabsB
            have helseE : GoodPh progE
                (registerJumpA st4 { placesHeld := [] } (.brAlways 0)).2 := by
              intro p hp
              exact hsE.2.1.2 p (hsB.2.1.2 p (hsJ.2.1.2 p (helseB0 p hp)))
            obtain ⟨progK, hsK⟩ :=
              computeJumpsA_out st8
                (registerJumpA st4 { placesHeld := [] } (.brAlways 0)).2 progE hsE.1 helseE
            obtain ⟨⟨st9, f9⟩, h5, h⟩ := Option.bind_eq_some.mp h
            (try dsimp only at h)
            obtain ⟨progL, hsL⟩ := ihS _ f8 ebody st9 f9 progK h5 hrfe hsK.1
            injection h with h
            injection h with ha hb2
            have hdoneL : GoodPh progL doneLabel2 :=
              goodPh_ext _ _ _ (progExt_trans hsK.2.1 hsL.2.1) hdoneE
            obtain ⟨progZ, hsZ⟩ := computeJumpsA_out st9 doneLabel2 progL hsL.1 hdoneL
            subst ha
            exact ⟨progZ, asmStep_trans (asmStep_trans (asmStep_trans (asmStep_trans
              (asmStep_trans hchain0 hsB) hsE) hsK) hsL) hsZ⟩
    · -- compileStmts
      intro st funcs stmts stOut funcsOut prog h hrf hg
      cases stmts with
      | nil =>
        simp only [compileStmts] at h
        injection h with h
        injection h with h1 h2
        subst h1
        exact ⟨prog, asmStep_refl st prog hg⟩
      | cons stmt more =>
        cases hrf with
        | cons hrfh hrft =>
        simp only [compileStmts] at h
        obtain ⟨⟨st1, f1, r1⟩, h1, h⟩ := Option.bind_eq_some.mp h
        (try dsimp only at h)
        obtain ⟨prog1, hs1⟩ := ihC st funcs stmt st.stackPtr st1 f1 r1 prog h1 hrfh hg
        obtain ⟨prog2, hs2⟩ := ihS st1 f1 more stOut funcsOut prog1 h hrft hs1.1
        exact ⟨prog2, asmStep_trans hs1 hs2⟩
    · -- compileDispatchArgs
      intro st funcs args i f0 stOut funcsOut regOut prog h hrf hg
      cases args with
      | nil =>
        simp only [compileDispatchArgs] at h
        injection h with h
        injection h with h1 h2
        subst h1
        exact ⟨prog, asmStep_refl st prog hg⟩
      | cons arg more =>
        cases hrf with
        | cons hrfh hrft =>
        simp only [compileDispatchArgs] at h
        obtain ⟨⟨st1, f1, pReg⟩, h1, h⟩ := Option.bind_eq_some.mp h
        (try dsimp only at h)
        obtain ⟨prog1, hs1⟩ := ihC st funcs arg st.stackPtr st1 f1 pReg prog h1 hrfh hg
        obtain ⟨prog2, hs2⟩ :=
          ihD st1 f1 more (i + 1) (if i = 0 then pReg else f0) stOut funcsOut regOut prog1
            h hrft hs1.1
        exact ⟨prog2, asmStep_trans hs1 hs2⟩
    · -- compileElifTests
      intro st funcs clauses stOut funcsOut labels prog h hrf hg
      cases clauses with
      | nil =>
        simp only [compileElifTests] at h
        injection h with h
        injection h with h1 h2
        injection h2 with h2 h3
        subst h1
        subst h3
        exact ⟨prog, asmStep_refl st prog hg, fun ph hph => absurd hph (List.not_mem_nil ph)⟩
      | cons clause more =>
        cases hrf with
        | cons hrft hrfb hrfm =>
        simp only [compileElifTests] at h
        obtain ⟨⟨st1, f1, testReg⟩, h1, h⟩ := Option.bind_eq_some.mp h
        (try dsimp only at h)
        obtain ⟨⟨st4, f4, labs⟩, h2, h⟩ := Option.bind_eq_some.mp h
        (try dsimp only at h)
        injection h with h
        injection h with ha hb2
        injection hb2 with hb2 hc2
        obtain ⟨prog1, hs1⟩ := ihC st funcs _ st.stackPtr st1 f1 testReg prog h1 hrft hg
        obtain ⟨hsr, hplaces, hwin⟩ :=
          registerJumpA_out st1 { placesHeld := [] } (.brTrue testReg 0) prog1 hs1.1 rfl
        have hsd : AsmStep (registerJumpA st1 { placesHeld := [] } (.brTrue testReg 0)).1
            (dropIfOnStack (registerJumpA st1 { placesHeld := [] }
              (.brTrue testReg 0)).1 testReg)
            (prog1 ++ [.brTrue testReg 0]) (prog1 ++ [.brTrue testReg 0]) :=
          asmStep_currFunc_eq _ _ _ (dropIfOnStack_currFunc _ _) hsr.1
        obtain ⟨prog4, hs4, hlabs⟩ :=
          ihT _ f1 more st4 f4 labs (prog1 ++ [.brTrue testReg 0]) h2 hrfm hsd.1
        subst ha
        refine ⟨prog4, asmStep_trans (asmStep_trans (asmStep_trans hs1 hsr) hsd) hs4, ?_⟩
        intro ph hph
        rw [← hc2] at hph
        rcases List.mem_cons.mp hph with he | ht2
        · subst he
          intro p hp
          rw [hplaces, List.nil_append, List.mem_singleton] at hp
          subst hp
          exact hs4.2.1.2 _ hwin
        · exact hlabs ph ht2
    · -- compileElifBodies
      intro st funcs clauses labels doneL hasElse stOut funcsOut doneOut prog h hrf hg hdl hlb
      cases clauses with
      | nil =>
        simp only [compileElifBodies] at h
        injection h with h
        injection h with h1 h2
        injection h2 with h2 h3
        subst h1
        subst h3
        exact ⟨prog, asmStep_refl st prog hg, hdl⟩
      | cons clause more =>
        cases labels with
        | nil =>
          simp only [compileElifBodies] at h
          exact Option.noConfusion h
        | cons label labels2 =>
          cases hrf with
          | cons hrft hrfb hrfm =>
          simp only [compileElifBodies] at h
          obtain ⟨prog0, hs0⟩ := computeJumpsA_out st label prog hg (hlb label (by simp))
          obtain ⟨⟨st2, f2⟩, h1, h⟩ := Option.bind_eq_some.mp h
          (try dsimp only at h)
          obtain ⟨prog2, hs2⟩ := ihS (computeJumpsA st label) funcs _ st2 f2 prog0 h1 hrfb hs0.1
          have hext02 : ProgExt prog prog2 := progExt_trans hs0.2.1 hs2.2.1
          by_cases hcond : (hasElse || !more.isEmpty) = true
          · rw [if_pos hcond] at h
            obtain ⟨hsr, hplaces, hwin⟩ :=
              registerJumpA_out st2 doneL (.brAlways 0) prog2 hs2.1 rfl
            have hdone2 : GoodPh (prog2 ++ [.brAlways 0])
                (registerJumpA st2 doneL (.brAlways 0)).2 := by
              intro p hp
              rw [hplaces] at hp
              rcases List.mem_append.mp hp with hl2 | hr2
              · exact hsr.2.1.2 p (hext02.2 p (hdl p hl2))
              · rw [List.mem_singleton] at hr2
                subst hr2
                exact hwin
            have hlb2 : ∀ ph ∈ labels2, GoodPh (prog2 ++ [.brAlways 0]) ph := by
              intro ph hph
              exact goodPh_ext _ _ ph (progExt_trans hext02 hsr.2.1)
                (hlb ph (List.mem_cons_of_mem _ hph))
            obtain ⟨prog5, hs5, hdone5⟩ :=
              ihB _ f2 more labels2 (registerJumpA st2 doneL (.brAlways 0)).2 hasElse
                stOut funcsOut doneOut (prog2 ++ [.brAlways 0]) h hrfm hsr.1 hdone2 hlb2
            exact ⟨prog5,
              asmStep_trans (asmStep_trans (asmStep_trans hs0 hs2) hsr) hs5, hdone5⟩
          · rw [if_neg hcond] at h
            have hdone2 : GoodPh prog2 doneL := goodPh_ext _ _ _ hext02 hdl
            have hlb2 : ∀ ph ∈ labels2, GoodPh prog2 ph := by
              intro ph hph
              exact goodPh_ext _ _ ph hext02 (hlb ph (List.mem_cons_of_mem _ hph))
            obtain ⟨prog5, hs5, hdone5⟩ :=
              ihB st2 f2 more labels2 doneL hasElse stOut funcsOut doneOut prog2
                h hrfm hs2.1 hdone2 hlb2
            exact ⟨prog5, asmStep_trans (asmStep_trans hs0 hs2) hs5, hdone5⟩

/-- `Compile` on a program with no global-scope return statement: the
produced main prototype's bytecode is the assembly of a ret-free
instruction list (ending in the terminal `Halt`), and the main
prototype captures no upvalues. -/
theorem compileProgram_retFree (fuel : Nat) (statements : List Ast)
    (progLocals : List LocalRecord) (mainP : FuncPrototype)
    (funcs : List FuncPrototype)
    (h : compileProgram fuel statements progLocals = some (mainP, funcs))
    (hrf : TopRetFreeL statements) :
    ∃ prog, mainP.bytecode.bytes = assemble prog ∧ RetFreeProg prog ∧
      mainP.upvalues = [] := by
  unfold compileProgram at h
  obtain ⟨⟨st1, f1⟩, h1, h⟩ := Option.bind_eq_some.mp h
  (try dsimp only at h)
  injection h with h
  injection h with ha hb
  obtain ⟨prog1, hs1⟩ :=
    (compile_layout fuel).2.1 _ [] statements st1 f1 [] h1 hrf ⟨rfl, rfl⟩
  refine ⟨prog1 ++ [Instr.halt], ?_, ?_, ?_⟩
  · rw [← ha]
    exact (emit_good st1 .halt prog1 hs1.1).1
  · exact retFreeProg_append prog1 [Instr.halt]
      (hs1.2.1.1 (fun i hi => absurd hi (List.not_mem_nil i)))
      (retFreeProg_singleton Instr.halt (fun r hc => Instr.noConfusion hc))
  · rw [← ha]
    show st1.currFunc.upvalues = []
    rw [hs1.2.2]

/-- Claim C10: for any program the compiler produces from a valid AST,
a Return instruction never executes while the call stack holds only
one frame, so call-stack underflow on Return cannot occur.  The
studied checker rejects every return statement in the global scope
('return statements are not allowed outside of a function body'), so a
valid program's top-level statement list satisfies `TopRetFreeL`; the
compiled main prototype then assembles from a Return-free instruction
list ending in Halt, and in every state reachable from
`NewInterpreter`'s initial state whose call stack has shrunk back to
the single main frame, the opcode about to execute is never
`OpcodeReturn`.  Function bodies (which the compiler terminates with a
Return) are unconstrained: their Returns always execute against a
stack of depth at least two and pop normally. -/
theorem c10_compiled_no_return_underflow (fuel : Nat) (statements : List Ast)
    (progLocals : List LocalRecord) (mainP : FuncPrototype)
    (funcs : List FuncPrototype) (s0 : InterpState) (n : Nat) (s2 : InterpState)
    (hc : compileProgram fuel statements progLocals = some (mainP, funcs))
    (hvalid : TopRetFreeL statements)
    (hinit : newInterpreter mainP funcs = some s0)
    (hrun : stepN n s0 = some s2)
    (hdepth : s2.callStack.length = 1) :
    nextOpcode s2 ≠ some OpcodeReturn := by
  obtain ⟨prog, hbytes, hretfree, hup⟩ :=
    compileProgram_retFree fuel statements progLocals mainP funcs hc hvalid
  exact c10_no_return_at_depth_one prog mainP funcs s0 n s2 hbytes hup
    hretfree hinit hrun hdepth

theorem c10_compiled_no_return_underflow_witness :
    c10wS0p.callStack.length = 1 ∧ nextOpcode c10wS0p ≠ some OpcodeReturn :=
  ⟨rfl,
   c10_compiled_no_return_underflow 4 c10wProg [] c10wMainP [] c10wS0p 0 c10wS0p
     rfl
     (TopRetFreeL.cons (TopRetFree.printStmt
       (TopRetFreeL.cons (TopRetFree.intLit 1) TopRetFreeL.nil)) TopRetFreeL.nil)
     rfl rfl rfl⟩

end Plaid
